import Mathlib

/-!
# Routing core of the `iris` package: garden, method matchers, dispatcher

A shallow embedding of `garden.go`, `router.go`, the specialization pass and `Serve` of
`station.go`, and the plugin container of `plugin.go` (package `iris`) together with
theorems about route registration (`Garden.Plant`), the garden lookups, the method
matchers, the request dispatch of `Router` and `RouterDomain`, `Station.OptimusPrime` and
`PluginContainer.Plugin`.

Conventions of the embedding

* A Go `string` is a sequence of bytes (`GoString`); `len`, indexing and slicing are
  the list operations.
* A Go pointer `*Branch` is `Option Ptr`: `none` is `nil`, `some p` is the address `p`.
* `Branch` (the path tree) is an external collaborator.  The heap records how many
  branches were allocated and every `AddBranch` call, oldest first; the state of a
  branch is the sequence of `AddBranch` calls made on it.
* Calls on the request context are recorded, oldest first, in the `trace` of the
  context; what the handlers of a chain do when they run is not modelled.
-/

namespace Iris

/-! ## Strings and constants -/

/-- A Go string: a finite sequence of bytes. -/
abbrev GoString := List UInt8

/-- The bytes (UTF-8) of a string literal. -/
def str (s : String) : GoString := s.toUTF8.data.toList

/-- Modelled from the spec: `HTTPMethods.GET`, the method name `GET` (the declaration of
`HTTPMethods` is not part of the sources at hand). -/
def HTTPMethods.GET : GoString := str "GET"

/-- Modelled from the spec: `HTTPMethods.OPTIONS`, the method name `OPTIONS` (the
declaration of `HTTPMethods` is not part of the sources at hand). -/
def HTTPMethods.OPTIONS : GoString := str "OPTIONS"

/-- Modelled from the spec: `HTTPMethods.CONNECT`, the method name `CONNECT` (the
declaration of `HTTPMethods` is not part of the sources at hand). -/
def HTTPMethods.CONNECT : GoString := str "CONNECT"

/-- The constant `Slash` of router.go. -/
def Slash : GoString := str "/"

/-- The constant `SlashByte` of router.go. -/
def SlashByte : UInt8 := 47

/-- The status code `http.StatusMovedPermanently`. -/
def StatusMovedPermanently : Nat := 301

/-! ## Routes, branches and the heap -/

/-- Modelled from the spec: the type `Middleware` (declared outside the sources at hand)
is the ordered handler chain of a route; a handler is identified by a number. -/
abbrev Middleware := List Nat

/-- Modelled from the spec: the type `PathParameters` (declared outside the sources at
hand) holds the parameters bound by a lookup, as key and value pairs. -/
abbrev PathParameters := List (GoString × GoString)

/-- Modelled from the spec: a route as `Plant` reads it through the interface `IRoute`
(`GetMethod`, `GetDomain`, `GetPath`, `GetMiddleware`); `cors` tells whether the route
requested cross-origin support. -/
structure Route where
  method : GoString
  domain : GoString
  path : GoString
  middleware : Middleware
  cors : Bool
  deriving DecidableEq, Repr

/-- Modelled from the spec: `hasCors` of utils.go (not part of the sources at hand) tells
whether the route requested cross-origin support. -/
def hasCors (_route : Route) : Bool := _route.cors

/-- The address of a `Branch` object. -/
abbrev Ptr := Nat

/-- One `AddBranch(key, middleware)` call on the branch at address `root`. -/
structure AddBranchCall where
  root : Ptr
  key : GoString
  middleware : Middleware
  deriving DecidableEq, Repr

/-- The branches of the program: `next` branches have been allocated (at the addresses
below `next`), and `calls` lists the `AddBranch` calls made so far, oldest first. -/
structure Heap where
  next : Nat
  calls : List AddBranchCall
  deriving DecidableEq, Repr

/-- The allocation `new(Branch)`: a fresh address and the heap after the allocation. -/
def Heap.new (h : Heap) : Ptr × Heap := (h.next, { h with next := h.next + 1 })

/-- The call `theRoot.AddBranch(key, middleware)`. -/
def Heap.AddBranch (h : Heap) (theRoot : Ptr) (key : GoString) (middleware : Middleware) :
    Heap :=
  { h with calls := h.calls ++ [⟨theRoot, key, middleware⟩] }

/-- The state of the branch at address `p`: the keys and chains added to it, in order. -/
def Heap.branch (h : Heap) (p : Ptr) : List (GoString × Middleware) :=
  (h.calls.filter (fun c => decide (c.root = p))).map (fun c => (c.key, c.middleware))

/-- The state behind a possibly nil branch pointer. -/
def Heap.deref (h : Heap) : Option Ptr → Option (List (GoString × Middleware))
  | none => none
  | some p => some (h.branch p)

/-! ## garden.go -/

/-- The struct `tree` of garden.go. -/
structure tree where
  method : GoString
  rootBranch : Option Ptr
  domain : GoString
  hosts : Bool
  cors : Bool
  deriving DecidableEq, Repr

/-- The type `Garden` of garden.go: a slice of trees. -/
abbrev Garden := List tree

/-- The method and domain a tree is tagged with. -/
def tree.tag (t : tree) : GoString × GoString := (t.method, t.domain)

/-- The method and domain of a route. -/
def Route.tag (r : Route) : GoString × GoString := (r.method, r.domain)

/-- `Garden.getTreeByMethod`: a pointer to (a copy of) the first tree with the method. -/
def Garden.getTreeByMethod : Garden → GoString → Option tree
  | [], _ => none
  | _tree :: rest, method =>
    if _tree.method = method then some _tree else Garden.getTreeByMethod rest method

/-- `Garden.getTreeByMethodAndDomain`. -/
def Garden.getTreeByMethodAndDomain : Garden → GoString → GoString → Option tree
  | [], _, _ => none
  | _tree :: rest, method, domain =>
    if _tree.domain = domain ∧ _tree.method = method then some _tree
    else Garden.getTreeByMethodAndDomain rest method domain

/-- `Garden.getRootByMethod`: the `rootBranch` pointer of the first tree with the method,
`nil` at the end of the loop. -/
def Garden.getRootByMethod : Garden → GoString → Option Ptr
  | [], _ => none
  | _tree :: rest, method =>
    if _tree.method = method then _tree.rootBranch else Garden.getRootByMethod rest method

/-- `Garden.getRootByMethodAndDomain`. -/
def Garden.getRootByMethodAndDomain : Garden → GoString → GoString → Option Ptr
  | [], _, _ => none
  | _tree :: rest, method, domain =>
    if _tree.domain = domain ∧ _tree.method = method then _tree.rootBranch
    else Garden.getRootByMethodAndDomain rest method domain

/-- `Garden.Plant`: the heap and the garden after planting the route. -/
def Garden.Plant (h : Heap) (g : Garden) (_route : Route) : Heap × Garden :=
  match Garden.getRootByMethodAndDomain g _route.method _route.domain with
  | some theRoot =>
    (h.AddBranch theRoot (_route.domain ++ _route.path) _route.middleware, g)
  | none =>
    let theRoot := h.new.1
    let g1 := g ++ [⟨_route.method, some theRoot, _route.domain,
      decide (_route.domain ≠ []), hasCors _route⟩]
    (h.new.2.AddBranch theRoot (_route.domain ++ _route.path) _route.middleware, g1)

/-- `Garden.len`. -/
def Garden.len (g : Garden) : Nat := g.length

/-- `Garden.get`: the tree at an index (the Go code panics outside the range). -/
def Garden.get (g : Garden) (index : Nat) : Option tree := g[index]?

/-- A sequence of `Plant` calls, each on the garden the previous one returned. -/
def plantAll (h : Heap) (g : Garden) : List Route → Heap × Garden
  | [] => (h, g)
  | r :: rs => plantAll (Garden.Plant h g r).1 (Garden.Plant h g r).2 rs

/-- The empty garden a router starts with. -/
def emptyGarden : Garden := []

/-! ## router.go -/

/-- `CorsMethodMatch`: the method match installed when cors is enabled. -/
def CorsMethodMatch (m1 reqMethod : GoString) : Bool :=
  decide (m1 = reqMethod) || (decide (m1 ≠ HTTPMethods.GET) && decide (reqMethod = HTTPMethods.OPTIONS))

/-- `MethodMatch`: the normal method match. -/
def MethodMatch (m1 m2 : GoString) : Bool := decide (m1 = m2)

/-- The struct `StationOptions` of station.go (durations in nanoseconds). -/
structure StationOptions where
  Profile : Bool
  ProfilePath : GoString
  Cache : Bool
  CacheMaxItems : Int
  CacheResetDuration : Int
  PathCorrection : Bool
  deriving DecidableEq, Repr

/-- The fields of `url.URL` a request URL carries. -/
structure URL where
  Scheme : GoString
  Host : GoString
  Path : GoString
  RawQuery : GoString
  deriving DecidableEq, Repr

/-- The fields of `http.Request` the dispatcher reads. -/
structure Request where
  Method : GoString
  Host : GoString
  URL : URL
  deriving DecidableEq, Repr

/-- What `GetBranch` returns: the handler chain (`none` is the nil chain), the bound
parameters and whether a corrected path would match. -/
structure BranchResult where
  middleware : Option Middleware
  params : PathParameters
  mustRedirect : Bool
  deriving DecidableEq, Repr

/-- A call the dispatcher makes on a collaborator, with its arguments.  `GetBranch` is a
lookup in the path tree behind `root`; `Do` runs the handler chain and records the
parameters and the chain the context holds at that moment. -/
inductive Event where
  | GetBranch (root : Option Ptr) (path : GoString) (params : PathParameters)
  | Do (params : PathParameters) (middleware : Option Middleware)
  | ForceHeader
  | Redirect (url : GoString) (status : Nat)
  | Write (body : GoString)
  | NotFound
  deriving DecidableEq, Repr

/-- The fields of `Context` the dispatcher touches, and the calls made so far. -/
structure Context where
  Request : Request
  Params : PathParameters
  middleware : Option Middleware
  trace : List Event
  deriving DecidableEq, Repr

/-- The collaborators whose code is outside the sources at hand: the lookup of the path
tree (given the state behind the receiver), whether `ctx.Redirect` returns an error,
`URL.String` and `htmlEscape`. -/
structure Externals where
  GetBranch : Option (List (GoString × Middleware)) → GoString → PathParameters → BranchResult
  RedirectFails : Context → GoString → Nat → Bool
  URLString : URL → GoString
  htmlEscape : GoString → GoString

/-- Records a call in the trace of the context. -/
def Context.emit (ctx : Context) (e : Event) : Context :=
  { ctx with trace := ctx.trace ++ [e] }

/-- The call `ctx.Do()`. -/
def Context.Do (ctx : Context) : Context := ctx.emit (.Do ctx.Params ctx.middleware)

/-- The call `ctx.memoryResponseWriter.ForceHeader()`. -/
def Context.ForceHeader (ctx : Context) : Context := ctx.emit .ForceHeader

/-- The call `ctx.NotFound()`. -/
def Context.NotFound (ctx : Context) : Context := ctx.emit .NotFound

/-- The call `ctx.Write(body)`. -/
def Context.Write (ctx : Context) (body : GoString) : Context := ctx.emit (.Write body)

/-- The call `ctx.Redirect(url, status)`: whether it returned an error, and the context. -/
def Context.Redirect (E : Externals) (ctx : Context) (url : GoString) (status : Nat) :
    Bool × Context :=
  (E.RedirectFails ctx url status, ctx.emit (.Redirect url status))

/-- The struct `Router`: the options of its station, the garden and the method match. -/
structure Router where
  options : StationOptions
  garden : Garden
  methodMatch : GoString → GoString → Bool

/-- `NewRouter`: an empty garden and the normal method match. -/
def NewRouter (options : StationOptions) : Router :=
  { options := options, garden := [], methodMatch := MethodMatch }

/-- `Router.getGarden`. -/
def Router.getGarden (r : Router) : Garden := r.garden

/-- `Router.setGarden`. -/
def Router.setGarden (r : Router) (g : Garden) : Router := { r with garden := g }

/-- `Router.setMethodMatch`. -/
def Router.setMethodMatch (r : Router) (f : GoString → GoString → Bool) : Router :=
  { r with methodMatch := f }

/-- The corrected path `Router.find` computes from the path of the request URL. -/
def correctedPath (reqPath : GoString) : GoString :=
  let pathLen := reqPath.length
  if pathLen ≤ 1 then Slash
  else if reqPath[pathLen - 1]? = some SlashByte then reqPath.take (pathLen - 1)
  else reqPath ++ Slash

/-- The note `Router.find` writes after a redirect. -/
def movedNote (E : Externals) (urlToRedirect : GoString) : GoString :=
  str "<a href=\"" ++ E.htmlEscape urlToRedirect ++ str "\">Moved Permanently</a>.\n"

/-- `Router.find`: whether something was served, and the context afterwards. -/
def Router.find (E : Externals) (h : Heap) (r : Router) (_tree : tree) (reqPath : GoString)
    (ctx : Context) : Bool × Context :=
  let res := E.GetBranch (h.deref _tree.rootBranch) reqPath ctx.Params
  let ctx := ctx.emit (.GetBranch _tree.rootBranch reqPath ctx.Params)
  match res.middleware with
  | some middleware =>
    let ctx := { ctx with Params := res.params, middleware := some middleware }
    let ctx := ctx.Do
    let ctx := ctx.ForceHeader
    (true, ctx)
  | none =>
    if res.mustRedirect && r.options.PathCorrection
        && decide (ctx.Request.Method ≠ HTTPMethods.CONNECT) then
      let reqPath := correctedPath ctx.Request.URL.Path
      let ctx := { ctx with Request := { ctx.Request with URL := { ctx.Request.URL with Path := reqPath } } }
      let urlToRedirect := E.URLString ctx.Request.URL
      let red := ctx.Redirect E urlToRedirect StatusMovedPermanently
      if red.1 = false then
        if _tree.method = HTTPMethods.GET then
          (false, red.2.Write (movedNote E urlToRedirect))
        else (false, red.2)
      else (false, red.2)
    else (false, ctx.NotFound)

/-- The loop of `Router.processRequest` over the trees still to test. -/
def Router.processRequest.loop (E : Externals) (h : Heap) (r : Router) (reqPath method : GoString)
    (ctx : Context) : Garden → Bool × Context
  | [] => (false, ctx.NotFound)
  | t :: rest =>
    if r.methodMatch t.method method then r.find E h t reqPath ctx
    else Router.processRequest.loop E h r reqPath method ctx rest

/-- `Router.processRequest`. -/
def Router.processRequest (E : Externals) (h : Heap) (r : Router) (ctx : Context) :
    Bool × Context :=
  Router.processRequest.loop E h r ctx.Request.URL.Path ctx.Request.Method ctx r.garden

/-- The struct `RouterDomain`: it wraps the underlying router. -/
structure RouterDomain where
  Router : Router

/-- `NewRouterDomain`. -/
def NewRouterDomain (underlineRouter : Router) : RouterDomain := ⟨underlineRouter⟩

/-- The loop of `RouterDomain.processRequest`; `reqPath` is the variable the loop
reassigns. -/
def RouterDomain.processRequest.loop (E : Externals) (h : Heap) (r : RouterDomain)
    (ctx : Context) : GoString → Garden → Bool × Context
  | _, [] => (false, ctx.NotFound)
  | reqPath, t :: rest =>
    if t.hosts then
      if t.domain ≠ ctx.Request.Host then
        RouterDomain.processRequest.loop E h r ctx reqPath rest
      else
        let reqPath := ctx.Request.Host ++ reqPath
        if r.Router.methodMatch t.method ctx.Request.Method then
          r.Router.find E h t reqPath ctx
        else RouterDomain.processRequest.loop E h r ctx reqPath rest
    else if r.Router.methodMatch t.method ctx.Request.Method then
      r.Router.find E h t reqPath ctx
    else RouterDomain.processRequest.loop E h r ctx reqPath rest

/-- `RouterDomain.processRequest`. -/
def RouterDomain.processRequest (E : Externals) (h : Heap) (r : RouterDomain) (ctx : Context) :
    Bool × Context :=
  RouterDomain.processRequest.loop E h r ctx ctx.Request.URL.Path r.Router.garden

/-- The type `RouterType` of router.go and its five constants. -/
inductive RouterType where
  | Normal
  | Memory
  | MemorySync
  | Domain
  | DomainMemory
  deriving DecidableEq, Repr

/-- `Router.getType`. -/
def Router.getType (_r : Router) : RouterType := .Normal

/-- `RouterDomain.getType`. -/
def RouterDomain.getType (_r : RouterDomain) : RouterType := .Domain

/-! ## The cached routers

The routers of the response cache (`MemoryRouter`, `MemoryRouterDomain`, `SyncRouter`) and
the cache itself are declared outside the sources at hand; station.go uses their
constructors and the methods `getType`, `hasCache` and `setCache`. -/

/-- Modelled from the spec: the cache store `ContextCache` (declared outside the sources at
hand) holds the cached responses, keyed by method and path. -/
structure ContextCache where
  items : List (GoString × GoString)
  deriving DecidableEq, Repr

/-- Modelled from the spec: `NewContextCache` (declared outside the sources at hand)
constructs a fresh, empty cache store. -/
def NewContextCache : ContextCache := ⟨[]⟩

/-- Modelled from the spec: a value of the interface `IContextCache` (declared outside the
sources at hand) is the bare store or the concurrency-safe decorator around a store. -/
inductive IContextCache where
  | store (c : ContextCache)
  | sync (c : ContextCache)
  deriving DecidableEq, Repr

/-- Modelled from the spec: `NewSyncContextCache` (declared outside the sources at hand)
wraps a store in the concurrency-safe cache decorator. -/
def NewSyncContextCache (c : ContextCache) : IContextCache := .sync c

/-- Modelled from the spec: the struct `MemoryRouter` (declared outside the sources at
hand) is the cached router: it embeds the `Router` built by `NewRouter` and holds the
cache, if one is attached, and the two cache settings. -/
structure MemoryRouter where
  Router : Router
  cache : Option IContextCache
  maxitems : Int
  resetDuration : Int

/-- Modelled from the spec: `NewMemoryRouter` (declared outside the sources at hand) wraps
the router; no cache is attached yet. -/
def NewMemoryRouter (underlineRouter : Router) (maxitems : Int) (resetDuration : Int) :
    MemoryRouter :=
  ⟨underlineRouter, none, maxitems, resetDuration⟩

/-- Modelled from the spec: `MemoryRouter.getType` is `Memory` (router.go: "Memory is the
MemoryRouter"). -/
def MemoryRouter.getType (_r : MemoryRouter) : RouterType := .Memory

/-- Modelled from the spec: `hasCache` tells whether a cache is attached. -/
def MemoryRouter.hasCache (r : MemoryRouter) : Bool := r.cache.isSome

/-- Modelled from the spec: `setCache` attaches the cache. -/
def MemoryRouter.setCache (r : MemoryRouter) (cache : IContextCache) : MemoryRouter :=
  { r with cache := some cache }

/-- Modelled from the spec: the struct `MemoryRouterDomain` (declared outside the sources at
hand) is the domain-aware counterpart of the cached router and wraps it. -/
structure MemoryRouterDomain where
  MemoryRouter : MemoryRouter

/-- Modelled from the spec: `NewMemoryRouterDomain` (declared outside the sources at hand)
wraps the cached router. -/
def NewMemoryRouterDomain (underlineRouter : MemoryRouter) : MemoryRouterDomain :=
  ⟨underlineRouter⟩

/-- Modelled from the spec: `MemoryRouterDomain.getType` is `DomainMemory` (router.go:
"DomainMemory is the MemoryDomainRouter"). -/
def MemoryRouterDomain.getType (_r : MemoryRouterDomain) : RouterType := .DomainMemory

/-- Modelled from the spec: a value of the interface `IMemoryRouter` (declared outside the
sources at hand), to which station.go asserts a `*MemoryRouter` and a
`*MemoryRouterDomain`. -/
inductive IMemoryRouter where
  | memory (m : MemoryRouter)
  | memoryDomain (m : MemoryRouterDomain)

/-- Modelled from the spec: `IMemoryRouter.hasCache`. -/
def IMemoryRouter.hasCache : IMemoryRouter → Bool
  | .memory m => m.hasCache
  | .memoryDomain m => m.MemoryRouter.hasCache

/-- Modelled from the spec: `IMemoryRouter.setCache`. -/
def IMemoryRouter.setCache : IMemoryRouter → IContextCache → IMemoryRouter
  | .memory m, cache => .memory (m.setCache cache)
  | .memoryDomain m, cache => .memoryDomain ⟨m.MemoryRouter.setCache cache⟩

/-- Modelled from the spec: the struct `SyncRouter` (declared outside the sources at hand)
is the synchronization decorator around a cached router. -/
structure SyncRouter where
  IMemoryRouter : IMemoryRouter

/-- Modelled from the spec: `NewSyncRouter` (declared outside the sources at hand) wraps
the cached router. -/
def NewSyncRouter (underlineRouter : IMemoryRouter) : SyncRouter := ⟨underlineRouter⟩

/-- Modelled from the spec: `SyncRouter.getType` is `MemorySync` (router.go: "MemorySync is
the SyncMemoryRouter"). -/
def SyncRouter.getType (_r : SyncRouter) : RouterType := .MemorySync

/-- A value of the interface `IRouter`: one of the five routers of the package. -/
inductive IRouter where
  | router (r : Router)
  | memory (m : MemoryRouter)
  | sync (s : SyncRouter)
  | domain (d : RouterDomain)
  | memoryDomain (m : MemoryRouterDomain)

/-- The cached router as a value of `IRouter`. -/
def IMemoryRouter.toIRouter : IMemoryRouter → IRouter
  | .memory m => .memory m
  | .memoryDomain m => .memoryDomain m

/-- The `Router` every router of the package embeds, directly or through its wrappers. -/
def IRouter.getRouter : IRouter → Router
  | .router r => r
  | .memory m => m.Router
  | .sync ⟨.memory m⟩ => m.Router
  | .sync ⟨.memoryDomain m⟩ => m.MemoryRouter.Router
  | .domain d => d.Router
  | .memoryDomain m => m.MemoryRouter.Router

/-- The router with `f` applied to the `Router` it embeds. -/
def IRouter.mapRouter (f : Router → Router) : IRouter → IRouter
  | .router r => .router (f r)
  | .memory m => .memory { m with Router := f m.Router }
  | .sync ⟨.memory m⟩ => .sync ⟨.memory { m with Router := f m.Router }⟩
  | .sync ⟨.memoryDomain m⟩ =>
    .sync ⟨.memoryDomain ⟨{ m.MemoryRouter with Router := f m.MemoryRouter.Router }⟩⟩
  | .domain d => .domain ⟨f d.Router⟩
  | .memoryDomain m => .memoryDomain ⟨{ m.MemoryRouter with Router := f m.MemoryRouter.Router }⟩

/-- `IRouter.getGarden`: the method of the embedded `Router`. -/
def IRouter.getGarden (r : IRouter) : Garden := r.getRouter.getGarden

/-- `IRouter.setGarden`: the method of the embedded `Router`. -/
def IRouter.setGarden (r : IRouter) (g : Garden) : IRouter := r.mapRouter (fun x => x.setGarden g)

/-- `IRouter.setMethodMatch`: the method of the embedded `Router`. -/
def IRouter.setMethodMatch (r : IRouter) (f : GoString → GoString → Bool) : IRouter :=
  r.mapRouter (fun x => x.setMethodMatch f)

/-- `IRouter.getType`. -/
def IRouter.getType : IRouter → RouterType
  | .router r => r.getType
  | .memory m => m.getType
  | .sync s => s.getType
  | .domain d => d.getType
  | .memoryDomain m => m.getType

/-- `IRouter.processRequest`.  For `Router` and `RouterDomain` it is the method of
router.go.  Modelled from the spec: for the cached routers (declared outside the sources at
hand) it is the method of the router they wrap ("we use that to the router_memory also"),
the domain-aware one for `MemoryRouterDomain`, and `SyncRouter` delegates to the router it
decorates. -/
def IRouter.processRequest (E : Externals) (h : Heap) : IRouter → Context → Bool × Context
  | .router r, ctx => r.processRequest E h ctx
  | .memory m, ctx => m.Router.processRequest E h ctx
  | .sync ⟨.memory m⟩, ctx => m.Router.processRequest E h ctx
  | .sync ⟨.memoryDomain m⟩, ctx => RouterDomain.processRequest E h ⟨m.MemoryRouter.Router⟩ ctx
  | .domain d, ctx => d.processRequest E h ctx
  | .memoryDomain m, ctx => RouterDomain.processRequest E h ⟨m.MemoryRouter.Router⟩ ctx

/-! ## station.go -/

/-- The struct `Station`: the router, the options and the flag `optimized`. -/
structure Station where
  IRouter : IRouter
  options : StationOptions
  optimized : Bool

/-- Modelled from the spec: `Get` of the party of a router (party.go is not part of the
sources at hand) registers a `GET` route without domain: the route is planted into the
garden of the router and the returned garden is stored with `setGarden`. -/
def IRouter.Get (h : Heap) (r : IRouter) (path : GoString) (handler : Nat) : Heap × IRouter :=
  ((Garden.Plant h r.getGarden ⟨HTTPMethods.GET, [], path, [handler], false⟩).1,
    r.setGarden (Garden.Plant h r.getGarden ⟨HTTPMethods.GET, [], path, [handler], false⟩).2)

/-- The registrations `r.Get(path, handler)` made one after the other. -/
def IRouter.GetAll (h : Heap) (r : IRouter) : List (GoString × Nat) → Heap × IRouter
  | [] => (h, r)
  | (path, handler) :: rest =>
    IRouter.GetAll (IRouter.Get h r path handler).1 (IRouter.Get h r path handler).2 rest

/-- The eight profiling routes `newStation` registers under `debugPath`; the handlers of
`pprof` are identified by the numbers 0 to 7. -/
def profileRoutes (debugPath : GoString) : List (GoString × Nat) :=
  [(debugPath ++ str "/", 0), (debugPath ++ str "/cmdline", 1),
   (debugPath ++ str "/profile", 2), (debugPath ++ str "/symbol", 3),
   (debugPath ++ str "/goroutine", 4), (debugPath ++ str "/heap", 5),
   (debugPath ++ str "/threadcreate", 6), (debugPath ++ str "/pprof/block", 7)]

/-- `newStation`: the heap and the station it creates. -/
def newStation (h : Heap) (options : StationOptions) : Heap × Station :=
  let r : IRouter :=
    if options.Cache then
      .memory (NewMemoryRouter (NewRouter options) options.CacheMaxItems
        options.CacheResetDuration)
    else .router (NewRouter options)
  if options.Profile then
    ((IRouter.GetAll h r (profileRoutes options.ProfilePath)).1,
      { IRouter := (IRouter.GetAll h r (profileRoutes options.ProfilePath)).2,
        options := options, optimized := false })
  else (h, { IRouter := r, options := options, optimized := false })

/-- The closure `routerHasCors` of `forceOptimusPrime`, on the garden of the router. -/
def routerHasCors : Garden → Bool
  | [] => false
  | t :: rest => if t.cors then true else routerHasCors rest

/-- The closure `routerHasHosts` of `forceOptimusPrime`, on the garden of the router. -/
def routerHasHosts : Garden → Bool
  | [] => false
  | t :: rest => if t.hosts then true else routerHasHosts rest

/-- The first step of `forceOptimusPrime` (station.go:179-192): the cors method match. -/
def Station.corsStep (s : Station) : Station :=
  if routerHasCors s.IRouter.getGarden then
    { s with IRouter := s.IRouter.setMethodMatch CorsMethodMatch }
  else s

/-- The second step of `forceOptimusPrime` (station.go:194-216): the domain router. -/
def Station.hostsStep (s : Station) : Station :=
  if routerHasHosts s.IRouter.getGarden then
    match s.IRouter.getType, s.IRouter with
    | .Normal, .router r => { s with IRouter := .domain (NewRouterDomain r) }
    | .Memory, .memory m => { s with IRouter := .memoryDomain (NewMemoryRouterDomain m) }
    | _, _ => s
  else s

/-- The type assertions of `forceOptimusPrime` to `*MemoryRouter` and
`*MemoryRouterDomain`. -/
def IRouter.asMemoryRouter : IRouter → Option IMemoryRouter
  | .memory m => some (.memory m)
  | .memoryDomain m => some (.memoryDomain m)
  | _ => none

/-- The third step of `forceOptimusPrime` (station.go:218-256): the cache and the
synchronized router; `cpus` is the value of `runtime.GOMAXPROCS(-1)`. -/
def Station.cacheStep (cpus : Nat) (s : Station) : Station :=
  let routerType := s.IRouter.getType
  if routerType = .Memory ∨ routerType = .DomainMemory then
    match s.IRouter.asMemoryRouter with
    | none => s
    | some r =>
      let r1 :=
        if !r.hasCache then
          r.setCache
            (if cpus > 1 then NewSyncContextCache NewContextCache
             else .store NewContextCache)
        else r
      if cpus > 1 then { s with IRouter := .sync (NewSyncRouter r1) }
      else { s with IRouter := r1.toIRouter }
  else s

/-- `Station.forceOptimusPrime`. -/
def Station.forceOptimusPrime (cpus : Nat) (s : Station) : Station :=
  { (s.corsStep.hostsStep.cacheStep cpus) with optimized := true }

/-- `Station.OptimusPrime`. -/
def Station.OptimusPrime (cpus : Nat) (s : Station) : Station :=
  if !s.optimized then s.forceOptimusPrime cpus else s

/-- `Station.HasOptimized`. -/
def Station.HasOptimized (s : Station) : Bool := s.optimized

/-- `setGarden` on a station: the method of the router it embeds. -/
def Station.setGarden (s : Station) (g : Garden) : Station :=
  { s with IRouter := s.IRouter.setGarden g }

/-! ## plugin.go

A plugin is code outside the package.  The container sees its name, its description,
whether it has the optional method `PreListen`, and what its `Activate` does with the
container it is given: calls of `Plugin` and `RemovePlugin`, and the error it returns.
`PreListen` is given the station and may assign its router; what that method does is a
parameter of the model (`PluginHooks`).  The other optional hooks are not modelled. -/

/-- What the `Activate` method of a plugin does with the container: it returns (`err` tells
whether the error is not nil), or it calls `Plugin` with another plugin, given by its name,
description, `PreListen` flag and own `Activate`, and goes on with `onError` when that call
returned an error and with `onOk` otherwise, or it calls `RemovePlugin` and goes on. -/
inductive Activation where
  | done (err : Bool)
  | plugin (name description : GoString) (preListen : Bool)
      (activate onError onOk : Activation)
  | removePlugin (pluginName : GoString) (next : Activation)
  deriving DecidableEq, Repr

/-- A value of the interface `IPlugin`: `GetName`, `GetDescription`, whether the value also
implements `IPluginPreListen`, and the behaviour of `Activate`. -/
structure IPlugin where
  name : GoString
  description : GoString
  preListen : Bool
  activate : Activation
  deriving DecidableEq, Repr

/-- The struct `PluginContainer`: the activated plugins (a nil slice and an empty slice are
both the empty list). -/
structure PluginContainer where
  activatedPlugins : List IPlugin
  deriving DecidableEq, Repr

/-- The outcome of a call on the container that may activate plugins: whether an error is
returned, the container afterwards, and the plugins whose `Activate` was called, in the
order of the calls. -/
structure PluginResult where
  err : Bool
  container : PluginContainer
  activated : List IPlugin
  deriving DecidableEq, Repr

/-- The loop of `PluginContainer.GetByName`. -/
def PluginContainer.GetByName.loop (pluginName : GoString) : List IPlugin → Option IPlugin
  | [] => none
  | x :: rest =>
    if x.name = pluginName then some x else PluginContainer.GetByName.loop pluginName rest

/-- `PluginContainer.GetByName`: the first activated plugin with the name, or nil. -/
def PluginContainer.GetByName (p : PluginContainer) (pluginName : GoString) : Option IPlugin :=
  PluginContainer.GetByName.loop pluginName p.activatedPlugins

/-- The loop of `PluginContainer.RemovePlugin`: `i` is the index of the first plugin of the
list and `indexToRemove` the variable of that name (`none` is `-1`). -/
def PluginContainer.RemovePlugin.loop (pluginName : GoString) :
    List IPlugin → Nat → Option Nat → Option Nat
  | [], _, indexToRemove => indexToRemove
  | x :: rest, i, indexToRemove =>
    PluginContainer.RemovePlugin.loop pluginName rest (i + 1)
      (if x.name = pluginName then some i else indexToRemove)

/-- `PluginContainer.RemovePlugin`. -/
def PluginContainer.RemovePlugin (p : PluginContainer) (pluginName : GoString) :
    PluginContainer :=
  match PluginContainer.RemovePlugin.loop pluginName p.activatedPlugins 0 none with
  | none => p
  | some indexToRemove =>
    ⟨p.activatedPlugins.take indexToRemove ++ p.activatedPlugins.drop (indexToRemove + 1)⟩

/-- The body of `PluginContainer.Plugin`, given the outcome `activation` of
`plugin.Activate(p)`, which is consulted only when no plugin with the name is activated
(the test with `reflect` always succeeds on a value of `IPlugin`). -/
def PluginContainer.pluginStep (p : PluginContainer) (plugin : IPlugin)
    (activation : PluginResult) : PluginResult :=
  if p.GetByName plugin.name ≠ none then ⟨true, p, []⟩
  else if activation.err then
    ⟨true, activation.container, plugin :: activation.activated⟩
  else
    ⟨false, ⟨activation.container.activatedPlugins ++ [plugin]⟩,
      plugin :: activation.activated⟩

/-- The run of an `Activate` method on the container. -/
def Activation.run : Activation → PluginContainer → PluginResult
  | .done err, p => ⟨err, p, []⟩
  | .plugin name description preListen activate onError onOk, p =>
    let r := p.pluginStep ⟨name, description, preListen, activate⟩ (activate.run p)
    let rest := if r.err then onError.run r.container else onOk.run r.container
    ⟨rest.err, rest.container, r.activated ++ rest.activated⟩
  | .removePlugin pluginName next, p => next.run (p.RemovePlugin pluginName)

/-- The call `plugin.Activate(p)`. -/
def IPlugin.Activate (plugin : IPlugin) (p : PluginContainer) : PluginResult :=
  plugin.activate.run p

/-- `PluginContainer.Plugin`. -/
def PluginContainer.Plugin (p : PluginContainer) (plugin : IPlugin) : PluginResult :=
  p.pluginStep plugin (plugin.Activate p)

/-- `PluginContainer.GetAll`. -/
def PluginContainer.GetAll (p : PluginContainer) : List IPlugin := p.activatedPlugins

/-- The `PreListen` methods of the plugins, code outside the package that is given the
`*Station`: `PreListen x station` is the value of the field `IRouter` of the station when
the method of the plugin `x` returns.  `IRouter` is the exported field among those of the
model; `options` and `optimized` are not exported and stay as they are.  What the method
does with the plugin container is not modelled. -/
structure PluginHooks where
  PreListen : IPlugin → Station → IRouter

/-- The loop of `PluginContainer.DoPreListen`: `PreListen` is called, in the order of the
container, on every plugin that has the method, with the station as the calls before left
it. -/
def PluginContainer.DoPreListen.loop (K : PluginHooks) : List IPlugin → Station → Station
  | [], station => station
  | x :: rest, station =>
    if x.preListen then
      PluginContainer.DoPreListen.loop K rest { station with IRouter := K.PreListen x station }
    else PluginContainer.DoPreListen.loop K rest station

/-- `PluginContainer.DoPreListen`: the station after the `PreListen` methods ran. -/
def PluginContainer.DoPreListen (K : PluginHooks) (p : PluginContainer) (station : Station) :
    Station :=
  PluginContainer.DoPreListen.loop K p.activatedPlugins station

/-- A call of the container from outside: `Plugin` or `RemovePlugin`. -/
inductive ContainerCall where
  | Plugin (plugin : IPlugin)
  | RemovePlugin (pluginName : GoString)
  deriving DecidableEq, Repr

/-- The container after a call from outside. -/
def PluginContainer.call (p : PluginContainer) : ContainerCall → PluginContainer
  | .Plugin plugin => (p.Plugin plugin).container
  | .RemovePlugin pluginName => p.RemovePlugin pluginName

/-- The container after a sequence of calls from outside. -/
def PluginContainer.calls (p : PluginContainer) (cs : List ContainerCall) : PluginContainer :=
  cs.foldl PluginContainer.call p

/-! ## station.go: serving -/

/-- What `Station.Serve` leaves and returns: the station and the handler returned. -/
structure ServeResult where
  station : Station
  handler : IRouter

/-- `Station.Serve`, on the station and its plugin container: `OptimusPrime`, then the
`PreListen` methods of the plugins on the station, then the field `IRouter` is read and
returned. -/
def Station.Serve (K : PluginHooks) (cpus : Nat) (s : Station)
    (pluginContainer : PluginContainer) : ServeResult :=
  ⟨pluginContainer.DoPreListen K (s.OptimusPrime cpus),
    (pluginContainer.DoPreListen K (s.OptimusPrime cpus)).IRouter⟩

/-- A call of `OptimusPrime` or of `Serve` on a station; `cpus` is the value of
`runtime.GOMAXPROCS(-1)` at the time of the call. -/
inductive StationCall where
  | OptimusPrime (cpus : Nat)
  | Serve (cpus : Nat) (pluginContainer : PluginContainer)

/-- The station after a call of `OptimusPrime` or `Serve`. -/
def Station.call (K : PluginHooks) (s : Station) : StationCall → Station
  | .OptimusPrime cpus => s.OptimusPrime cpus
  | .Serve cpus pluginContainer => (s.Serve K cpus pluginContainer).station

/-- The station after a sequence of calls of `OptimusPrime` and `Serve`. -/
def Station.calls (K : PluginHooks) (s : Station) (cs : List StationCall) : Station :=
  cs.foldl (Station.call K) s

/-- The registration of a route on the station: the route is planted into the garden of
the router and the garden `Plant` returns is stored with `setGarden`. -/
def Station.addRoute (h : Heap) (s : Station) (r : Route) : Heap × Station :=
  ((Garden.Plant h s.IRouter.getGarden r).1,
    s.setGarden (Garden.Plant h s.IRouter.getGarden r).2)

/-! ## A concrete instance of the collaborators -/

/-- A path tree that matches keys literally: the lookup returns the chain first added
under the key, and otherwise asks for a redirect when the key with the trailing slash
added or removed was added. -/
def literalGetBranch (state : Option (List (GoString × Middleware))) (path : GoString)
    (params : PathParameters) : BranchResult :=
  match state with
  | none => ⟨none, params, false⟩
  | some entries =>
    match entries.find? (fun e => decide (e.1 = path)) with
    | some e => ⟨some e.2, params, false⟩
    | none =>
      ⟨none, params,
        (entries.find? (fun e => decide (e.1 = path ++ Slash ∨ e.1 ++ Slash = path))).isSome⟩

/-- Collaborators with the literal path tree, a redirect that never fails, the path as the
text of a URL and no escaping. -/
def literalExternals : Externals :=
  ⟨literalGetBranch, fun _ _ _ => false, fun u => u.Path, fun x => x⟩

/-- The default options of a station: no profiling, no cache, path correction enabled. -/
def defaultOptions : StationOptions := ⟨false, [], false, 0, 0, true⟩

/-- A request with the given method, host and path. -/
def mkRequest (method host path : GoString) : Request :=
  ⟨method, host, ⟨[], host, path, []⟩⟩

/-- A fresh context for a request. -/
def mkContext (req : Request) : Context := ⟨req, [], none, []⟩

/-- The literal collaborators, except that `ctx.Redirect` always returns an error. -/
def failingRedirectExternals : Externals :=
  { literalExternals with RedirectFails := fun _ _ _ => true }

/-- The station `newStation` creates, on the empty heap, with the default options and the
given cache option, after the garden `g` was stored in it. -/
def stationWith (cache : Bool) (g : Garden) : Station :=
  (newStation ⟨0, []⟩ { defaultOptions with Cache := cache }).2.setGarden g

/-- The garden after planting a `POST` route with cross-origin support for the host `a.com`
and then a `POST` route without host. -/
def hostAndPlainGarden : Garden :=
  [⟨str "POST", some 0, str "a.com", true, true⟩, ⟨str "POST", some 1, [], false, false⟩]

/-- The heap after planting the two routes of `hostAndPlainGarden`. -/
def hostAndPlainHeap : Heap := ⟨2, [⟨0, str "a.com/x", [1]⟩, ⟨1, str "/y", [2]⟩]⟩

/-- A plugin named `A` whose `Activate` registers a plugin `B` and then returns an error. -/
def failingAfterRegistering : IPlugin :=
  ⟨str "A", str "registers B and fails", false,
    .plugin (str "B") (str "registered by A") false (.done false) (.done true) (.done true)⟩

/-- A plugin named `swap` that has the method `PreListen`; its `Activate` returns nil. -/
def swapPlugin : IPlugin := ⟨str "swap", str "assigns the router", true, .done false⟩

/-- Plugin hooks whose `PreListen` assigns a new `Router`, made by `NewRouter` from the
options of the station, to the field `IRouter` of the station. -/
def replacingHooks : PluginHooks := ⟨fun _ station => .router (NewRouter station.options)⟩

/-- Plugin hooks whose `PreListen` leaves the router of the station as it is. -/
def idleHooks : PluginHooks := ⟨fun _ station => station.IRouter⟩

/-- A plugin named `A` whose `Activate` does nothing and returns nil. -/
def innerA : IPlugin := ⟨str "A", str "registered by A", false, .done false⟩

/-- A plugin named `A` whose `Activate` registers `innerA`, a plugin of the same name, and
returns nil. -/
def outerA : IPlugin :=
  ⟨str "A", str "registers a plugin of its own name", false,
    .plugin (str "A") (str "registered by A") false (.done false) (.done false) (.done false)⟩

/-! ## Vocabulary of the statements -/

/-- The sequence of the method and domain tags of a garden. -/
def Garden.tags (g : Garden) : List (GoString × GoString) := g.map tree.tag

/-- Every tree of the garden has a root branch (no `rootBranch` is nil). -/
def Garden.Rooted (g : Garden) : Prop := ∀ t ∈ g, t.rootBranch ≠ none

/-- The distinct elements of a list, in the order of their first occurrence. -/
def firstOccurrences {α : Type} [DecidableEq α] : List α → List α
  | [] => []
  | x :: xs => x :: (firstOccurrences xs).filter (fun y => decide (y ≠ x))

/-- The lookups in the path trees a trace records: receiver, key and parameter buffer. -/
def lookups : List Event → List (Option Ptr × GoString × PathParameters)
  | [] => []
  | .GetBranch root path params :: es => (root, path, params) :: lookups es
  | _ :: es => lookups es

/-- The tree `t` is the first tree of the garden, in garden order, that satisfies `p`. -/
def IsFirstTree (p : tree → Prop) (g : Garden) (t : tree) : Prop :=
  ∃ pre post, g = pre ++ t :: post ∧ p t ∧ ∀ u ∈ pre, ¬ p u

/-- The calls made on the collaborators between the context `before` and the context
`after`. -/
def issued (before after : Context) : List Event := after.trace.drop before.trace.length

/-- `Plant` returns a garden with a tree tagged with the method and domain of the route
and makes exactly one `AddBranch` call: on the root of the first tree of the returned
garden with that method and domain, with the key `domain + path` and the handler chain
of the route. -/
def PlantsIntoFirstTree (h : Heap) (g : Garden) (r : Route) : Prop :=
  r.tag ∈ (Garden.Plant h g r).2.tags ∧
  ∃ t p, Garden.getTreeByMethodAndDomain (Garden.Plant h g r).2 r.method r.domain = some t ∧
    t.rootBranch = some p ∧
    (Garden.Plant h g r).1.calls = h.calls ++ [⟨p, r.domain ++ r.path, r.middleware⟩]

/-- The condition under which `Router.find` takes its redirect branch once `GetBranch`
returned no chain: `mustRedirect`, the option `PathCorrection` and a request method other
than `CONNECT`. -/
def redirectCondition (E : Externals) (h : Heap) (r : Router) (t : tree) (key : GoString)
    (ctx : Context) : Prop :=
  (E.GetBranch (h.deref t.rootBranch) key ctx.Params).mustRedirect = true ∧
  r.options.PathCorrection = true ∧ ctx.Request.Method ≠ HTTPMethods.CONNECT

/-- The context on which `Router.find` calls `Redirect`: the lookup behind `root` with
`key` is recorded and the path of the request URL is the corrected path. -/
def redirectContext (ctx : Context) (root : Option Ptr) (key : GoString) : Context :=
  { Request := { ctx.Request with
      URL := { ctx.Request.URL with Path := correctedPath ctx.Request.URL.Path } },
    Params := ctx.Params,
    middleware := ctx.middleware,
    trace := ctx.trace ++ [.GetBranch root key ctx.Params] }

/-- The URL `Router.find` redirects the request of the context to. -/
def redirectURL (E : Externals) (ctx : Context) : GoString :=
  E.URLString { ctx.Request.URL with Path := correctedPath ctx.Request.URL.Path }

/-- Whenever the outcome `res` of a dispatch that started on `ctx` consists of a lookup
followed by a redirect with status 301 that was written without error, a body follows
exactly when the method of the request is `GET`, and the body is the note. -/
def BodyOnlyForGet (E : Externals) (ctx : Context) (res : Bool × Context) : Prop :=
  ∀ root key url rest,
    issued ctx res.2 =
      .GetBranch root key ctx.Params :: .Redirect url StatusMovedPermanently :: rest →
    E.RedirectFails (redirectContext ctx root key) url StatusMovedPermanently = false →
    ((∃ body, Event.Write body ∈ rest) ↔ ctx.Request.Method = HTTPMethods.GET) ∧
    (rest = [] ∨ rest = [.Write (movedNote E url)])

/-- Whether `RouterDomain.processRequest` selects the tree for the request: the tree is
not host-scoped or its domain is the host of the request, and its method is accepted. -/
def RouterDomain.selects (rd : RouterDomain) (ctx : Context) (t : tree) : Bool :=
  (!t.hosts || decide (t.domain = ctx.Request.Host)) &&
    rd.Router.methodMatch t.method ctx.Request.Method

/-- The value of the variable `reqPath` of `RouterDomain.processRequest` after the loop
tested the given trees, starting from `reqPath`: every host-scoped tree whose domain is
the host puts the host in front once more. -/
def domainKeyAfter (host : GoString) : GoString → Garden → GoString
  | reqPath, [] => reqPath
  | reqPath, t :: ts =>
    domainKeyAfter host
      (if t.hosts = true ∧ t.domain = host then host ++ reqPath else reqPath) ts

/-- A station on which `OptimusPrime` has not run yet: `optimized` is false and the router
is the one `newStation` built, a `Router` when the cache is not configured and a
`MemoryRouter` when it is. -/
def Station.Unoptimized (s : Station) : Prop :=
  s.optimized = false ∧
  ((s.options.Cache = false ∧ ∃ r, s.IRouter = .router r) ∨
   (s.options.Cache = true ∧ ∃ m, s.IRouter = .memory m))

/-- The method match installed in the router of the station. -/
def Station.matcher (s : Station) : GoString → GoString → Bool :=
  s.IRouter.getRouter.methodMatch

/-- Whether the router is domain-aware: a `RouterDomain`, a `MemoryRouterDomain`, or the
synchronization decorator around a `MemoryRouterDomain`. -/
def IRouter.domainAware : IRouter → Bool
  | .router _ => false
  | .memory _ => false
  | .sync ⟨.memory _⟩ => false
  | .sync ⟨.memoryDomain _⟩ => true
  | .domain _ => true
  | .memoryDomain _ => true

/-- Whether the router is cache-bearing: its type is `Memory` or `DomainMemory`. -/
def IRouter.cacheBearing (r : IRouter) : Bool :=
  decide (r.getType = .Memory ∨ r.getType = .DomainMemory)

/-- The cache side of a dispatcher variant. -/
inductive CacheLevel where
  | Uncached
  | Cached
  | CachedConcurrent
  deriving DecidableEq, Repr

/-- The cache side of the router. -/
def IRouter.cacheLevel : IRouter → CacheLevel
  | .router _ => .Uncached
  | .domain _ => .Uncached
  | .memory _ => .Cached
  | .memoryDomain _ => .Cached
  | .sync _ => .CachedConcurrent

/-- The dispatcher variant of the router: whether it is domain-aware, and its cache side. -/
def IRouter.variant (r : IRouter) : Bool × CacheLevel := (r.domainAware, r.cacheLevel)

/-- The cache attached to the router, if any. -/
def IRouter.cache : IRouter → Option IContextCache
  | .router _ => none
  | .domain _ => none
  | .memory m => m.cache
  | .memoryDomain m => m.MemoryRouter.cache
  | .sync ⟨.memory m⟩ => m.cache
  | .sync ⟨.memoryDomain m⟩ => m.MemoryRouter.cache

/-- The router after the cors step of `forceOptimusPrime`. -/
def corsRouter (r : Router) : Router :=
  if routerHasCors r.garden then r.setMethodMatch CorsMethodMatch else r

/-- The cache `forceOptimusPrime` constructs for the given number of logical CPUs. -/
def freshCache (cpus : Nat) : IContextCache :=
  if cpus > 1 then .sync NewContextCache else .store NewContextCache

/-- The dispatch of the station on `ctx` is `find` on the tree `t`, and the only lookup
made is in the path tree of `t`. -/
def DispatchedTo (E : Externals) (h : Heap) (s : Station) (ctx : Context) (t : tree) : Prop :=
  ∃ key, s.IRouter.processRequest E h ctx = s.IRouter.getRouter.find E h t key ctx ∧
    lookups (issued ctx (s.IRouter.processRequest E h ctx).2) = [(t.rootBranch, key, ctx.Params)]

/-! ## Planting: general facts -/

theorem getRoot_none_of_tag_not_mem (g : Garden) (m d : GoString)
    (hn : (m, d) ∉ g.tags) : Garden.getRootByMethodAndDomain g m d = none := by
  induction g with
  | nil => rfl
  | cons t ts ih =>
    simp only [Garden.tags, List.map_cons, List.mem_cons, not_or] at hn
    have hne : ¬ (t.domain = d ∧ t.method = m) := by
      rintro ⟨hd, hm⟩
      exact hn.1 (by simp [tree.tag, hd, hm])
    simp only [Garden.getRootByMethodAndDomain, if_neg hne]
    exact ih hn.2

theorem tag_mem_of_getRoot_some (g : Garden) (m d : GoString) (p : Ptr)
    (hs : Garden.getRootByMethodAndDomain g m d = some p) : (m, d) ∈ g.tags := by
  by_contra hn
  rw [getRoot_none_of_tag_not_mem g m d hn] at hs
  exact Option.noConfusion hs

theorem getRoot_ne_none_of_rooted (g : Garden) (m d : GoString) (hr : g.Rooted)
    (hmem : (m, d) ∈ g.tags) : Garden.getRootByMethodAndDomain g m d ≠ none := by
  induction g with
  | nil => simp [Garden.tags] at hmem
  | cons t ts ih =>
    by_cases hc : t.domain = d ∧ t.method = m
    · simp only [Garden.getRootByMethodAndDomain, if_pos hc]
      exact hr t (List.mem_cons_self _ _)
    · simp only [Garden.getRootByMethodAndDomain, if_neg hc]
      apply ih (fun u hu => hr u (List.mem_cons_of_mem _ hu))
      simp only [Garden.tags, List.map_cons, List.mem_cons] at hmem
      rcases hmem with h1 | h2
      · exfalso
        apply hc
        simp only [tree.tag, Prod.mk.injEq] at h1
        exact ⟨h1.2.symm, h1.1.symm⟩
      · exact h2

theorem Plant_garden_of_some (h : Heap) (g : Garden) (r : Route) (p : Ptr)
    (hs : Garden.getRootByMethodAndDomain g r.method r.domain = some p) :
    (Garden.Plant h g r).2 = g := by
  simp [Garden.Plant, hs]

theorem Plant_garden_of_none (h : Heap) (g : Garden) (r : Route)
    (hs : Garden.getRootByMethodAndDomain g r.method r.domain = none) :
    (Garden.Plant h g r).2 =
      g ++ [⟨r.method, some h.next, r.domain, decide (r.domain ≠ []), hasCors r⟩] := by
  simp [Garden.Plant, hs, Heap.new]

theorem Plant_garden_of_mem (h : Heap) (g : Garden) (r : Route) (hr : g.Rooted)
    (hmem : r.tag ∈ g.tags) : (Garden.Plant h g r).2 = g := by
  have hne := getRoot_ne_none_of_rooted g r.method r.domain hr hmem
  obtain ⟨p, hp⟩ := Option.ne_none_iff_exists'.mp hne
  exact Plant_garden_of_some h g r p hp

theorem Plant_garden_of_not_mem (h : Heap) (g : Garden) (r : Route)
    (hmem : r.tag ∉ g.tags) :
    (Garden.Plant h g r).2 =
      g ++ [⟨r.method, some h.next, r.domain, decide (r.domain ≠ []), hasCors r⟩] :=
  Plant_garden_of_none h g r (getRoot_none_of_tag_not_mem g r.method r.domain hmem)

theorem Plant_rooted (h : Heap) (g : Garden) (r : Route) (hr : g.Rooted) :
    (Garden.Plant h g r).2.Rooted := by
  cases hs : Garden.getRootByMethodAndDomain g r.method r.domain with
  | some p => rw [Plant_garden_of_some h g r p hs]; exact hr
  | none =>
    rw [Plant_garden_of_none h g r hs]
    intro t ht
    rcases List.mem_append.mp ht with h1 | h2
    · exact hr t h1
    · simp only [List.mem_singleton] at h2
      subst h2
      simp

theorem plantAll_rooted (rs : List Route) (h : Heap) (g : Garden) (hr : g.Rooted) :
    (plantAll h g rs).2.Rooted := by
  induction rs generalizing h g with
  | nil => exact hr
  | cons r rs ih => exact ih _ _ (Plant_rooted h g r hr)

theorem rooted_nil : Garden.Rooted [] := by
  intro t ht
  cases ht

theorem plantAll_tags (rs : List Route) (h : Heap) (g : Garden) (hr : g.Rooted) :
    (plantAll h g rs).2.tags =
      g.tags ++ (firstOccurrences (rs.map Route.tag)).filter (fun y => decide (y ∉ g.tags)) := by
  induction rs generalizing h g with
  | nil => simp [plantAll, firstOccurrences]
  | cons r rs ih =>
    simp only [plantAll, List.map_cons, firstOccurrences]
    rw [ih _ _ (Plant_rooted h g r hr)]
    by_cases hmem : r.tag ∈ g.tags
    · rw [Plant_garden_of_mem h g r hr hmem]
      congr 1
      rw [List.filter_cons_of_neg (by simpa using hmem), List.filter_filter]
      apply List.filter_congr
      intro y _
      by_cases hy : y ∈ g.tags
      · simp [hy]
      · have : y ≠ r.tag := fun e => hy (e ▸ hmem)
        simp [hy, this]
    · rw [Plant_garden_of_not_mem h g r hmem]
      have htags : Garden.tags (g ++ [⟨r.method, some h.next, r.domain,
          decide (r.domain ≠ []), hasCors r⟩]) = g.tags ++ [r.tag] := by
        simp [Garden.tags, tree.tag, Route.tag]
      rw [htags, List.filter_cons_of_pos (by simpa using hmem), List.filter_filter,
        List.append_assoc]
      congr 1
      simp only [List.singleton_append, List.cons.injEq, true_and]
      apply List.filter_congr
      intro y _
      by_cases hy : y ∈ g.tags <;> by_cases hy2 : y = r.tag <;> simp [hy, hy2]

theorem firstOccurrences_nodup {α : Type} [DecidableEq α] (xs : List α) :
    (firstOccurrences xs).Nodup := by
  induction xs with
  | nil => simp [firstOccurrences]
  | cons x xs ih =>
    simp only [firstOccurrences, List.nodup_cons]
    refine ⟨?_, ih.filter _⟩
    simp [List.mem_filter]

theorem plantAll_tags_empty (rs : List Route) (h : Heap) :
    (plantAll h emptyGarden rs).2.tags = firstOccurrences (rs.map Route.tag) := by
  rw [plantAll_tags rs h emptyGarden rooted_nil]
  simp [emptyGarden, Garden.tags]

theorem Plant_tag_mem (h : Heap) (g : Garden) (r : Route) :
    r.tag ∈ (Garden.Plant h g r).2.tags := by
  cases hs : Garden.getRootByMethodAndDomain g r.method r.domain with
  | some p =>
    rw [Plant_garden_of_some h g r p hs]
    exact tag_mem_of_getRoot_some g r.method r.domain p hs
  | none =>
    rw [Plant_garden_of_none h g r hs]
    simp [Garden.tags, tree.tag, Route.tag]

theorem Plant_garden_cases (h : Heap) (g : Garden) (r : Route) :
    (Garden.Plant h g r).2 = g ∨
      (Garden.Plant h g r).2 =
        g ++ [⟨r.method, some h.next, r.domain, decide (r.domain ≠ []), hasCors r⟩] := by
  cases hs : Garden.getRootByMethodAndDomain g r.method r.domain with
  | some p => exact Or.inl (Plant_garden_of_some h g r p hs)
  | none => exact Or.inr (Plant_garden_of_none h g r hs)

theorem plantAll_flags (rs : List Route) (h : Heap) (g : Garden) (hr : g.Rooted) :
    ∀ t ∈ (plantAll h g rs).2, t ∈ g ∨
      (t.tag ∉ g.tags ∧ t.hosts = decide (t.domain ≠ []) ∧
        ∃ r0, rs.find? (fun r => decide (r.tag = t.tag)) = some r0 ∧ t.cors = hasCors r0) := by
  induction rs generalizing h g with
  | nil => intro t ht; exact Or.inl ht
  | cons r rs ih =>
    intro t ht
    have hsub : ∀ x ∈ g.tags, x ∈ (Garden.Plant h g r).2.tags := by
      intro x hx
      rcases Plant_garden_cases h g r with e | e <;> rw [e]
      · exact hx
      · simp only [Garden.tags, List.map_append, List.mem_append]
        exact Or.inl hx
    rcases ih _ _ (Plant_rooted h g r hr) t ht with h1 | ⟨hnot, hhosts, r0, hfind, hcors⟩
    · by_cases hmem : r.tag ∈ g.tags
      · rw [Plant_garden_of_mem h g r hr hmem] at h1
        exact Or.inl h1
      · rw [Plant_garden_of_not_mem h g r hmem] at h1
        rcases List.mem_append.mp h1 with h2 | h2
        · exact Or.inl h2
        · simp only [List.mem_singleton] at h2
          subst h2
          refine Or.inr ⟨hmem, rfl, r, ?_, rfl⟩
          simp [List.find?, tree.tag, Route.tag]
    · refine Or.inr ⟨fun hx => hnot (hsub _ hx), hhosts, r0, ?_, hcors⟩
      have hne : r.tag ≠ t.tag := fun e => hnot (e ▸ Plant_tag_mem h g r)
      simp [List.find?, hne, hfind]

/-! ## Theorems on `Garden.Plant` -/

/-- C1: after any sequence of `Plant` calls starting from the empty garden, at most one
tree of the garden has a given method and domain. -/
theorem plant_at_most_one_tree_per_method_and_domain (h : Heap) (rs : List Route)
    (m d : GoString) :
    ((plantAll h emptyGarden rs).2.filter
      (fun t => decide (t.method = m ∧ t.domain = d))).length ≤ 1 := by
  have hnd : (plantAll h emptyGarden rs).2.tags.Nodup := by
    rw [plantAll_tags_empty]
    exact firstOccurrences_nodup _
  revert hnd
  generalize (plantAll h emptyGarden rs).2 = g
  intro hnd
  induction g with
  | nil => simp
  | cons t ts ih =>
    simp only [Garden.tags, List.map_cons, List.nodup_cons] at hnd
    by_cases hc : t.method = m ∧ t.domain = d
    · have hnil : ts.filter (fun t => decide (t.method = m ∧ t.domain = d)) = [] := by
        rw [List.filter_eq_nil_iff]
        intro u hu hpu
        simp only [decide_eq_true_eq] at hpu
        apply hnd.1
        have : u.tag = t.tag := by simp [tree.tag, hc.1, hc.2, hpu.1, hpu.2]
        rw [← this]
        exact List.mem_map_of_mem _ hu
      rw [List.filter_cons_of_pos (by simpa using hc), hnil]
      simp
    · rw [List.filter_cons_of_neg (by simpa using hc)]
      exact ih hnd.2

/-- C3: after any sequence of `Plant` calls starting from the empty garden, the tags of
the garden are the distinct method and domain pairs of the routes in the order of their
first occurrence; planting into such a garden a route whose pair already has a tree
returns the very same garden; and any `Plant` call returns its garden unchanged or with
one tree, tagged with the pair of the route, appended at the end. -/
theorem plant_tags_in_first_occurrence_order (h : Heap) (rs : List Route) :
    (plantAll h emptyGarden rs).2.tags = firstOccurrences (rs.map Route.tag) ∧
    (∀ (h1 : Heap) (r : Route), r.tag ∈ (plantAll h emptyGarden rs).2.tags →
      (Garden.Plant h1 (plantAll h emptyGarden rs).2 r).2 = (plantAll h emptyGarden rs).2) ∧
    (∀ (h1 : Heap) (g : Garden) (r : Route), (Garden.Plant h1 g r).2 = g ∨
      ∃ t, (Garden.Plant h1 g r).2 = g ++ [t] ∧ t.tag = r.tag) := by
  refine ⟨plantAll_tags_empty rs h, ?_, ?_⟩
  · intro h1 r hmem
    exact Plant_garden_of_mem h1 _ r (plantAll_rooted rs h emptyGarden rooted_nil) hmem
  · intro h1 g r
    rcases Plant_garden_cases h1 g r with e | e
    · exact Or.inl e
    · exact Or.inr ⟨_, e, rfl⟩

/-- C4 (as stated, refuted): planting a route without cross-origin support and then, with
the same method and domain, a route that requested it gives a garden whose only tree has
`cors` false, although a route planted into that tree requested cross-origin support. -/
theorem plant_later_cors_route_leaves_flag_false :
    (plantAll ⟨0, []⟩ emptyGarden
      [⟨str "GET", [], str "/a", [1], false⟩, ⟨str "GET", [], str "/b", [2], true⟩]).2 =
      [⟨str "GET", some 0, [], false, false⟩] ∧
    ¬ (∀ t ∈ (plantAll ⟨0, []⟩ emptyGarden
          [⟨str "GET", [], str "/a", [1], false⟩, ⟨str "GET", [], str "/b", [2], true⟩]).2,
        (∃ r ∈ [(⟨str "GET", [], str "/a", [1], false⟩ : Route),
            ⟨str "GET", [], str "/b", [2], true⟩], r.tag = t.tag ∧ hasCors r = true) →
        t.cors = true) := by
  have heval : (plantAll ⟨0, []⟩ emptyGarden
      [⟨str "GET", [], str "/a", [1], false⟩, ⟨str "GET", [], str "/b", [2], true⟩]).2 =
      [⟨str "GET", some 0, [], false, false⟩] := by decide
  refine ⟨heval, ?_⟩
  rw [heval]
  intro hall
  have hc := hall ⟨str "GET", some 0, [], false, false⟩ (List.mem_singleton.mpr rfl)
    ⟨⟨str "GET", [], str "/b", [2], true⟩, by simp, rfl, rfl⟩
  cases hc

/-- C4 (amended): after any sequence of `Plant` calls starting from the empty garden, the
`cors` flag of every tree of the garden is true exactly when the first route of the
sequence with the method and domain of the tree requested cross-origin support. -/
theorem plant_cors_flag_of_first_route (h : Heap) (rs : List Route) :
    ∀ t ∈ (plantAll h emptyGarden rs).2,
      ∃ r0, rs.find? (fun r => decide (r.tag = t.tag)) = some r0 ∧
        (t.cors = true ↔ hasCors r0 = true) := by
  intro t ht
  rcases plantAll_flags rs h emptyGarden rooted_nil t ht with h1 | ⟨_, _, r0, hfind, hcors⟩
  · cases h1
  · exact ⟨r0, hfind, by rw [hcors]⟩

/-- Witness of C4 (amended): the `GET` tree obtained by planting `GET /a` without and then
`GET /b` with cross-origin support has the flag of the first of the two routes. -/
theorem plant_cors_flag_of_first_route_witness :
    (⟨str "GET", some 0, [], false, false⟩ : tree) ∈ (plantAll ⟨0, []⟩ emptyGarden
      [⟨str "GET", [], str "/a", [1], false⟩, ⟨str "GET", [], str "/b", [2], true⟩]).2 ∧
    ∃ r0, List.find?
        (fun r => decide (r.tag = (⟨str "GET", some 0, [], false, false⟩ : tree).tag))
        [(⟨str "GET", [], str "/a", [1], false⟩ : Route),
          ⟨str "GET", [], str "/b", [2], true⟩] = some r0 ∧
      ((⟨str "GET", some 0, [], false, false⟩ : tree).cors = true ↔ hasCors r0 = true) :=
  have hmem : (⟨str "GET", some 0, [], false, false⟩ : tree) ∈ (plantAll ⟨0, []⟩ emptyGarden
      [⟨str "GET", [], str "/a", [1], false⟩, ⟨str "GET", [], str "/b", [2], true⟩]).2 := by
    decide
  ⟨hmem, plant_cors_flag_of_first_route ⟨0, []⟩
    [⟨str "GET", [], str "/a", [1], false⟩, ⟨str "GET", [], str "/b", [2], true⟩] _ hmem⟩

/-- C5: after any sequence of `Plant` calls starting from the empty garden, every tree has
`hosts` equal to `domain != ""` and `cors` equal to the cors flag of the first route of
the sequence with the method and domain of the tree; planting a further route with the
method and domain of an existing tree returns the very same garden, flags included. -/
theorem plant_flags_fixed_by_first_route (h : Heap) (rs : List Route) :
    (∀ t ∈ (plantAll h emptyGarden rs).2,
      t.hosts = decide (t.domain ≠ []) ∧
      ∃ r0, rs.find? (fun r => decide (r.tag = t.tag)) = some r0 ∧ t.cors = hasCors r0) ∧
    (∀ (h1 : Heap) (r : Route), (∃ t ∈ (plantAll h emptyGarden rs).2, t.tag = r.tag) →
      (Garden.Plant h1 (plantAll h emptyGarden rs).2 r).2 = (plantAll h emptyGarden rs).2) := by
  constructor
  · intro t ht
    rcases plantAll_flags rs h emptyGarden rooted_nil t ht with h1 | ⟨_, h2, h3⟩
    · cases h1
    · exact ⟨h2, h3⟩
  · rintro h1 r ⟨t, ht, htag⟩
    apply Plant_garden_of_mem h1 _ r (plantAll_rooted rs h emptyGarden rooted_nil)
    rw [← htag]
    exact List.mem_map_of_mem _ ht

/-! ## The lookups of the garden -/

theorem getTreeByMethod_eq_find (g : Garden) (m : GoString) :
    Garden.getTreeByMethod g m = g.find? (fun t => decide (t.method = m)) := by
  induction g with
  | nil => rfl
  | cons t ts ih =>
    by_cases hc : t.method = m
    · simp [Garden.getTreeByMethod, List.find?, hc]
    · simp [Garden.getTreeByMethod, List.find?, hc, ih]

theorem getTreeByMethodAndDomain_eq_find (g : Garden) (m d : GoString) :
    Garden.getTreeByMethodAndDomain g m d =
      g.find? (fun t => decide (t.method = m ∧ t.domain = d)) := by
  induction g with
  | nil => rfl
  | cons t ts ih =>
    by_cases hc : t.domain = d ∧ t.method = m
    · simp [Garden.getTreeByMethodAndDomain, List.find?, hc]
    · have hc2 : ¬ (t.method = m ∧ t.domain = d) := fun e => hc ⟨e.2, e.1⟩
      simp only [Garden.getTreeByMethodAndDomain, if_neg hc, ih, List.find?,
        decide_eq_false hc2]

theorem getRootByMethod_eq_bind (g : Garden) (m : GoString) :
    Garden.getRootByMethod g m = (Garden.getTreeByMethod g m).bind tree.rootBranch := by
  induction g with
  | nil => rfl
  | cons t ts ih =>
    by_cases hc : t.method = m
    · simp [Garden.getRootByMethod, Garden.getTreeByMethod, hc]
    · simp [Garden.getRootByMethod, Garden.getTreeByMethod, hc, ih]

theorem getRootByMethodAndDomain_eq_bind (g : Garden) (m d : GoString) :
    Garden.getRootByMethodAndDomain g m d =
      (Garden.getTreeByMethodAndDomain g m d).bind tree.rootBranch := by
  induction g with
  | nil => rfl
  | cons t ts ih =>
    by_cases hc : t.domain = d ∧ t.method = m
    · simp [Garden.getRootByMethodAndDomain, Garden.getTreeByMethodAndDomain, hc]
    · simp only [Garden.getRootByMethodAndDomain, Garden.getTreeByMethodAndDomain, if_neg hc, ih]

theorem find_some_iff_isFirstTree (p : tree → Prop) [DecidablePred p] (g : Garden) (t : tree) :
    g.find? (fun u => decide (p u)) = some t ↔ IsFirstTree p g t := by
  induction g with
  | nil =>
    constructor
    · intro hf; cases hf
    · rintro ⟨pre, post, e, _⟩
      cases pre <;> cases e
  | cons u us ih =>
    by_cases hu : p u
    · simp only [List.find?, decide_eq_true hu, Option.some.injEq]
      constructor
      · intro e
        subst e
        exact ⟨[], us, rfl, hu, fun _ hx => by cases hx⟩
      · rintro ⟨pre, post, e, _, hpre⟩
        cases pre with
        | nil =>
          simp only [List.nil_append, List.cons.injEq] at e
          exact e.1
        | cons x xs =>
          simp only [List.cons_append, List.cons.injEq] at e
          exact absurd hu (e.1 ▸ hpre x (List.mem_cons_self _ _))
    · simp only [List.find?, decide_eq_false hu]
      rw [ih]
      constructor
      · rintro ⟨pre, post, e, ht, hpre⟩
        refine ⟨u :: pre, post, by simp [e], ht, ?_⟩
        intro x hx
        rcases List.mem_cons.mp hx with h1 | h1
        · exact h1 ▸ hu
        · exact hpre x h1
      · rintro ⟨pre, post, e, ht, hpre⟩
        cases pre with
        | nil =>
          simp only [List.nil_append, List.cons.injEq] at e
          exact absurd ht (e.1 ▸ hu)
        | cons x xs =>
          simp only [List.cons_append, List.cons.injEq] at e
          exact ⟨xs, post, e.2, ht, fun y hy => hpre y (List.mem_cons_of_mem _ hy)⟩

theorem find_none_iff_all (p : tree → Prop) [DecidablePred p] (g : Garden) :
    g.find? (fun u => decide (p u)) = none ↔ ∀ t ∈ g, ¬ p t := by
  simp [List.find?_eq_none]

theorem getTreeByMethodAndDomain_append (g l : Garden) (m d : GoString)
    (hn : Garden.getTreeByMethodAndDomain g m d = none) :
    Garden.getTreeByMethodAndDomain (g ++ l) m d = Garden.getTreeByMethodAndDomain l m d := by
  induction g with
  | nil => rfl
  | cons t ts ih =>
    by_cases hc : t.domain = d ∧ t.method = m
    · simp [Garden.getTreeByMethodAndDomain, hc] at hn
    · simp only [Garden.getTreeByMethodAndDomain, if_neg hc] at hn
      simp only [List.cons_append, Garden.getTreeByMethodAndDomain, if_neg hc]
      exact ih hn

/-- When the first tree of the garden with the method and domain of the route, if there
is one, has a root branch, `Plant` returns a garden with a tree tagged with that method
and domain and makes exactly one `AddBranch` call, on the root of the first tree of the
returned garden with that method and domain. -/
theorem plantsIntoFirstTree_of_first_root (h : Heap) (g : Garden) (r : Route)
    (hroot : ∀ t, Garden.getTreeByMethodAndDomain g r.method r.domain = some t →
      t.rootBranch ≠ none) :
    PlantsIntoFirstTree h g r := by
  refine ⟨Plant_tag_mem h g r, ?_⟩
  cases ht : Garden.getTreeByMethodAndDomain g r.method r.domain with
  | some t =>
    obtain ⟨p, hp⟩ := Option.ne_none_iff_exists'.mp (hroot t ht)
    have hs : Garden.getRootByMethodAndDomain g r.method r.domain = some p := by
      rw [getRootByMethodAndDomain_eq_bind, ht]
      exact hp
    refine ⟨t, p, ?_, hp, ?_⟩
    · rw [Plant_garden_of_some h g r p hs]
      exact ht
    · simp [Garden.Plant, hs, Heap.AddBranch]
  | none =>
    have hs : Garden.getRootByMethodAndDomain g r.method r.domain = none := by
      rw [getRootByMethodAndDomain_eq_bind, ht]
      rfl
    refine ⟨⟨r.method, some h.next, r.domain, decide (r.domain ≠ []), hasCors r⟩, h.next,
      ?_, rfl, ?_⟩
    · rw [Plant_garden_of_none h g r hs, getTreeByMethodAndDomain_append g _ _ _ ht]
      simp [Garden.getTreeByMethodAndDomain]
    · simp [Garden.Plant, hs, Heap.AddBranch, Heap.new]

/-- The first tree of a garden with a given method and domain is a tree of the garden. -/
theorem getTreeByMethodAndDomain_mem (g : Garden) (m d : GoString) (t : tree)
    (ht : Garden.getTreeByMethodAndDomain g m d = some t) : t ∈ g := by
  rw [getTreeByMethodAndDomain_eq_find] at ht
  obtain ⟨pre, post, e, _⟩ :=
    (find_some_iff_isFirstTree (fun u => u.method = m ∧ u.domain = d) g t).mp ht
  rw [e]
  simp

/-- C2: for every garden and route, `Plant` returns a garden with a tree tagged with the
method and domain of the route and makes exactly one `AddBranch` call: on the root of the
first tree of the returned garden whose method and domain are those of the route, with the
key `domain + path` (the path alone when the domain is empty) and the handler chain of the
route.  A garden is a slice of trees as the package builds them: every tree has a root
branch, the only tree literal (in `Plant`) taking the branch allocated just before it; the
empty garden of `NewRouter` is such a garden and `Plant` returns such a garden
(`Plant_rooted`). -/
theorem plant_adds_branch_to_first_tree (h : Heap) (g : Garden) (r : Route)
    (hr : g.Rooted) :
    PlantsIntoFirstTree h g r ∧
    (Garden.Plant h g r).2.Rooted ∧
    (r.domain = [] →
      ∃ t p, Garden.getTreeByMethodAndDomain (Garden.Plant h g r).2 r.method r.domain =
          some t ∧ t.rootBranch = some p ∧
        (Garden.Plant h g r).1.calls = h.calls ++ [⟨p, r.path, r.middleware⟩]) := by
  have hp : PlantsIntoFirstTree h g r :=
    plantsIntoFirstTree_of_first_root h g r
      (fun t ht => hr t (getTreeByMethodAndDomain_mem g r.method r.domain t ht))
  refine ⟨hp, Plant_rooted h g r hr, ?_⟩
  intro hd
  obtain ⟨_, t, p, ht, hroot, hc⟩ := hp
  refine ⟨t, p, ht, hroot, ?_⟩
  rw [hc, hd]
  rfl

/-- Witness of C2: planting `GET /x` into the garden whose only tree is a `GET` tree with
the root at address `0`. -/
theorem plant_adds_branch_to_first_tree_witness :
    Garden.Rooted [⟨str "GET", some 0, [], false, false⟩] ∧
    PlantsIntoFirstTree ⟨1, []⟩ [⟨str "GET", some 0, [], false, false⟩]
      ⟨str "GET", [], str "/x", [1], false⟩ :=
  have hr : Garden.Rooted [⟨str "GET", some 0, [], false, false⟩] := by
    intro t ht
    rw [List.mem_singleton.mp ht]
    simp
  ⟨hr, (plant_adds_branch_to_first_tree ⟨1, []⟩ [⟨str "GET", some 0, [], false, false⟩]
    ⟨str "GET", [], str "/x", [1], false⟩ hr).1⟩

/-- The garden lookups on any slice of trees: `getTreeByMethod` and
`getTreeByMethodAndDomain` return the first tree in garden order with the method,
respectively with the method and the domain, and return nil exactly when no tree satisfies
the key; each `getRoot...` variant returns the `rootBranch` of the tree the corresponding
`getTree...` variant returns (nil when that one returns nil); on a garden whose trees all
have a root it is nil exactly when no tree satisfies the key. -/
theorem garden_lookups_first_match (g : Garden) (m d : GoString) :
    (∀ t, Garden.getTreeByMethod g m = some t ↔ IsFirstTree (fun u => u.method = m) g t) ∧
    (Garden.getTreeByMethod g m = none ↔ ∀ t ∈ g, t.method ≠ m) ∧
    (∀ t, Garden.getTreeByMethodAndDomain g m d = some t ↔
      IsFirstTree (fun u => u.method = m ∧ u.domain = d) g t) ∧
    (Garden.getTreeByMethodAndDomain g m d = none ↔ ∀ t ∈ g, ¬ (t.method = m ∧ t.domain = d)) ∧
    Garden.getRootByMethod g m = (Garden.getTreeByMethod g m).bind tree.rootBranch ∧
    Garden.getRootByMethodAndDomain g m d =
      (Garden.getTreeByMethodAndDomain g m d).bind tree.rootBranch ∧
    (Garden.getRootByMethod g m = none ↔
      (∀ t ∈ g, t.method ≠ m) ∨
        ∃ t, IsFirstTree (fun u => u.method = m) g t ∧ t.rootBranch = none) ∧
    (Garden.getRootByMethodAndDomain g m d = none ↔
      (∀ t ∈ g, ¬ (t.method = m ∧ t.domain = d)) ∨
        ∃ t, IsFirstTree (fun u => u.method = m ∧ u.domain = d) g t ∧ t.rootBranch = none) ∧
    (g.Rooted →
      (Garden.getRootByMethod g m = none ↔ ∀ t ∈ g, t.method ≠ m) ∧
      (Garden.getRootByMethodAndDomain g m d = none ↔
        ∀ t ∈ g, ¬ (t.method = m ∧ t.domain = d))) := by
  have a1 : ∀ t, Garden.getTreeByMethod g m = some t ↔
      IsFirstTree (fun u => u.method = m) g t := by
    intro t
    rw [getTreeByMethod_eq_find]
    exact find_some_iff_isFirstTree (fun u => u.method = m) g t
  have a2 : Garden.getTreeByMethod g m = none ↔ ∀ t ∈ g, t.method ≠ m := by
    rw [getTreeByMethod_eq_find]
    exact find_none_iff_all (fun u => u.method = m) g
  have a3 : ∀ t, Garden.getTreeByMethodAndDomain g m d = some t ↔
      IsFirstTree (fun u => u.method = m ∧ u.domain = d) g t := by
    intro t
    rw [getTreeByMethodAndDomain_eq_find]
    exact find_some_iff_isFirstTree (fun u => u.method = m ∧ u.domain = d) g t
  have a4 : Garden.getTreeByMethodAndDomain g m d = none ↔
      ∀ t ∈ g, ¬ (t.method = m ∧ t.domain = d) := by
    rw [getTreeByMethodAndDomain_eq_find]
    exact find_none_iff_all (fun u => u.method = m ∧ u.domain = d) g
  have a7 : Garden.getRootByMethod g m = none ↔
      (∀ t ∈ g, t.method ≠ m) ∨
        ∃ t, IsFirstTree (fun u => u.method = m) g t ∧ t.rootBranch = none := by
    rw [getRootByMethod_eq_bind, ← a2]
    cases ht : Garden.getTreeByMethod g m with
    | none => simp
    | some t =>
      simp only [Option.some_bind]
      constructor
      · intro hn
        exact Or.inr ⟨t, (a1 t).mp ht, hn⟩
      · rintro (hx | ⟨u, hu, hn⟩)
        · cases hx
        have := (a1 u).mpr hu
        rw [ht] at this
        cases this
        exact hn
  have a8 : Garden.getRootByMethodAndDomain g m d = none ↔
      (∀ t ∈ g, ¬ (t.method = m ∧ t.domain = d)) ∨
        ∃ t, IsFirstTree (fun u => u.method = m ∧ u.domain = d) g t ∧ t.rootBranch = none := by
    rw [getRootByMethodAndDomain_eq_bind, ← a4]
    cases ht : Garden.getTreeByMethodAndDomain g m d with
    | none => simp
    | some t =>
      simp only [Option.some_bind]
      constructor
      · intro hn
        exact Or.inr ⟨t, (a3 t).mp ht, hn⟩
      · rintro (hx | ⟨u, hu, hn⟩)
        · cases hx
        have := (a3 u).mpr hu
        rw [ht] at this
        cases this
        exact hn
  refine ⟨a1, a2, a3, a4, getRootByMethod_eq_bind g m, getRootByMethodAndDomain_eq_bind g m d,
    a7, a8, ?_⟩
  intro hr
  have hmem : ∀ (p : tree → Prop) (t : tree), IsFirstTree p g t → t ∈ g := by
    rintro p t ⟨pre, post, e, _⟩
    rw [e]
    simp
  constructor
  · rw [a7]
    constructor
    · rintro (h1 | ⟨t, ht, hn⟩)
      · exact h1
      · exact absurd hn (hr t (hmem _ t ht))
    · exact Or.inl
  · rw [a8]
    constructor
    · rintro (h1 | ⟨t, ht, hn⟩)
      · exact h1
      · exact absurd hn (hr t (hmem _ t ht))
    · exact Or.inl

/-- C6: for every garden and key each lookup returns the first tree in garden order that
satisfies its key and returns nil exactly when no tree satisfies it: `getTreeByMethod` and
`getRootByMethod` compare the method, `getTreeByMethodAndDomain` and
`getRootByMethodAndDomain` the method and the domain, and each `getRoot...` variant
returns exactly the `rootBranch` of the tree the corresponding `getTree...` variant
returns, so it returns the root `p` exactly when the first tree satisfying the key has the
root `p`.  A garden is a slice of trees as the package builds them: every tree has a root
branch (`Plant_rooted`). -/
theorem garden_lookups_return_first_match (g : Garden) (m d : GoString) (hr : g.Rooted) :
    (∀ t, Garden.getTreeByMethod g m = some t ↔ IsFirstTree (fun u => u.method = m) g t) ∧
    (Garden.getTreeByMethod g m = none ↔ ∀ t ∈ g, t.method ≠ m) ∧
    (∀ t, Garden.getTreeByMethodAndDomain g m d = some t ↔
      IsFirstTree (fun u => u.method = m ∧ u.domain = d) g t) ∧
    (Garden.getTreeByMethodAndDomain g m d = none ↔ ∀ t ∈ g, ¬ (t.method = m ∧ t.domain = d)) ∧
    Garden.getRootByMethod g m = (Garden.getTreeByMethod g m).bind tree.rootBranch ∧
    Garden.getRootByMethodAndDomain g m d =
      (Garden.getTreeByMethodAndDomain g m d).bind tree.rootBranch ∧
    (∀ p, Garden.getRootByMethod g m = some p ↔
      ∃ t, IsFirstTree (fun u => u.method = m) g t ∧ t.rootBranch = some p) ∧
    (∀ p, Garden.getRootByMethodAndDomain g m d = some p ↔
      ∃ t, IsFirstTree (fun u => u.method = m ∧ u.domain = d) g t ∧ t.rootBranch = some p) ∧
    (Garden.getRootByMethod g m = none ↔ ∀ t ∈ g, t.method ≠ m) ∧
    (Garden.getRootByMethodAndDomain g m d = none ↔
      ∀ t ∈ g, ¬ (t.method = m ∧ t.domain = d)) := by
  obtain ⟨a1, a2, a3, a4, a5, a6, _, _, a9⟩ := garden_lookups_first_match g m d
  refine ⟨a1, a2, a3, a4, a5, a6, ?_, ?_, (a9 hr).1, (a9 hr).2⟩
  · intro p
    rw [a5]
    cases ht : Garden.getTreeByMethod g m with
    | none =>
      constructor
      · intro hp
        cases hp
      rintro ⟨t, hf, _⟩
      have := (a1 t).mpr hf
      rw [ht] at this
      cases this
    | some t =>
      simp only [Option.some_bind]
      constructor
      · intro hp
        exact ⟨t, (a1 t).mp ht, hp⟩
      · rintro ⟨u, hu, hp⟩
        have := (a1 u).mpr hu
        rw [ht] at this
        cases this
        exact hp
  · intro p
    rw [a6]
    cases ht : Garden.getTreeByMethodAndDomain g m d with
    | none =>
      constructor
      · intro hp
        cases hp
      rintro ⟨t, hf, _⟩
      have := (a3 t).mpr hf
      rw [ht] at this
      cases this
    | some t =>
      simp only [Option.some_bind]
      constructor
      · intro hp
        exact ⟨t, (a3 t).mp ht, hp⟩
      · rintro ⟨u, hu, hp⟩
        have := (a3 u).mpr hu
        rw [ht] at this
        cases this
        exact hp

/-- Witness of C6: the lookups on the garden whose only tree is a `GET` tree with the root
at address `0`. -/
theorem garden_lookups_return_first_match_witness :
    Garden.Rooted [⟨str "GET", some 0, [], false, false⟩] ∧
    (Garden.getRootByMethod [⟨str "GET", some 0, [], false, false⟩] (str "POST") = none ↔
      ∀ t ∈ [(⟨str "GET", some 0, [], false, false⟩ : tree)], t.method ≠ str "POST") :=
  have hr : Garden.Rooted [⟨str "GET", some 0, [], false, false⟩] := by
    intro t ht
    rw [List.mem_singleton.mp ht]
    simp
  ⟨hr, (garden_lookups_return_first_match [⟨str "GET", some 0, [], false, false⟩]
    (str "POST") [] hr).2.2.2.2.2.2.2.2.1⟩

/-! ## The method matchers -/

/-- C7: `CorsMethodMatch a requested` holds exactly when `a == requested` or `a` is not
`GET` and `requested` is `OPTIONS`; so every method other than `GET` accepts an `OPTIONS`
request, `GET` accepts only `GET`, and on every request method other than `OPTIONS` it
agrees with `MethodMatch`, which is equality. -/
theorem corsMethodMatch_characterisation (a requested : GoString) :
    (CorsMethodMatch a requested = true ↔
      a = requested ∨ (a ≠ HTTPMethods.GET ∧ requested = HTTPMethods.OPTIONS)) ∧
    (a ≠ HTTPMethods.GET → CorsMethodMatch a HTTPMethods.OPTIONS = true) ∧
    (CorsMethodMatch HTTPMethods.GET requested = true ↔ requested = HTTPMethods.GET) ∧
    (requested ≠ HTTPMethods.OPTIONS → CorsMethodMatch a requested = MethodMatch a requested) ∧
    (MethodMatch a requested = true ↔ a = requested) := by
  refine ⟨?_, ?_, ?_, ?_, ?_⟩
  · simp [CorsMethodMatch]
  · intro hne
    simp [CorsMethodMatch, hne]
  · simp only [CorsMethodMatch, ne_eq, not_true_eq_false, decide_False, Bool.false_and,
      Bool.or_false, decide_eq_true_eq]
    exact eq_comm
  · intro hne
    simp [CorsMethodMatch, MethodMatch, hne]
  · simp [MethodMatch]

/-- Witness of C7: a `POST` tree accepts an `OPTIONS` request under `CorsMethodMatch`, and
a `GET` request is matched as by `MethodMatch`. -/
theorem corsMethodMatch_characterisation_witness :
    CorsMethodMatch (str "POST") HTTPMethods.OPTIONS = true ∧
    CorsMethodMatch (str "POST") (str "GET") = MethodMatch (str "POST") (str "GET") :=
  ⟨(corsMethodMatch_characterisation (str "POST") HTTPMethods.OPTIONS).2.1 (by decide),
   (corsMethodMatch_characterisation (str "POST") (str "GET")).2.2.2.1 (by decide)⟩

/-! ## The dispatcher -/

theorem lookups_append (l1 l2 : List Event) : lookups (l1 ++ l2) = lookups l1 ++ lookups l2 := by
  induction l1 with
  | nil => rfl
  | cons e es ih => cases e <;> simp [lookups, ih]

theorem find_of_some (E : Externals) (h : Heap) (r : Router) (t : tree) (key : GoString)
    (ctx : Context) (mw : Middleware)
    (hm : (E.GetBranch (h.deref t.rootBranch) key ctx.Params).middleware = some mw) :
    r.find E h t key ctx =
      (true, { Request := ctx.Request,
               Params := (E.GetBranch (h.deref t.rootBranch) key ctx.Params).params,
               middleware := some mw,
               trace := ctx.trace ++ [.GetBranch t.rootBranch key ctx.Params,
                 .Do (E.GetBranch (h.deref t.rootBranch) key ctx.Params).params (some mw),
                 .ForceHeader] }) := by
  unfold Router.find
  simp only [hm]
  simp [Context.Do, Context.ForceHeader, Context.emit]

theorem find_of_none (E : Externals) (h : Heap) (r : Router) (t : tree) (key : GoString)
    (ctx : Context)
    (hm : (E.GetBranch (h.deref t.rootBranch) key ctx.Params).middleware = none) :
    (r.find E h t key ctx).1 = false ∧
    ∃ es, (r.find E h t key ctx).2.trace =
        ctx.trace ++ Event.GetBranch t.rootBranch key ctx.Params :: es ∧ lookups es = [] := by
  unfold Router.find
  simp only [hm]
  split_ifs <;> refine ⟨rfl, ?_⟩ <;>
    simp only [Context.Redirect, Context.Write, Context.NotFound, Context.emit,
      List.append_assoc, List.singleton_append] <;>
    exact ⟨_, rfl, rfl⟩

theorem find_trace (E : Externals) (h : Heap) (r : Router) (t : tree) (key : GoString)
    (ctx : Context) :
    ∃ es, (r.find E h t key ctx).2.trace =
        ctx.trace ++ Event.GetBranch t.rootBranch key ctx.Params :: es ∧ lookups es = [] := by
  cases hm : (E.GetBranch (h.deref t.rootBranch) key ctx.Params).middleware with
  | some mw =>
    rw [find_of_some E h r t key ctx mw hm]
    exact ⟨[.Do _ (some mw), .ForceHeader], rfl, rfl⟩
  | none => exact (find_of_none E h r t key ctx hm).2

theorem find_lookups (E : Externals) (h : Heap) (r : Router) (t : tree) (key : GoString)
    (ctx : Context) :
    lookups (r.find E h t key ctx).2.trace = lookups ctx.trace ++ [(t.rootBranch, key, ctx.Params)] := by
  obtain ⟨es, he, hl⟩ := find_trace E h r t key ctx
  rw [he, lookups_append]
  simp [lookups, hl]

theorem notFound_trace (ctx : Context) : ctx.NotFound.trace = ctx.trace ++ [Event.NotFound] := rfl

theorem processRequest_loop_eq (E : Externals) (h : Heap) (r : Router) (path method : GoString)
    (ctx : Context) (g : Garden) :
    Router.processRequest.loop E h r path method ctx g =
      match g.find? (fun t => r.methodMatch t.method method) with
      | some t => r.find E h t path ctx
      | none => (false, ctx.NotFound) := by
  induction g with
  | nil => rfl
  | cons t ts ih =>
    by_cases hc : r.methodMatch t.method method = true
    · simp [Router.processRequest.loop, List.find?, hc]
    · simp only [Router.processRequest.loop, List.find?, hc, if_false]
      rw [ih]
      simp [Bool.not_eq_true _ |>.mp hc]

/-- C8: `Router.processRequest` is `find` on the first tree of the garden, in garden
order, whose method the installed method match accepts for the method of the request,
with the path of the request URL as the key, and is the not-found outcome when there is
no such tree; the only lookup in a path tree it performs is the one in that first tree,
whatever that lookup returns. -/
theorem processRequest_dispatches_to_first_matching_tree (E : Externals) (h : Heap)
    (r : Router) (ctx : Context) :
    (r.processRequest E h ctx =
      match r.garden.find? (fun t => r.methodMatch t.method ctx.Request.Method) with
      | some t => r.find E h t ctx.Request.URL.Path ctx
      | none => (false, ctx.NotFound)) ∧
    (lookups (r.processRequest E h ctx).2.trace = lookups ctx.trace ++
      match r.garden.find? (fun t => r.methodMatch t.method ctx.Request.Method) with
      | some t => [(t.rootBranch, ctx.Request.URL.Path, ctx.Params)]
      | none => []) ∧
    (∀ t, IsFirstTree (fun u => r.methodMatch u.method ctx.Request.Method = true) r.garden t →
      r.processRequest E h ctx = r.find E h t ctx.Request.URL.Path ctx) := by
  have h1 := processRequest_loop_eq E h r ctx.Request.URL.Path ctx.Request.Method ctx r.garden
  refine ⟨h1, ?_, ?_⟩
  · unfold Router.processRequest
    rw [h1]
    cases r.garden.find? (fun t => r.methodMatch t.method ctx.Request.Method) with
    | some t => exact find_lookups E h r t _ ctx
    | none => simp [notFound_trace, lookups_append, lookups]
  · intro t ht
    have hf : r.garden.find? (fun u => decide (r.methodMatch u.method ctx.Request.Method = true))
        = some t :=
      (find_some_iff_isFirstTree
        (fun u => r.methodMatch u.method ctx.Request.Method = true) r.garden t).mpr ht
    simp only [Bool.decide_eq_true] at hf
    unfold Router.processRequest
    rw [h1, hf]

/-- Witness of C8: with a `GET` tree followed by a `POST` tree, a `POST` request is
dispatched to the `POST` tree. -/
theorem processRequest_dispatches_to_first_matching_tree_witness :
    IsFirstTree (fun u => MethodMatch u.method (str "POST") = true)
      [⟨str "GET", some 0, [], false, false⟩, ⟨str "POST", some 1, [], false, false⟩]
      ⟨str "POST", some 1, [], false, false⟩ ∧
    Router.processRequest literalExternals ⟨2, [⟨1, str "/x", [7]⟩]⟩
        ⟨defaultOptions,
          [⟨str "GET", some 0, [], false, false⟩, ⟨str "POST", some 1, [], false, false⟩],
          MethodMatch⟩
        (mkContext (mkRequest (str "POST") [] (str "/x"))) =
      Router.find literalExternals ⟨2, [⟨1, str "/x", [7]⟩]⟩
        ⟨defaultOptions,
          [⟨str "GET", some 0, [], false, false⟩, ⟨str "POST", some 1, [], false, false⟩],
          MethodMatch⟩
        ⟨str "POST", some 1, [], false, false⟩ (str "/x")
        (mkContext (mkRequest (str "POST") [] (str "/x"))) :=
  have hfirst : IsFirstTree (fun u => MethodMatch u.method (str "POST") = true)
      [⟨str "GET", some 0, [], false, false⟩, ⟨str "POST", some 1, [], false, false⟩]
      ⟨str "POST", some 1, [], false, false⟩ :=
    ⟨[⟨str "GET", some 0, [], false, false⟩], [], rfl, by decide, by
      intro u hu
      rw [List.mem_singleton.mp hu]
      decide⟩
  ⟨hfirst, (processRequest_dispatches_to_first_matching_tree literalExternals
    ⟨2, [⟨1, str "/x", [7]⟩]⟩
    ⟨defaultOptions,
      [⟨str "GET", some 0, [], false, false⟩, ⟨str "POST", some 1, [], false, false⟩],
      MethodMatch⟩
    (mkContext (mkRequest (str "POST") [] (str "/x")))).2.2 _ hfirst⟩

theorem issued_append (ctx : Context) (c : Context) (es : List Event)
    (hc : c.trace = ctx.trace ++ es) : issued ctx c = es := by
  simp [issued, hc]

theorem domain_loop_not_found (E : Externals) (h : Heap) (rd : RouterDomain) (ctx : Context)
    (g : Garden) (reqPath : GoString)
    (hno : ∀ t ∈ g, (t.hosts = true ∧ t.domain ≠ ctx.Request.Host) ∨
      rd.Router.methodMatch t.method ctx.Request.Method = false) :
    RouterDomain.processRequest.loop E h rd ctx reqPath g = (false, ctx.NotFound) := by
  induction g generalizing reqPath with
  | nil => rfl
  | cons t ts ih =>
    have hts := fun u hu => hno u (List.mem_cons_of_mem _ hu)
    rcases hno t (List.mem_cons_self _ _) with ⟨hh, hd⟩ | hm
    · simp only [RouterDomain.processRequest.loop, hh, if_true, if_pos hd]
      exact ih _ hts
    · by_cases hh : t.hosts = true
      · by_cases hd : t.domain ≠ ctx.Request.Host
        · simp only [RouterDomain.processRequest.loop, hh, if_true, if_pos hd]
          exact ih _ hts
        · simp only [RouterDomain.processRequest.loop, hh, if_true, if_neg hd, hm]
          exact ih _ hts
      · simp only [RouterDomain.processRequest.loop, hh, hm]
        exact ih _ hts

/-- C9: when the method match accepts no tree of the garden, `Router.processRequest`
returns false, and when every tree of the garden is skipped for its host or not accepted
by the method match, `RouterDomain.processRequest` returns false; both leave the context
as after one `NotFound` call, the only call made, so there is no lookup in a path tree and
no redirect; this is the case in particular for the empty garden. -/
theorem processRequest_not_found_when_no_tree_selected (E : Externals) (h : Heap)
    (r : Router) (rd : RouterDomain) (ctx : Context) :
    ((∀ t ∈ r.garden, r.methodMatch t.method ctx.Request.Method = false) →
      r.processRequest E h ctx = (false, ctx.NotFound)) ∧
    ((∀ t ∈ rd.Router.garden, (t.hosts = true ∧ t.domain ≠ ctx.Request.Host) ∨
        rd.Router.methodMatch t.method ctx.Request.Method = false) →
      rd.processRequest E h ctx = (false, ctx.NotFound)) ∧
    (r.garden = [] → r.processRequest E h ctx = (false, ctx.NotFound)) ∧
    (rd.Router.garden = [] → rd.processRequest E h ctx = (false, ctx.NotFound)) ∧
    issued ctx ctx.NotFound = [Event.NotFound] ∧
    lookups (issued ctx ctx.NotFound) = [] := by
  have hR : (∀ t ∈ r.garden, r.methodMatch t.method ctx.Request.Method = false) →
      r.processRequest E h ctx = (false, ctx.NotFound) := by
    intro hno
    unfold Router.processRequest
    rw [processRequest_loop_eq]
    have hf : r.garden.find? (fun t => r.methodMatch t.method ctx.Request.Method) = none := by
      rw [List.find?_eq_none]
      intro t ht
      simp [hno t ht]
    rw [hf]
  have hD : (∀ t ∈ rd.Router.garden, (t.hosts = true ∧ t.domain ≠ ctx.Request.Host) ∨
        rd.Router.methodMatch t.method ctx.Request.Method = false) →
      rd.processRequest E h ctx = (false, ctx.NotFound) := by
    intro hno
    exact domain_loop_not_found E h rd ctx _ _ hno
  have hi : issued ctx ctx.NotFound = [Event.NotFound] :=
    issued_append ctx _ _ (notFound_trace ctx)
  refine ⟨hR, hD, ?_, ?_, hi, ?_⟩
  · intro he
    apply hR
    rw [he]
    intro t ht
    cases ht
  · intro he
    apply hD
    rw [he]
    intro t ht
    cases ht
  · rw [hi]
    rfl

/-- Witness of C9: a `GET` request on a garden whose only tree is a `POST` tree of the host
`a`, for the router and for the domain router. -/
theorem processRequest_not_found_when_no_tree_selected_witness :
    (∀ t ∈ [(⟨str "POST", some 0, str "a", true, false⟩ : tree)],
      MethodMatch t.method (str "GET") = false) ∧
    Router.processRequest literalExternals ⟨1, []⟩
        ⟨defaultOptions, [⟨str "POST", some 0, str "a", true, false⟩], MethodMatch⟩
        (mkContext (mkRequest (str "GET") (str "b") (str "/x"))) =
      (false, (mkContext (mkRequest (str "GET") (str "b") (str "/x"))).NotFound) ∧
    RouterDomain.processRequest literalExternals ⟨1, []⟩
        ⟨⟨defaultOptions, [⟨str "POST", some 0, str "a", true, false⟩], MethodMatch⟩⟩
        (mkContext (mkRequest (str "GET") (str "b") (str "/x"))) =
      (false, (mkContext (mkRequest (str "GET") (str "b") (str "/x"))).NotFound) :=
  have hno : ∀ t ∈ [(⟨str "POST", some 0, str "a", true, false⟩ : tree)],
      MethodMatch t.method (str "GET") = false := by
    intro t ht
    rw [List.mem_singleton.mp ht]
    decide
  ⟨hno,
   (processRequest_not_found_when_no_tree_selected literalExternals ⟨1, []⟩
      ⟨defaultOptions, [⟨str "POST", some 0, str "a", true, false⟩], MethodMatch⟩
      ⟨⟨defaultOptions, [⟨str "POST", some 0, str "a", true, false⟩], MethodMatch⟩⟩
      (mkContext (mkRequest (str "GET") (str "b") (str "/x")))).1 hno,
   (processRequest_not_found_when_no_tree_selected literalExternals ⟨1, []⟩
      ⟨defaultOptions, [⟨str "POST", some 0, str "a", true, false⟩], MethodMatch⟩
      ⟨⟨defaultOptions, [⟨str "POST", some 0, str "a", true, false⟩], MethodMatch⟩⟩
      (mkContext (mkRequest (str "GET") (str "b") (str "/x")))).2.1
      (fun t ht => Or.inr (hno t ht))⟩

/-- C10 (as stated, refuted): after the route `GET /x` with a chain of no handlers is
planted into the empty garden, the lookup of `/x` in its tree returns a chain that is not
nil and is empty, and `Router.find` returns true, having run that chain: it does not
return true only when the chain `GetBranch` returned is non-empty. -/
theorem find_serves_empty_chain :
    Garden.Plant ⟨0, []⟩ [] ⟨str "GET", [], str "/x", [], false⟩ =
      (⟨1, [⟨0, str "/x", []⟩]⟩, [⟨str "GET", some 0, [], false, false⟩]) ∧
    (literalExternals.GetBranch
        ((⟨1, [⟨0, str "/x", []⟩]⟩ : Heap).deref (some 0)) (str "/x") []).middleware =
      some [] ∧
    (Router.find literalExternals ⟨1, [⟨0, str "/x", []⟩]⟩
        ⟨defaultOptions, [⟨str "GET", some 0, [], false, false⟩], MethodMatch⟩
        ⟨str "GET", some 0, [], false, false⟩ (str "/x")
        (mkContext (mkRequest (str "GET") [] (str "/x")))).1 = true ∧
    issued (mkContext (mkRequest (str "GET") [] (str "/x")))
        (Router.find literalExternals ⟨1, [⟨0, str "/x", []⟩]⟩
          ⟨defaultOptions, [⟨str "GET", some 0, [], false, false⟩], MethodMatch⟩
          ⟨str "GET", some 0, [], false, false⟩ (str "/x")
          (mkContext (mkRequest (str "GET") [] (str "/x")))).2 =
      [.GetBranch (some 0) (str "/x") [], .Do [] (some []), .ForceHeader] ∧
    ¬ ((Router.find literalExternals ⟨1, [⟨0, str "/x", []⟩]⟩
        ⟨defaultOptions, [⟨str "GET", some 0, [], false, false⟩], MethodMatch⟩
        ⟨str "GET", some 0, [], false, false⟩ (str "/x")
        (mkContext (mkRequest (str "GET") [] (str "/x")))).1 = true ↔
      ∃ mw, (literalExternals.GetBranch
        ((⟨1, [⟨0, str "/x", []⟩]⟩ : Heap).deref (some 0)) (str "/x") []).middleware =
          some mw ∧ mw ≠ []) := by
  have hm : (literalExternals.GetBranch
      ((⟨1, [⟨0, str "/x", []⟩]⟩ : Heap).deref (some 0)) (str "/x") []).middleware =
      some [] := by decide
  have hf : (Router.find literalExternals ⟨1, [⟨0, str "/x", []⟩]⟩
      ⟨defaultOptions, [⟨str "GET", some 0, [], false, false⟩], MethodMatch⟩
      ⟨str "GET", some 0, [], false, false⟩ (str "/x")
      (mkContext (mkRequest (str "GET") [] (str "/x")))).1 = true := by
    rw [find_of_some literalExternals _ _ _ _ _ [] hm]
  refine ⟨by decide, hm, hf, ?_, ?_⟩
  · rw [find_of_some literalExternals _ _ _ _ _ [] hm]
    exact issued_append _ _ _ rfl
  · intro hiff
    obtain ⟨mw, h1, h2⟩ := hiff.mp hf
    rw [hm] at h1
    cases h1
    exact h2 rfl

/-- C10 (amended): `Router.find` returns true exactly when `GetBranch` returned a handler
chain that is not nil, whether or not it holds a handler; it has then set the parameters of
the context to the parameters and the chain of the context to the chain `GetBranch`
returned, the chain was run on the context holding both, and the calls made are the lookup,
the run of the chain and `ForceHeader`: there is neither a redirect nor a `NotFound`. -/
theorem find_serves_iff_chain_returned (E : Externals) (h : Heap) (r : Router) (t : tree)
    (key : GoString) (ctx : Context) :
    ((r.find E h t key ctx).1 = true ↔
      (E.GetBranch (h.deref t.rootBranch) key ctx.Params).middleware ≠ none) ∧
    (∀ mw, (E.GetBranch (h.deref t.rootBranch) key ctx.Params).middleware = some mw →
      (r.find E h t key ctx).2.Params =
        (E.GetBranch (h.deref t.rootBranch) key ctx.Params).params ∧
      (r.find E h t key ctx).2.middleware = some mw ∧
      (r.find E h t key ctx).2.Request = ctx.Request ∧
      issued ctx (r.find E h t key ctx).2 =
        [.GetBranch t.rootBranch key ctx.Params,
         .Do (E.GetBranch (h.deref t.rootBranch) key ctx.Params).params (some mw),
         .ForceHeader]) := by
  constructor
  · cases hm : (E.GetBranch (h.deref t.rootBranch) key ctx.Params).middleware with
    | some mw =>
      rw [find_of_some E h r t key ctx mw hm]
      simp
    | none =>
      rw [(find_of_none E h r t key ctx hm).1]
      simp
  · intro mw hm
    rw [find_of_some E h r t key ctx mw hm]
    exact ⟨rfl, rfl, rfl, issued_append ctx _ _ rfl⟩

/-- Witness of C10 (amended): the lookup of `/x` in a `GET` tree to which `/x` was added with the
chain `[7]` is served with that chain. -/
theorem find_serves_iff_chain_returned_witness :
    (literalExternals.GetBranch
        ((⟨1, [⟨0, str "/x", [7]⟩]⟩ : Heap).deref (some 0)) (str "/x") []).middleware =
      some [7] ∧
    issued (mkContext (mkRequest (str "GET") [] (str "/x")))
        (Router.find literalExternals ⟨1, [⟨0, str "/x", [7]⟩]⟩
          ⟨defaultOptions, [⟨str "GET", some 0, [], false, false⟩], MethodMatch⟩
          ⟨str "GET", some 0, [], false, false⟩ (str "/x")
          (mkContext (mkRequest (str "GET") [] (str "/x")))).2 =
      [.GetBranch (some 0) (str "/x") [], .Do [] (some [7]), .ForceHeader] :=
  have hm : (literalExternals.GetBranch
      ((⟨1, [⟨0, str "/x", [7]⟩]⟩ : Heap).deref (some 0)) (str "/x") []).middleware =
      some [7] := by decide
  ⟨hm, ((find_serves_iff_chain_returned literalExternals ⟨1, [⟨0, str "/x", [7]⟩]⟩
    ⟨defaultOptions, [⟨str "GET", some 0, [], false, false⟩], MethodMatch⟩
    ⟨str "GET", some 0, [], false, false⟩ (str "/x")
    (mkContext (mkRequest (str "GET") [] (str "/x")))).2 [7] hm).2.2.2⟩

/-! ## The redirect branch of `find` -/

theorem find_of_redirect (E : Externals) (h : Heap) (r : Router) (t : tree) (key : GoString)
    (ctx : Context)
    (hm : (E.GetBranch (h.deref t.rootBranch) key ctx.Params).middleware = none)
    (hc : redirectCondition E h r t key ctx) :
    r.find E h t key ctx =
      (false,
        if E.RedirectFails (redirectContext ctx t.rootBranch key) (redirectURL E ctx)
            StatusMovedPermanently = false ∧ t.method = HTTPMethods.GET then
          ((redirectContext ctx t.rootBranch key).emit
            (.Redirect (redirectURL E ctx) StatusMovedPermanently)).Write
              (movedNote E (redirectURL E ctx))
        else
          (redirectContext ctx t.rootBranch key).emit
            (.Redirect (redirectURL E ctx) StatusMovedPermanently)) := by
  obtain ⟨h1, h2, h3⟩ := hc
  unfold Router.find
  simp only [hm, h1, h2]
  have hd : decide ((ctx.emit (Event.GetBranch t.rootBranch key ctx.Params)).Request.Method ≠
      HTTPMethods.CONNECT) = true := decide_eq_true h3
  simp only [hd, Bool.and_self, if_true]
  by_cases hf : E.RedirectFails (redirectContext ctx t.rootBranch key) (redirectURL E ctx)
      StatusMovedPermanently = false
  · by_cases hg : t.method = HTTPMethods.GET
    · have hf2 := hf
      simp only [redirectContext, redirectURL] at hf2
      simp [Context.Redirect, Context.emit, redirectContext, redirectURL, hf2, hg]
    · have hf2 := hf
      simp only [redirectContext, redirectURL] at hf2
      simp [Context.Redirect, Context.emit, redirectContext, redirectURL, hf2, hg]
  · have hf2 := hf
    simp only [redirectContext, redirectURL] at hf2
    simp [Context.Redirect, Context.emit, redirectContext, redirectURL, hf2]

theorem find_of_not_found (E : Externals) (h : Heap) (r : Router) (t : tree) (key : GoString)
    (ctx : Context)
    (hm : (E.GetBranch (h.deref t.rootBranch) key ctx.Params).middleware = none)
    (hc : ¬ redirectCondition E h r t key ctx) :
    r.find E h t key ctx =
      (false, (ctx.emit (.GetBranch t.rootBranch key ctx.Params)).NotFound) := by
  have hb : ((E.GetBranch (h.deref t.rootBranch) key ctx.Params).mustRedirect &&
      r.options.PathCorrection &&
      decide ((ctx.emit (Event.GetBranch t.rootBranch key ctx.Params)).Request.Method ≠
        HTTPMethods.CONNECT)) = false := by
    rw [Bool.eq_false_iff]
    intro hx
    apply hc
    simp only [Bool.and_eq_true, decide_eq_true_eq] at hx
    exact ⟨hx.1.1, hx.1.2, hx.2⟩
  unfold Router.find
  simp only [hm, hb]
  rfl

theorem issued_redirect (E : Externals) (h : Heap) (r : Router) (t : tree) (key : GoString)
    (ctx : Context)
    (hm : (E.GetBranch (h.deref t.rootBranch) key ctx.Params).middleware = none)
    (hc : redirectCondition E h r t key ctx) :
    issued ctx (r.find E h t key ctx).2 =
      .GetBranch t.rootBranch key ctx.Params ::
        .Redirect (redirectURL E ctx) StatusMovedPermanently ::
          (if E.RedirectFails (redirectContext ctx t.rootBranch key) (redirectURL E ctx)
              StatusMovedPermanently = false ∧ t.method = HTTPMethods.GET then
            [.Write (movedNote E (redirectURL E ctx))]
          else []) := by
  rw [find_of_redirect E h r t key ctx hm hc]
  split_ifs
  · exact issued_append ctx _ _ (by simp [Context.Write, Context.emit, redirectContext])
  · exact issued_append ctx _ _ (by simp [Context.emit, redirectContext])

theorem issued_not_found (E : Externals) (h : Heap) (r : Router) (t : tree) (key : GoString)
    (ctx : Context)
    (hm : (E.GetBranch (h.deref t.rootBranch) key ctx.Params).middleware = none)
    (hc : ¬ redirectCondition E h r t key ctx) :
    issued ctx (r.find E h t key ctx).2 =
      [.GetBranch t.rootBranch key ctx.Params, .NotFound] := by
  rw [find_of_not_found E h r t key ctx hm hc]
  exact issued_append ctx _ _ (by simp [Context.NotFound, Context.emit])

theorem issued_served (E : Externals) (h : Heap) (r : Router) (t : tree) (key : GoString)
    (ctx : Context) (mw : Middleware)
    (hm : (E.GetBranch (h.deref t.rootBranch) key ctx.Params).middleware = some mw) :
    issued ctx (r.find E h t key ctx).2 =
      [.GetBranch t.rootBranch key ctx.Params,
       .Do (E.GetBranch (h.deref t.rootBranch) key ctx.Params).params (some mw),
       .ForceHeader] := by
  rw [find_of_some E h r t key ctx mw hm]
  exact issued_append ctx _ _ rfl

/-- C11: when `GetBranch` returns no handler chain, `Router.find` returns false; it issues
a redirect, with status 301, exactly when `mustRedirect` is true, the option
`PathCorrection` is enabled and the method of the request is not `CONNECT`, and then does
not call `NotFound`; in every other case the calls it makes are the lookup and one
`NotFound`, and no redirect. -/
theorem find_redirects_iff_correction_applies (E : Externals) (h : Heap) (r : Router)
    (t : tree) (key : GoString) (ctx : Context)
    (hm : (E.GetBranch (h.deref t.rootBranch) key ctx.Params).middleware = none) :
    (r.find E h t key ctx).1 = false ∧
    ((∃ url, Event.Redirect url StatusMovedPermanently ∈ issued ctx (r.find E h t key ctx).2) ↔
      ((E.GetBranch (h.deref t.rootBranch) key ctx.Params).mustRedirect = true ∧
        r.options.PathCorrection = true ∧ ctx.Request.Method ≠ HTTPMethods.CONNECT)) ∧
    ((∃ url status, Event.Redirect url status ∈ issued ctx (r.find E h t key ctx).2) →
      redirectCondition E h r t key ctx) ∧
    (redirectCondition E h r t key ctx →
      Event.NotFound ∉ issued ctx (r.find E h t key ctx).2) ∧
    (¬ redirectCondition E h r t key ctx →
      issued ctx (r.find E h t key ctx).2 =
        [.GetBranch t.rootBranch key ctx.Params, .NotFound]) := by
  have hno : ¬ redirectCondition E h r t key ctx →
      ¬ ∃ url status, Event.Redirect url status ∈ issued ctx (r.find E h t key ctx).2 := by
    rintro hc ⟨url, status, hmem⟩
    rw [issued_not_found E h r t key ctx hm hc] at hmem
    simp at hmem
  refine ⟨(find_of_none E h r t key ctx hm).1, ?_, ?_, ?_, ?_⟩
  · constructor
    · rintro ⟨url, hmem⟩
      by_contra hc
      exact hno hc ⟨url, _, hmem⟩
    · intro hc
      refine ⟨redirectURL E ctx, ?_⟩
      rw [issued_redirect E h r t key ctx hm hc]
      simp
  · intro hex
    by_contra hc
    exact hno hc hex
  · intro hc hmem
    rw [issued_redirect E h r t key ctx hm hc] at hmem
    split_ifs at hmem <;> simp at hmem
  · exact issued_not_found E h r t key ctx hm

/-- Witness of C11: the lookup of `/home` in a `GET` tree that holds `/home/` only is
answered by a redirect. -/
theorem find_redirects_iff_correction_applies_witness :
    (literalExternals.GetBranch
        ((⟨1, [⟨0, str "/home/", [7]⟩]⟩ : Heap).deref (some 0)) (str "/home") []).middleware =
      none ∧
    (Router.find literalExternals ⟨1, [⟨0, str "/home/", [7]⟩]⟩
        ⟨defaultOptions, [⟨str "GET", some 0, [], false, false⟩], MethodMatch⟩
        ⟨str "GET", some 0, [], false, false⟩ (str "/home")
        (mkContext (mkRequest (str "GET") [] (str "/home")))).1 = false :=
  have hm : (literalExternals.GetBranch
      ((⟨1, [⟨0, str "/home/", [7]⟩]⟩ : Heap).deref (some 0)) (str "/home") []).middleware =
      none := by decide
  ⟨hm, (find_redirects_iff_correction_applies literalExternals ⟨1, [⟨0, str "/home/", [7]⟩]⟩
    ⟨defaultOptions, [⟨str "GET", some 0, [], false, false⟩], MethodMatch⟩
    ⟨str "GET", some 0, [], false, false⟩ (str "/home")
    (mkContext (mkRequest (str "GET") [] (str "/home"))) hm).1⟩

theorem correctedPath_short (p : GoString) (hp : p.length ≤ 1) : correctedPath p = Slash := by
  simp [correctedPath, hp]

theorem correctedPath_slash (p : GoString) (hp : 1 < p.length)
    (hl : p.getLast? = some SlashByte) : correctedPath p = p.dropLast := by
  have h1 : ¬ p.length ≤ 1 := by omega
  have h2 : p[p.length - 1]? = some SlashByte := by
    rw [← hl, List.getLast?_eq_getElem?]
  simp only [correctedPath, if_neg h1, if_pos h2]
  exact (List.dropLast_eq_take p).symm

theorem correctedPath_no_slash (p : GoString) (hp : 1 < p.length)
    (hl : p.getLast? ≠ some SlashByte) : correctedPath p = p ++ Slash := by
  have h1 : ¬ p.length ≤ 1 := by omega
  have h2 : ¬ p[p.length - 1]? = some SlashByte := by
    rw [← List.getLast?_eq_getElem?]
    exact hl
  simp only [correctedPath, if_neg h1, if_neg h2]

/-- C12: when `Router.find` redirects, the path of the request URL is afterwards the
corrected path of the path `p` the request URL had, whatever the lookup key was, and the
redirect goes to the URL with that path; the corrected path is `/` when `len(p) <= 1`,
`p` without its last byte when `p` is longer and ends in `/`, and `p` followed by `/`
otherwise, so `/home` becomes `/home/` and `/home/` becomes `/home`. -/
theorem find_redirect_rewrites_path (E : Externals) (h : Heap) (r : Router) (t : tree)
    (key : GoString) (ctx : Context)
    (hm : (E.GetBranch (h.deref t.rootBranch) key ctx.Params).middleware = none)
    (hc : redirectCondition E h r t key ctx) :
    (r.find E h t key ctx).2.Request.URL.Path = correctedPath ctx.Request.URL.Path ∧
    Event.Redirect
        (E.URLString { ctx.Request.URL with Path := correctedPath ctx.Request.URL.Path })
        StatusMovedPermanently ∈ issued ctx (r.find E h t key ctx).2 ∧
    (∀ p : GoString, p.length ≤ 1 → correctedPath p = str "/") ∧
    (∀ p : GoString, 1 < p.length → p.getLast? = some 47 → correctedPath p = p.dropLast) ∧
    (∀ p : GoString, 1 < p.length → p.getLast? ≠ some 47 → correctedPath p = p ++ str "/") ∧
    correctedPath (str "/home") = str "/home/" ∧
    correctedPath (str "/home/") = str "/home" := by
  refine ⟨?_, ?_, correctedPath_short, correctedPath_slash, correctedPath_no_slash,
    by decide, by decide⟩
  · rw [find_of_redirect E h r t key ctx hm hc]
    split_ifs <;> rfl
  · rw [issued_redirect E h r t key ctx hm hc]
    simp [redirectURL]

/-- Witness of C12: the request `GET /home` on a `GET` tree that holds `/home/` only has
its path rewritten to `/home/`. -/
theorem find_redirect_rewrites_path_witness :
    redirectCondition literalExternals ⟨1, [⟨0, str "/home/", [7]⟩]⟩
      ⟨defaultOptions, [⟨str "GET", some 0, [], false, false⟩], MethodMatch⟩
      ⟨str "GET", some 0, [], false, false⟩ (str "/home")
      (mkContext (mkRequest (str "GET") [] (str "/home"))) ∧
    (Router.find literalExternals ⟨1, [⟨0, str "/home/", [7]⟩]⟩
        ⟨defaultOptions, [⟨str "GET", some 0, [], false, false⟩], MethodMatch⟩
        ⟨str "GET", some 0, [], false, false⟩ (str "/home")
        (mkContext (mkRequest (str "GET") [] (str "/home")))).2.Request.URL.Path =
      correctedPath (str "/home") :=
  have hm : (literalExternals.GetBranch
      ((⟨1, [⟨0, str "/home/", [7]⟩]⟩ : Heap).deref (some 0)) (str "/home") []).middleware =
      none := by decide
  have hc : redirectCondition literalExternals ⟨1, [⟨0, str "/home/", [7]⟩]⟩
      ⟨defaultOptions, [⟨str "GET", some 0, [], false, false⟩], MethodMatch⟩
      ⟨str "GET", some 0, [], false, false⟩ (str "/home")
      (mkContext (mkRequest (str "GET") [] (str "/home"))) :=
    ⟨by decide, by decide, by decide⟩
  ⟨hc, (find_redirect_rewrites_path literalExternals ⟨1, [⟨0, str "/home/", [7]⟩]⟩
    ⟨defaultOptions, [⟨str "GET", some 0, [], false, false⟩], MethodMatch⟩
    ⟨str "GET", some 0, [], false, false⟩ (str "/home")
    (mkContext (mkRequest (str "GET") [] (str "/home"))) hm hc).1⟩

/-! ## The body of a redirect -/

theorem get_ne_options : HTTPMethods.GET ≠ HTTPMethods.OPTIONS := by decide

theorem matcher_get_iff (mm : GoString → GoString → Bool)
    (hmm : mm = MethodMatch ∨ mm = CorsMethodMatch) (a req : GoString)
    (hacc : mm a req = true) : a = HTTPMethods.GET ↔ req = HTTPMethods.GET := by
  rcases hmm with e | e <;> subst e
  · simp only [MethodMatch, decide_eq_true_eq] at hacc
    rw [hacc]
  · simp only [CorsMethodMatch, Bool.or_eq_true, Bool.and_eq_true, decide_eq_true_eq] at hacc
    rcases hacc with e | ⟨hne, hopt⟩
    · rw [e]
    · constructor
      · intro hg
        exact absurd hg hne
      · intro hg
        rw [hg] at hopt
        exact absurd hopt get_ne_options

theorem notFound_bodyOnlyForGet (E : Externals) (ctx : Context) :
    BodyOnlyForGet E ctx (false, ctx.NotFound) := by
  intro root key url rest hi
  rw [issued_append ctx _ _ (notFound_trace ctx)] at hi
  simp at hi

theorem find_bodyOnlyForGet (E : Externals) (h : Heap) (r : Router) (t : tree)
    (key : GoString) (ctx : Context)
    (hg : t.method = HTTPMethods.GET ↔ ctx.Request.Method = HTTPMethods.GET) :
    BodyOnlyForGet E ctx (r.find E h t key ctx) := by
  intro root key1 url rest hi hok
  cases hm : (E.GetBranch (h.deref t.rootBranch) key ctx.Params).middleware with
  | some mw =>
    rw [issued_served E h r t key ctx mw hm] at hi
    simp at hi
  | none =>
    by_cases hc : redirectCondition E h r t key ctx
    · rw [issued_redirect E h r t key ctx hm hc] at hi
      simp only [List.cons.injEq, Event.GetBranch.injEq, Event.Redirect.injEq, and_true,
        true_and] at hi
      obtain ⟨⟨hroot, hkey⟩, hurl, hrest⟩ := hi
      subst hroot hkey hurl
      rw [hok] at hrest
      by_cases hget : t.method = HTTPMethods.GET
      · simp only [hget, and_self, if_true] at hrest
        subst hrest
        exact ⟨⟨fun _ => hg.mp hget, fun _ => ⟨_, List.mem_singleton.mpr rfl⟩⟩, Or.inr rfl⟩
      · simp only [hget, and_false, if_false] at hrest
        subst hrest
        refine ⟨⟨?_, fun hx => absurd (hg.mpr hx) hget⟩, Or.inl rfl⟩
        rintro ⟨body, hb⟩
        cases hb
    · rw [issued_not_found E h r t key ctx hm hc] at hi
      simp at hi

theorem domain_loop_first (E : Externals) (h : Heap) (rd : RouterDomain) (ctx : Context)
    (pre : Garden) (t : tree) (post : Garden) (reqPath : GoString)
    (hpre : ∀ u ∈ pre, rd.selects ctx u = false) (ht : rd.selects ctx t = true) :
    RouterDomain.processRequest.loop E h rd ctx reqPath (pre ++ t :: post) =
      rd.Router.find E h t (domainKeyAfter ctx.Request.Host reqPath (pre ++ [t])) ctx := by
  induction pre generalizing reqPath with
  | nil =>
    simp only [RouterDomain.selects, Bool.and_eq_true, Bool.or_eq_true, Bool.not_eq_true',
      decide_eq_true_eq] at ht
    by_cases hh : t.hosts = true
    · have hd : t.domain = ctx.Request.Host := by
        rcases ht.1 with h1 | h1
        · rw [hh] at h1
          cases h1
        · exact h1
      simp [RouterDomain.processRequest.loop, domainKeyAfter, hh, hd, ht.2]
    · simp [RouterDomain.processRequest.loop, domainKeyAfter, hh, ht.2]
  | cons u us ih =>
    have hu := hpre u (List.mem_cons_self _ _)
    have hus := fun x hx => hpre x (List.mem_cons_of_mem _ hx)
    simp only [RouterDomain.selects, Bool.and_eq_false_iff, Bool.or_eq_false_iff,
      Bool.not_eq_false', decide_eq_false_iff_not] at hu
    by_cases hh : u.hosts = true
    · by_cases hd : u.domain = ctx.Request.Host
      · have hm : rd.Router.methodMatch u.method ctx.Request.Method = false := by
          rcases hu with ⟨_, h2⟩ | h2
          · exact absurd hd h2
          · exact h2
        simp only [List.cons_append, RouterDomain.processRequest.loop, hh, if_true, hd,
          ne_eq, not_true_eq_false, if_false, hm, domainKeyAfter, and_self]
        exact ih _ hus
      · simp only [List.cons_append, RouterDomain.processRequest.loop, hh, if_true, ne_eq, hd,
          not_false_eq_true, domainKeyAfter, and_false, if_false]
        exact ih _ hus
    · have hm : rd.Router.methodMatch u.method ctx.Request.Method = false := by
        rcases hu with ⟨h1, _⟩ | h2
        · exact absurd h1 hh
        · exact h2
      simp only [List.cons_append, RouterDomain.processRequest.loop, hh, hm, domainKeyAfter,
        false_and, if_false]
      exact ih _ hus

theorem domain_not_selected_iff (rd : RouterDomain) (ctx : Context) (t : tree) :
    rd.selects ctx t = false ↔
      ((t.hosts = true ∧ t.domain ≠ ctx.Request.Host) ∨
        rd.Router.methodMatch t.method ctx.Request.Method = false) := by
  simp only [RouterDomain.selects, Bool.and_eq_false_iff, Bool.or_eq_false_iff,
    Bool.not_eq_false', decide_eq_false_iff_not, ne_eq]

theorem domain_processRequest_cases (E : Externals) (h : Heap) (rd : RouterDomain)
    (ctx : Context) :
    rd.processRequest E h ctx = (false, ctx.NotFound) ∨
    ∃ t key, rd.Router.methodMatch t.method ctx.Request.Method = true ∧
      rd.processRequest E h ctx = rd.Router.find E h t key ctx := by
  cases hf : rd.Router.garden.find? (fun u => decide (rd.selects ctx u = true)) with
  | none =>
    left
    apply domain_loop_not_found
    intro t ht
    have := (find_none_iff_all (fun u => rd.selects ctx u = true) _).mp hf t ht
    exact (domain_not_selected_iff rd ctx t).mp (Bool.not_eq_true _ ▸ this)
  | some t =>
    right
    obtain ⟨pre, post, e, ht, hpre⟩ :=
      (find_some_iff_isFirstTree (fun u => rd.selects ctx u = true) _ t).mp hf
    refine ⟨t, domainKeyAfter ctx.Request.Host ctx.Request.URL.Path (pre ++ [t]), ?_, ?_⟩
    · simp only [RouterDomain.selects, Bool.and_eq_true] at ht
      exact ht.2
    · unfold RouterDomain.processRequest
      rw [e]
      exact domain_loop_first E h rd ctx pre t post _
        (fun u hu => Bool.not_eq_true _ ▸ hpre u hu) ht

/-- C13: with `MethodMatch` or `CorsMethodMatch` as the method match, whenever
`Router.processRequest` or `RouterDomain.processRequest` answers with a redirect that was
written without error, a body is written exactly when the method of the request is `GET`
(the body is then the note); a request with any other method gets no body. -/
theorem redirect_body_only_for_get_requests (E : Externals) (h : Heap) (r : Router)
    (rd : RouterDomain) (ctx : Context) :
    ((r.methodMatch = MethodMatch ∨ r.methodMatch = CorsMethodMatch) →
      BodyOnlyForGet E ctx (r.processRequest E h ctx)) ∧
    ((rd.Router.methodMatch = MethodMatch ∨ rd.Router.methodMatch = CorsMethodMatch) →
      BodyOnlyForGet E ctx (rd.processRequest E h ctx)) := by
  constructor
  · intro hmm
    unfold Router.processRequest
    rw [processRequest_loop_eq]
    cases hf : r.garden.find? (fun t => r.methodMatch t.method ctx.Request.Method) with
    | none => exact notFound_bodyOnlyForGet E ctx
    | some t =>
      have hacc := List.find?_some hf
      exact find_bodyOnlyForGet E h r t _ ctx (matcher_get_iff _ hmm _ _ hacc)
  · intro hmm
    rcases domain_processRequest_cases E h rd ctx with e | ⟨t, key, hacc, e⟩
    · rw [e]
      exact notFound_bodyOnlyForGet E ctx
    · rw [e]
      exact find_bodyOnlyForGet E h rd.Router t key ctx (matcher_get_iff _ hmm _ _ hacc)

/-- Witness of C13: the request `GET /home` on a router with `MethodMatch` whose `GET` tree
holds `/home/` only. -/
theorem redirect_body_only_for_get_requests_witness :
    (MethodMatch = MethodMatch ∨ MethodMatch = CorsMethodMatch) ∧
    BodyOnlyForGet literalExternals (mkContext (mkRequest (str "GET") [] (str "/home")))
      (Router.processRequest literalExternals ⟨1, [⟨0, str "/home/", [7]⟩]⟩
        ⟨defaultOptions, [⟨str "GET", some 0, [], false, false⟩], MethodMatch⟩
        (mkContext (mkRequest (str "GET") [] (str "/home")))) :=
  ⟨Or.inl rfl,
   (redirect_body_only_for_get_requests literalExternals ⟨1, [⟨0, str "/home/", [7]⟩]⟩
      ⟨defaultOptions, [⟨str "GET", some 0, [], false, false⟩], MethodMatch⟩
      ⟨⟨defaultOptions, [⟨str "GET", some 0, [], false, false⟩], MethodMatch⟩⟩
      (mkContext (mkRequest (str "GET") [] (str "/home")))).1 (Or.inl rfl)⟩

/-- C14: when `Router.find` takes its redirect branch and `ctx.Redirect` returns an error,
`find` returns false, the calls it made are the lookup and the redirect only (no body is
written and `NotFound` is not called), and the path of the request URL stays the
corrected path. -/
theorem find_discards_redirect_error (E : Externals) (h : Heap) (r : Router) (t : tree)
    (key : GoString) (ctx : Context)
    (hm : (E.GetBranch (h.deref t.rootBranch) key ctx.Params).middleware = none)
    (hc : redirectCondition E h r t key ctx)
    (herr : E.RedirectFails (redirectContext ctx t.rootBranch key) (redirectURL E ctx)
      StatusMovedPermanently = true) :
    r.find E h t key ctx =
      (false, (redirectContext ctx t.rootBranch key).emit
        (.Redirect (redirectURL E ctx) StatusMovedPermanently)) ∧
    issued ctx (r.find E h t key ctx).2 =
      [.GetBranch t.rootBranch key ctx.Params,
       .Redirect (redirectURL E ctx) StatusMovedPermanently] ∧
    (r.find E h t key ctx).2.Request.URL.Path = correctedPath ctx.Request.URL.Path := by
  have hi := issued_redirect E h r t key ctx hm hc
  have hf := find_of_redirect E h r t key ctx hm hc
  simp only [herr, Bool.true_eq_false, false_and, if_false] at hi hf
  refine ⟨hf, hi, ?_⟩
  rw [hf]
  rfl

/-- Witness of C14: the request `GET /home` on a `GET` tree that holds `/home/` only, with
a redirect that fails. -/
theorem find_discards_redirect_error_witness :
    redirectCondition failingRedirectExternals ⟨1, [⟨0, str "/home/", [7]⟩]⟩
      ⟨defaultOptions, [⟨str "GET", some 0, [], false, false⟩], MethodMatch⟩
      ⟨str "GET", some 0, [], false, false⟩ (str "/home")
      (mkContext (mkRequest (str "GET") [] (str "/home"))) ∧
    issued (mkContext (mkRequest (str "GET") [] (str "/home")))
        (Router.find failingRedirectExternals ⟨1, [⟨0, str "/home/", [7]⟩]⟩
          ⟨defaultOptions, [⟨str "GET", some 0, [], false, false⟩], MethodMatch⟩
          ⟨str "GET", some 0, [], false, false⟩ (str "/home")
          (mkContext (mkRequest (str "GET") [] (str "/home")))).2 =
      [.GetBranch (some 0) (str "/home") [],
       .Redirect (redirectURL failingRedirectExternals
          (mkContext (mkRequest (str "GET") [] (str "/home")))) StatusMovedPermanently] :=
  have hm : (failingRedirectExternals.GetBranch
      ((⟨1, [⟨0, str "/home/", [7]⟩]⟩ : Heap).deref (some 0)) (str "/home") []).middleware =
      none := by decide
  have hc : redirectCondition failingRedirectExternals ⟨1, [⟨0, str "/home/", [7]⟩]⟩
      ⟨defaultOptions, [⟨str "GET", some 0, [], false, false⟩], MethodMatch⟩
      ⟨str "GET", some 0, [], false, false⟩ (str "/home")
      (mkContext (mkRequest (str "GET") [] (str "/home"))) :=
    ⟨by decide, by decide, by decide⟩
  ⟨hc, (find_discards_redirect_error failingRedirectExternals ⟨1, [⟨0, str "/home/", [7]⟩]⟩
    ⟨defaultOptions, [⟨str "GET", some 0, [], false, false⟩], MethodMatch⟩
    ⟨str "GET", some 0, [], false, false⟩ (str "/home")
    (mkContext (mkRequest (str "GET") [] (str "/home"))) hm hc rfl).2.1⟩

/-! ## The domain router -/

theorem find_issued_lookups (E : Externals) (h : Heap) (r : Router) (t : tree) (key : GoString)
    (ctx : Context) :
    lookups (issued ctx (r.find E h t key ctx).2) = [(t.rootBranch, key, ctx.Params)] := by
  obtain ⟨es, he, hl⟩ := find_trace E h r t key ctx
  rw [issued_append ctx _ _ he]
  simp [lookups, hl]

/-- C15: `RouterDomain.processRequest` dispatches to the first tree, in garden order, that
is not host-scoped or has the host of the request as its domain and whose method the
method match accepts: its outcome is `find` on that tree and the only lookup it makes is
in that tree, which is never a host-scoped tree of another domain; when there is no such
tree it makes no lookup.  With the trees `(GET, a.example.com)` and `(GET, b.example.com)`
a request with the host `a.example.com` is resolved against the first tree only. -/
theorem domain_dispatches_to_first_tree_of_host (E : Externals) (h : Heap)
    (rd : RouterDomain) (ctx : Context) :
    (∀ t, IsFirstTree (fun u => rd.selects ctx u = true) rd.Router.garden t →
      (∃ key, rd.processRequest E h ctx = rd.Router.find E h t key ctx ∧
        lookups (issued ctx (rd.processRequest E h ctx).2) =
          [(t.rootBranch, key, ctx.Params)]) ∧
      ¬ (t.hosts = true ∧ t.domain ≠ ctx.Request.Host) ∧
      rd.Router.methodMatch t.method ctx.Request.Method = true) ∧
    ((∀ t ∈ rd.Router.garden, rd.selects ctx t = false) →
      rd.processRequest E h ctx = (false, ctx.NotFound) ∧
      lookups (issued ctx (rd.processRequest E h ctx).2) = []) ∧
    (∀ t, rd.selects ctx t = true ↔
      ((t.hosts = false ∨ t.domain = ctx.Request.Host) ∧
        rd.Router.methodMatch t.method ctx.Request.Method = true)) := by
  refine ⟨?_, ?_, ?_⟩
  · rintro t ⟨pre, post, e, ht, hpre⟩
    have hloop : rd.processRequest E h ctx = rd.Router.find E h t
        (domainKeyAfter ctx.Request.Host ctx.Request.URL.Path (pre ++ [t])) ctx := by
      unfold RouterDomain.processRequest
      rw [e]
      exact domain_loop_first E h rd ctx pre t post _
        (fun u hu => Bool.not_eq_true _ ▸ hpre u hu) ht
    have ht2 := ht
    simp only [RouterDomain.selects, Bool.and_eq_true, Bool.or_eq_true, Bool.not_eq_true',
      decide_eq_true_eq] at ht2
    refine ⟨⟨_, hloop, ?_⟩, ?_, ht2.2⟩
    · rw [hloop]
      exact find_issued_lookups E h rd.Router t _ ctx
    · rintro ⟨hh, hd⟩
      rcases ht2.1 with h1 | h1
      · rw [hh] at h1
        cases h1
      · exact hd h1
  · intro hno
    have hnf : rd.processRequest E h ctx = (false, ctx.NotFound) :=
      domain_loop_not_found E h rd ctx _ _
        (fun t ht => (domain_not_selected_iff rd ctx t).mp (hno t ht))
    refine ⟨hnf, ?_⟩
    rw [hnf, issued_append ctx _ _ (notFound_trace ctx)]
    rfl
  · intro t
    simp only [RouterDomain.selects, Bool.and_eq_true, Bool.or_eq_true, Bool.not_eq_true',
      decide_eq_true_eq]

/-- Witness of C15: with the trees `(GET, a.example.com)` and `(GET, b.example.com)` the
request `GET /x` with the host `a.example.com` is dispatched to the first tree, and the
only lookup is in its path tree. -/
theorem domain_dispatches_to_first_tree_of_host_witness :
    IsFirstTree
      (fun u => RouterDomain.selects
        ⟨⟨defaultOptions,
          [⟨str "GET", some 0, str "a.example.com", true, false⟩,
           ⟨str "GET", some 1, str "b.example.com", true, false⟩], MethodMatch⟩⟩
        (mkContext (mkRequest (str "GET") (str "a.example.com") (str "/x"))) u = true)
      [⟨str "GET", some 0, str "a.example.com", true, false⟩,
       ⟨str "GET", some 1, str "b.example.com", true, false⟩]
      ⟨str "GET", some 0, str "a.example.com", true, false⟩ ∧
    ∃ key, lookups (issued (mkContext (mkRequest (str "GET") (str "a.example.com") (str "/x")))
      (RouterDomain.processRequest literalExternals ⟨2, []⟩
        ⟨⟨defaultOptions,
          [⟨str "GET", some 0, str "a.example.com", true, false⟩,
           ⟨str "GET", some 1, str "b.example.com", true, false⟩], MethodMatch⟩⟩
        (mkContext (mkRequest (str "GET") (str "a.example.com") (str "/x")))).2) =
      [(some 0, key, [])] :=
  have hfirst : IsFirstTree
      (fun u => RouterDomain.selects
        ⟨⟨defaultOptions,
          [⟨str "GET", some 0, str "a.example.com", true, false⟩,
           ⟨str "GET", some 1, str "b.example.com", true, false⟩], MethodMatch⟩⟩
        (mkContext (mkRequest (str "GET") (str "a.example.com") (str "/x"))) u = true)
      [⟨str "GET", some 0, str "a.example.com", true, false⟩,
       ⟨str "GET", some 1, str "b.example.com", true, false⟩]
      ⟨str "GET", some 0, str "a.example.com", true, false⟩ :=
    ⟨[], [⟨str "GET", some 1, str "b.example.com", true, false⟩], rfl, by decide,
      fun _ hu => by cases hu⟩
  ⟨hfirst,
    match ((domain_dispatches_to_first_tree_of_host literalExternals ⟨2, []⟩
      ⟨⟨defaultOptions,
        [⟨str "GET", some 0, str "a.example.com", true, false⟩,
         ⟨str "GET", some 1, str "b.example.com", true, false⟩], MethodMatch⟩⟩
      (mkContext (mkRequest (str "GET") (str "a.example.com") (str "/x")))).1 _ hfirst).1 with
    | ⟨key, _, hl⟩ => ⟨key, hl⟩⟩

/-- C16: after planting `GET /x` and `POST /x` for the host `a.com`, the request
`POST /x` with the host `a.com` is looked up in the `POST` tree under the key
`a.coma.com/x`, with the host twice in front, while `Plant` stored the route under
`a.com/x`; the lookup finds nothing and the request is answered with `NotFound`. -/
theorem domain_lookup_key_repeats_host :
    plantAll ⟨0, []⟩ emptyGarden
        [⟨str "GET", str "a.com", str "/x", [1], false⟩,
         ⟨str "POST", str "a.com", str "/x", [2], false⟩] =
      (⟨2, [⟨0, str "a.com/x", [1]⟩, ⟨1, str "a.com/x", [2]⟩]⟩,
        [⟨str "GET", some 0, str "a.com", true, false⟩,
         ⟨str "POST", some 1, str "a.com", true, false⟩]) ∧
    RouterDomain.processRequest literalExternals
        ⟨2, [⟨0, str "a.com/x", [1]⟩, ⟨1, str "a.com/x", [2]⟩]⟩
        ⟨⟨defaultOptions,
          [⟨str "GET", some 0, str "a.com", true, false⟩,
           ⟨str "POST", some 1, str "a.com", true, false⟩], MethodMatch⟩⟩
        (mkContext (mkRequest (str "POST") (str "a.com") (str "/x"))) =
      (false,
        ⟨mkRequest (str "POST") (str "a.com") (str "/x"), [], none,
          [.GetBranch (some 1) (str "a.coma.com/x") [], .NotFound]⟩) ∧
    Router.find literalExternals
        ⟨2, [⟨0, str "a.com/x", [1]⟩, ⟨1, str "a.com/x", [2]⟩]⟩
        ⟨defaultOptions,
          [⟨str "GET", some 0, str "a.com", true, false⟩,
           ⟨str "POST", some 1, str "a.com", true, false⟩], MethodMatch⟩
        ⟨str "POST", some 1, str "a.com", true, false⟩ (str "a.com/x")
        (mkContext (mkRequest (str "POST") (str "a.com") (str "/x"))) =
      (true,
        ⟨mkRequest (str "POST") (str "a.com") (str "/x"), [], some [2],
          [.GetBranch (some 1) (str "a.com/x") [], .Do [] (some [2]), .ForceHeader]⟩) := by
  refine ⟨by decide, by decide, by decide⟩

/-! ## The specialization pass -/

theorem routerHasCors_iff (g : Garden) : routerHasCors g = true ↔ ∃ t ∈ g, t.cors = true := by
  induction g with
  | nil => simp [routerHasCors]
  | cons t ts ih =>
    by_cases hc : t.cors = true
    · simp [routerHasCors, hc]
    · simp [routerHasCors, hc, ih]

theorem routerHasHosts_iff (g : Garden) : routerHasHosts g = true ↔ ∃ t ∈ g, t.hosts = true := by
  induction g with
  | nil => simp [routerHasHosts]
  | cons t ts ih =>
    by_cases hc : t.hosts = true
    · simp [routerHasHosts, hc]
    · simp [routerHasHosts, hc, ih]

theorem corsRouter_garden (r : Router) : (corsRouter r).garden = r.garden := by
  unfold corsRouter
  split_ifs <;> rfl

theorem corsRouter_options (r : Router) : (corsRouter r).options = r.options := by
  unfold corsRouter
  split_ifs <;> rfl

theorem corsStep_router (r : Router) (o : StationOptions) (b : Bool) :
    Station.corsStep ⟨.router r, o, b⟩ = ⟨.router (corsRouter r), o, b⟩ := by
  unfold Station.corsStep corsRouter
  simp only [IRouter.getGarden, IRouter.getRouter, Router.getGarden]
  split_ifs <;> rfl

theorem corsStep_memory (m : MemoryRouter) (o : StationOptions) (b : Bool) :
    Station.corsStep ⟨.memory m, o, b⟩ =
      ⟨.memory { m with Router := corsRouter m.Router }, o, b⟩ := by
  unfold Station.corsStep corsRouter
  simp only [IRouter.getGarden, IRouter.getRouter, Router.getGarden]
  split_ifs <;> rfl

theorem hostsStep_router (r : Router) (o : StationOptions) (b : Bool) :
    Station.hostsStep ⟨.router r, o, b⟩ =
      ⟨if routerHasHosts r.garden then .domain (NewRouterDomain r) else .router r, o, b⟩ := by
  unfold Station.hostsStep
  simp only [IRouter.getGarden, IRouter.getRouter, Router.getGarden, IRouter.getType,
    Router.getType]
  split_ifs <;> rfl

theorem hostsStep_memory (m : MemoryRouter) (o : StationOptions) (b : Bool) :
    Station.hostsStep ⟨.memory m, o, b⟩ =
      ⟨if routerHasHosts m.Router.garden then .memoryDomain (NewMemoryRouterDomain m)
        else .memory m, o, b⟩ := by
  unfold Station.hostsStep
  simp only [IRouter.getGarden, IRouter.getRouter, Router.getGarden, IRouter.getType,
    MemoryRouter.getType]
  split_ifs <;> rfl

theorem cacheStep_router (cpus : Nat) (r : Router) (o : StationOptions) (b : Bool) :
    Station.cacheStep cpus ⟨.router r, o, b⟩ = ⟨.router r, o, b⟩ := by
  simp [Station.cacheStep, IRouter.getType, Router.getType]

theorem cacheStep_domain (cpus : Nat) (d : RouterDomain) (o : StationOptions) (b : Bool) :
    Station.cacheStep cpus ⟨.domain d, o, b⟩ = ⟨.domain d, o, b⟩ := by
  simp [Station.cacheStep, IRouter.getType, RouterDomain.getType]

theorem cacheStep_memory (cpus : Nat) (m : MemoryRouter) (o : StationOptions) (b : Bool) :
    Station.cacheStep cpus ⟨.memory m, o, b⟩ =
      ⟨if cpus > 1 then
          .sync ⟨.memory (if m.cache = none then m.setCache (freshCache cpus) else m)⟩
        else .memory (if m.cache = none then m.setCache (freshCache cpus) else m), o, b⟩ := by
  cases hcache : m.cache with
  | none =>
    by_cases hcpu : cpus > 1 <;>
      simp [Station.cacheStep, IRouter.getType, MemoryRouter.getType, IRouter.asMemoryRouter,
        IMemoryRouter.hasCache, MemoryRouter.hasCache, IMemoryRouter.setCache, hcache, hcpu,
        freshCache, NewSyncRouter, IMemoryRouter.toIRouter, NewSyncContextCache]
  | some c =>
    by_cases hcpu : cpus > 1 <;>
      simp [Station.cacheStep, IRouter.getType, MemoryRouter.getType, IRouter.asMemoryRouter,
        IMemoryRouter.hasCache, MemoryRouter.hasCache, hcache, hcpu,
        NewSyncRouter, IMemoryRouter.toIRouter]

theorem cacheStep_memoryDomain (cpus : Nat) (m : MemoryRouter) (o : StationOptions) (b : Bool) :
    Station.cacheStep cpus ⟨.memoryDomain ⟨m⟩, o, b⟩ =
      ⟨if cpus > 1 then
          .sync ⟨.memoryDomain ⟨if m.cache = none then m.setCache (freshCache cpus) else m⟩⟩
        else .memoryDomain ⟨if m.cache = none then m.setCache (freshCache cpus) else m⟩,
        o, b⟩ := by
  cases hcache : m.cache with
  | none =>
    by_cases hcpu : cpus > 1 <;>
      simp [Station.cacheStep, IRouter.getType, MemoryRouterDomain.getType,
        IRouter.asMemoryRouter, IMemoryRouter.hasCache, MemoryRouter.hasCache,
        IMemoryRouter.setCache, hcache, hcpu, freshCache, NewSyncRouter,
        IMemoryRouter.toIRouter, NewSyncContextCache]
  | some c =>
    by_cases hcpu : cpus > 1 <;>
      simp [Station.cacheStep, IRouter.getType, MemoryRouterDomain.getType,
        IRouter.asMemoryRouter, IMemoryRouter.hasCache, MemoryRouter.hasCache, hcache, hcpu,
        NewSyncRouter, IMemoryRouter.toIRouter]

/-- The router `OptimusPrime` leaves in a station that started with the router `r`. -/
theorem optimusPrime_router (cpus : Nat) (r : Router) (o : StationOptions) :
    Station.OptimusPrime cpus ⟨.router r, o, false⟩ =
      ⟨if routerHasHosts r.garden then .domain ⟨corsRouter r⟩ else .router (corsRouter r),
        o, true⟩ := by
  simp only [Station.OptimusPrime, Bool.not_false, if_true, Station.forceOptimusPrime,
    corsStep_router, hostsStep_router, corsRouter_garden, NewRouterDomain]
  split_ifs
  · rw [cacheStep_domain]
  · rw [cacheStep_router]

/-- The router `OptimusPrime` leaves in a station that started with the cached router
`m`. -/
theorem optimusPrime_memory (cpus : Nat) (m : MemoryRouter) (o : StationOptions) :
    Station.OptimusPrime cpus ⟨.memory m, o, false⟩ =
      ⟨(if cpus > 1 then
          (if routerHasHosts m.Router.garden then
            .sync ⟨.memoryDomain ⟨if m.cache = none then
              { m with Router := corsRouter m.Router, cache := some (freshCache cpus) }
              else { m with Router := corsRouter m.Router }⟩⟩
          else
            .sync ⟨.memory (if m.cache = none then
              { m with Router := corsRouter m.Router, cache := some (freshCache cpus) }
              else { m with Router := corsRouter m.Router })⟩)
        else
          (if routerHasHosts m.Router.garden then
            .memoryDomain ⟨if m.cache = none then
              { m with Router := corsRouter m.Router, cache := some (freshCache cpus) }
              else { m with Router := corsRouter m.Router }⟩
          else
            .memory (if m.cache = none then
              { m with Router := corsRouter m.Router, cache := some (freshCache cpus) }
              else { m with Router := corsRouter m.Router }))),
        o, true⟩ := by
  simp only [Station.OptimusPrime, Bool.not_false, if_true, Station.forceOptimusPrime,
    corsStep_memory, hostsStep_memory, corsRouter_garden, NewMemoryRouterDomain]
  by_cases hh : routerHasHosts m.Router.garden = true
  · simp only [hh, if_true]
    rw [cacheStep_memoryDomain]
    by_cases hcpu : cpus > 1 <;> by_cases hcache : m.cache = none <;>
      simp [hcpu, hcache, MemoryRouter.setCache]
  · have hh2 : routerHasHosts m.Router.garden = false := by simpa using hh
    simp only [hh2, Bool.false_eq_true, if_false]
    rw [cacheStep_memory]
    by_cases hcpu : cpus > 1 <;> by_cases hcache : m.cache = none <;>
      simp [hcpu, hcache, MemoryRouter.setCache]

theorem getAll_router (l : List (GoString × Nat)) (h : Heap) (r : Router) :
    ∃ g, (IRouter.GetAll h (.router r) l).2 = .router (r.setGarden g) := by
  induction l generalizing h r with
  | nil => exact ⟨r.garden, rfl⟩
  | cons x xs ih =>
    obtain ⟨path, handler⟩ := x
    simp only [IRouter.GetAll, IRouter.Get, IRouter.setGarden, IRouter.mapRouter]
    obtain ⟨g, hg⟩ := ih (Garden.Plant h (IRouter.router r).getGarden
      ⟨HTTPMethods.GET, [], path, [handler], false⟩).1
      (r.setGarden (Garden.Plant h (IRouter.router r).getGarden
        ⟨HTTPMethods.GET, [], path, [handler], false⟩).2)
    exact ⟨g, hg⟩

theorem getAll_memory (l : List (GoString × Nat)) (h : Heap) (m : MemoryRouter) :
    ∃ g, (IRouter.GetAll h (.memory m) l).2 =
      .memory { m with Router := m.Router.setGarden g } := by
  induction l generalizing h m with
  | nil => exact ⟨m.Router.garden, rfl⟩
  | cons x xs ih =>
    obtain ⟨path, handler⟩ := x
    simp only [IRouter.GetAll, IRouter.Get, IRouter.setGarden, IRouter.mapRouter]
    obtain ⟨g, hg⟩ := ih (Garden.Plant h (IRouter.memory m).getGarden
      ⟨HTTPMethods.GET, [], path, [handler], false⟩).1
      { m with Router := m.Router.setGarden (Garden.Plant h (IRouter.memory m).getGarden
        ⟨HTTPMethods.GET, [], path, [handler], false⟩).2 }
    exact ⟨g, hg⟩

/-- Every station `newStation` returns is unoptimized, and its method match is
`MethodMatch`. -/
theorem newStation_unoptimized (h : Heap) (options : StationOptions) :
    (newStation h options).2.Unoptimized ∧ (newStation h options).2.matcher = MethodMatch := by
  unfold newStation
  by_cases hc : options.Cache = true <;> by_cases hp : options.Profile = true
  · obtain ⟨g, hg⟩ := getAll_memory (profileRoutes options.ProfilePath) h
      (NewMemoryRouter (NewRouter options) options.CacheMaxItems options.CacheResetDuration)
    simp only [hc, hp, if_true, hg]
    exact ⟨⟨rfl, Or.inr ⟨hc, _, rfl⟩⟩, rfl⟩
  · simp only [hc, hp, if_true, if_false]
    exact ⟨⟨rfl, Or.inr ⟨hc, _, rfl⟩⟩, rfl⟩
  · obtain ⟨g, hg⟩ := getAll_router (profileRoutes options.ProfilePath) h (NewRouter options)
    simp only [hc, hp, if_true, if_false, hg]
    exact ⟨⟨rfl, Or.inl ⟨by simpa using hc, _, rfl⟩⟩, rfl⟩
  · simp only [hc, hp, if_false]
    exact ⟨⟨rfl, Or.inl ⟨by simpa using hc, _, rfl⟩⟩, rfl⟩

/-- Storing a garden in an unoptimized station leaves it unoptimized, with the same method
match and options. -/
theorem setGarden_unoptimized (s : Station) (g : Garden) (hs : s.Unoptimized) :
    (s.setGarden g).Unoptimized ∧ (s.setGarden g).matcher = s.matcher ∧
    (s.setGarden g).IRouter.getGarden = g ∧ (s.setGarden g).options = s.options := by
  obtain ⟨ir, o, b⟩ := s
  obtain ⟨hopt, ⟨hc, r, hr⟩ | ⟨hc, m, hm⟩⟩ := hs
  · simp only at hr hopt hc
    subst hr
    exact ⟨⟨hopt, Or.inl ⟨hc, _, rfl⟩⟩, rfl, rfl, rfl⟩
  · simp only at hm hopt hc
    subst hm
    exact ⟨⟨hopt, Or.inr ⟨hc, _, rfl⟩⟩, rfl, rfl, rfl⟩

/-- C18: on an unoptimized station `OptimusPrime` leaves a domain-aware router exactly when
some tree of the garden has `hosts` true: in that case the second step turns a `Router`
into the `RouterDomain` that wraps it and a `MemoryRouter` into the `MemoryRouterDomain`
that wraps it, and otherwise it leaves the station as it is; the `Router` underneath, with
its garden and method match, is the same before and after the step and in the station
`OptimusPrime` returns. -/
theorem optimusPrime_domain_aware_iff_hosts (cpus : Nat) (s : Station)
    (hs : s.Unoptimized) :
    ((s.OptimusPrime cpus).IRouter.domainAware = true ↔
      ∃ t ∈ s.IRouter.getGarden, t.hosts = true) ∧
    (∀ r, s.corsStep.IRouter = .router r → (∃ t ∈ s.IRouter.getGarden, t.hosts = true) →
      s.corsStep.hostsStep.IRouter = .domain (NewRouterDomain r) ∧
      s.corsStep.hostsStep.IRouter.getType = .Domain) ∧
    (∀ m, s.corsStep.IRouter = .memory m → (∃ t ∈ s.IRouter.getGarden, t.hosts = true) →
      s.corsStep.hostsStep.IRouter = .memoryDomain (NewMemoryRouterDomain m) ∧
      s.corsStep.hostsStep.IRouter.getType = .DomainMemory) ∧
    ((∀ t ∈ s.IRouter.getGarden, t.hosts = false) →
      s.corsStep.hostsStep.IRouter = s.corsStep.IRouter ∧
      s.corsStep.hostsStep.IRouter.getType = s.IRouter.getType) ∧
    s.corsStep.hostsStep.IRouter.getRouter = s.corsStep.IRouter.getRouter ∧
    (s.OptimusPrime cpus).IRouter.getRouter = s.corsStep.IRouter.getRouter ∧
    (s.OptimusPrime cpus).IRouter.getGarden = s.IRouter.getGarden := by
  obtain ⟨ir, o, b⟩ := s
  obtain ⟨hopt, ⟨_, r, hr⟩ | ⟨_, m, hm⟩⟩ := hs
  · simp only at hr hopt
    subst hr hopt
    have hno : (∀ t ∈ r.garden, t.hosts = false) → routerHasHosts r.garden = false := by
      intro hall
      rw [Bool.eq_false_iff, Ne, routerHasHosts_iff]
      rintro ⟨t, ht, hh⟩
      rw [hall t ht] at hh
      cases hh
    simp only [optimusPrime_router, corsStep_router, hostsStep_router, corsRouter_garden,
      IRouter.getGarden, IRouter.getRouter, Router.getGarden, ← routerHasHosts_iff]
    refine ⟨?_, ?_, ?_, ?_, ?_, ?_, ?_⟩
    · by_cases hh : routerHasHosts r.garden = true <;> simp [hh, IRouter.domainAware]
    · intro r1 hr1 hh
      cases hr1
      simp [hh, IRouter.getType, RouterDomain.getType]
    · intro m hm
      cases hm
    · intro hall
      simp [hno hall, IRouter.getType, Router.getType, MemoryRouter.getType]
    · by_cases hh : routerHasHosts r.garden = true <;>
        simp [hh, IRouter.getRouter, NewRouterDomain]
    · by_cases hh : routerHasHosts r.garden = true <;> simp [hh, IRouter.getRouter]
    · by_cases hh : routerHasHosts r.garden = true <;>
        simp [hh, IRouter.getRouter, corsRouter_garden]
  · simp only at hm hopt
    subst hm hopt
    have hno : (∀ t ∈ m.Router.garden, t.hosts = false) →
        routerHasHosts m.Router.garden = false := by
      intro hall
      rw [Bool.eq_false_iff, Ne, routerHasHosts_iff]
      rintro ⟨t, ht, hh⟩
      rw [hall t ht] at hh
      cases hh
    simp only [optimusPrime_memory, corsStep_memory, hostsStep_memory, corsRouter_garden,
      IRouter.getGarden, IRouter.getRouter, Router.getGarden, ← routerHasHosts_iff]
    refine ⟨?_, ?_, ?_, ?_, ?_, ?_, ?_⟩
    · by_cases hh : routerHasHosts m.Router.garden = true <;> by_cases hcpu : cpus > 1 <;>
        simp [hh, hcpu, IRouter.domainAware]
    · intro r hr
      cases hr
    · intro m1 hm1 hh
      cases hm1
      simp [hh, IRouter.getType, MemoryRouterDomain.getType]
    · intro hall
      simp [hno hall, IRouter.getType, Router.getType, MemoryRouter.getType]
    · by_cases hh : routerHasHosts m.Router.garden = true <;>
        simp [hh, IRouter.getRouter, NewMemoryRouterDomain]
    · by_cases hh : routerHasHosts m.Router.garden = true <;> by_cases hcpu : cpus > 1 <;>
        by_cases hcache : m.cache = none <;> simp [hh, hcpu, hcache, IRouter.getRouter]
    · by_cases hh : routerHasHosts m.Router.garden = true <;> by_cases hcpu : cpus > 1 <;>
        by_cases hcache : m.cache = none <;>
        simp [hh, hcpu, hcache, IRouter.getRouter, corsRouter_garden]

theorem stationWith_unoptimized (cache : Bool) (g : Garden) :
    (stationWith cache g).Unoptimized :=
  (setGarden_unoptimized _ g (newStation_unoptimized _ _).1).1

/-- Witness of C18: the station created with the default options in which a garden with one
host-scoped tree was stored gets a domain-aware router. -/
theorem optimusPrime_domain_aware_iff_hosts_witness :
    (stationWith false [⟨str "GET", some 0, str "a.com", true, false⟩]).Unoptimized ∧
    ((stationWith false [⟨str "GET", some 0, str "a.com", true, false⟩]).OptimusPrime
      1).IRouter.domainAware = true :=
  ⟨stationWith_unoptimized _ _,
   (optimusPrime_domain_aware_iff_hosts 1
      (stationWith false [⟨str "GET", some 0, str "a.com", true, false⟩])
      (stationWith_unoptimized _ _)).1.mpr
      ⟨⟨str "GET", some 0, str "a.com", true, false⟩, List.mem_singleton.mpr rfl, rfl⟩⟩

/-- C19: on an unoptimized station the dispatcher variant `OptimusPrime` yields is
determined by three booleans: it is domain-aware exactly when some tree has `hosts`, and
its cache side is uncached when the cache is not configured, cached when it is and one
logical CPU is available, and cached with the synchronization decorator when it is and
more than one is available.  The router is wrapped in the synchronization decorator
exactly when it is cache-bearing and more than one CPU is available; without the cache the
type is `Normal` or `Domain` whatever the number of CPUs; and each of the six variants is
the result for some station that `newStation` created. -/
theorem optimusPrime_variant (cpus : Nat) (s : Station) (hs : s.Unoptimized) :
    (s.OptimusPrime cpus).IRouter.variant =
      (routerHasHosts s.IRouter.getGarden,
        if s.options.Cache = true then
          (if cpus > 1 then CacheLevel.CachedConcurrent else CacheLevel.Cached)
        else CacheLevel.Uncached) ∧
    ((∃ inner, (s.OptimusPrime cpus).IRouter = .sync inner) ↔
      (s.corsStep.hostsStep.IRouter.cacheBearing = true ∧ cpus > 1)) ∧
    (s.options.Cache = false →
      (s.OptimusPrime cpus).IRouter.getType = .Normal ∨
      (s.OptimusPrime cpus).IRouter.getType = .Domain) ∧
    (∀ v : Bool × CacheLevel, ∃ (options : StationOptions) (g : Garden) (n : Nat),
      (((newStation ⟨0, []⟩ options).2.setGarden g).OptimusPrime n).IRouter.variant = v) := by
  refine ⟨?_, ?_, ?_, ?_⟩
  · obtain ⟨ir, o, b⟩ := s
    obtain ⟨hopt, ⟨hc, r, hr⟩ | ⟨hc, m, hm⟩⟩ := hs
    · simp only at hr hopt hc
      subst hr hopt
      simp only [optimusPrime_router, IRouter.getGarden, IRouter.getRouter, Router.getGarden]
      by_cases hh : routerHasHosts r.garden = true <;>
        simp [hh, hc, IRouter.variant, IRouter.domainAware, IRouter.cacheLevel]
    · simp only at hm hopt hc
      subst hm hopt
      simp only [optimusPrime_memory, IRouter.getGarden, IRouter.getRouter, Router.getGarden]
      by_cases hh : routerHasHosts m.Router.garden = true <;> by_cases hcpu : cpus > 1 <;>
        simp [hh, hc, hcpu, IRouter.variant, IRouter.domainAware, IRouter.cacheLevel]
  · obtain ⟨ir, o, b⟩ := s
    obtain ⟨hopt, ⟨hc, r, hr⟩ | ⟨hc, m, hm⟩⟩ := hs
    · simp only at hr hopt hc
      subst hr hopt
      simp only [optimusPrime_router, corsStep_router, hostsStep_router, corsRouter_garden]
      by_cases hh : routerHasHosts r.garden = true <;>
        simp [hh, IRouter.cacheBearing, IRouter.getType, Router.getType,
          RouterDomain.getType]
    · simp only at hm hopt hc
      subst hm hopt
      simp only [optimusPrime_memory, corsStep_memory, hostsStep_memory, corsRouter_garden]
      by_cases hh : routerHasHosts m.Router.garden = true <;> by_cases hcpu : cpus > 1 <;>
        simp [hh, hcpu, IRouter.cacheBearing, IRouter.getType, MemoryRouter.getType,
          MemoryRouterDomain.getType]
  · intro hnc
    obtain ⟨ir, o, b⟩ := s
    obtain ⟨hopt, ⟨hc, r, hr⟩ | ⟨hc, m, hm⟩⟩ := hs
    · simp only at hr hopt hc
      subst hr hopt
      simp only [optimusPrime_router]
      by_cases hh : routerHasHosts r.garden = true <;>
        simp [hh, IRouter.getType, Router.getType, RouterDomain.getType]
    · simp only at hc hnc
      rw [hc] at hnc
      cases hnc
  · rintro ⟨d, c⟩
    cases d <;> cases c
    · exact ⟨defaultOptions, [], 1, rfl⟩
    · exact ⟨{ defaultOptions with Cache := true }, [], 1, rfl⟩
    · exact ⟨{ defaultOptions with Cache := true }, [], 2, rfl⟩
    · exact ⟨defaultOptions, [⟨str "GET", some 0, str "a.com", true, false⟩], 1, rfl⟩
    · exact ⟨{ defaultOptions with Cache := true },
        [⟨str "GET", some 0, str "a.com", true, false⟩], 1, rfl⟩
    · exact ⟨{ defaultOptions with Cache := true },
        [⟨str "GET", some 0, str "a.com", true, false⟩], 2, rfl⟩

/-- Witness of C19: with the cache configured, a host-scoped tree and two logical CPUs the
variant is the domain-aware, cached and synchronized one. -/
theorem optimusPrime_variant_witness :
    (stationWith true [⟨str "GET", some 0, str "a.com", true, false⟩]).Unoptimized ∧
    ((stationWith true [⟨str "GET", some 0, str "a.com", true, false⟩]).OptimusPrime
      2).IRouter.variant = (true, CacheLevel.CachedConcurrent) :=
  ⟨stationWith_unoptimized _ _,
   ((optimusPrime_variant 2 (stationWith true [⟨str "GET", some 0, str "a.com", true, false⟩])
      (stationWith_unoptimized _ _)).1).trans rfl⟩

/-- C20: on an unoptimized station whose router is cache-bearing (a `MemoryRouter`),
`OptimusPrime` attaches a cache only when none is attached: the attached cache is then the
concurrency-safe decorator around a fresh store when more than one logical CPU is
available and the bare fresh store otherwise; a cache that is already attached stays as it
is; and a station whose router is not cache-bearing (a `Router`) ends without a cache. -/
theorem optimusPrime_attaches_cache_once (cpus : Nat) (s : Station) (hs : s.Unoptimized) :
    (s.IRouter.cacheBearing = true ↔ ∃ m, s.IRouter = .memory m) ∧
    (s.IRouter.cacheBearing = true → s.IRouter.cache = none →
      (s.OptimusPrime cpus).IRouter.cache =
        some (if cpus > 1 then NewSyncContextCache NewContextCache
              else IContextCache.store NewContextCache)) ∧
    (∀ c, s.IRouter.cache = some c → (s.OptimusPrime cpus).IRouter.cache = some c) ∧
    (s.IRouter.cacheBearing = false → (s.OptimusPrime cpus).IRouter.cache = none) := by
  obtain ⟨ir, o, b⟩ := s
  obtain ⟨hopt, ⟨hc, r, hr⟩ | ⟨hc, m, hm⟩⟩ := hs
  · simp only at hr hopt hc
    subst hr hopt
    simp only [optimusPrime_router]
    refine ⟨?_, ?_, ?_, ?_⟩
    · simp [IRouter.cacheBearing, IRouter.getType, Router.getType]
    · intro hb
      simp [IRouter.cacheBearing, IRouter.getType, Router.getType] at hb
    · intro c hcache
      simp [IRouter.cache] at hcache
    · intro _
      by_cases hh : routerHasHosts r.garden = true <;> simp [hh, IRouter.cache]
  · simp only at hm hopt hc
    subst hm hopt
    simp only [optimusPrime_memory]
    refine ⟨?_, ?_, ?_, ?_⟩
    · simp [IRouter.cacheBearing, IRouter.getType, MemoryRouter.getType]
    · intro _ hcache
      simp only [IRouter.cache] at hcache
      by_cases hh : routerHasHosts m.Router.garden = true <;> by_cases hcpu : cpus > 1 <;>
        simp [hh, hcpu, hcache, IRouter.cache, freshCache, NewSyncContextCache]
    · intro c hcache
      simp only [IRouter.cache] at hcache
      by_cases hh : routerHasHosts m.Router.garden = true <;> by_cases hcpu : cpus > 1 <;>
        simp [hh, hcpu, hcache, IRouter.cache]
    · intro hb
      simp [IRouter.cacheBearing, IRouter.getType, MemoryRouter.getType] at hb

/-- Witness of C20: with the cache configured and two logical CPUs the station gets the
concurrency-safe decorator around a fresh store. -/
theorem optimusPrime_attaches_cache_once_witness :
    (stationWith true []).Unoptimized ∧
    ((stationWith true []).OptimusPrime 2).IRouter.cache =
      some (IContextCache.sync NewContextCache) :=
  ⟨stationWith_unoptimized _ _,
   (optimusPrime_attaches_cache_once 2 (stationWith true [])
      (stationWith_unoptimized _ _)).2.1 rfl rfl⟩

/-! ## The cors method match of the station -/

theorem cors_accepts_options_iff (a : GoString) :
    CorsMethodMatch a HTTPMethods.OPTIONS = true ↔ a ≠ HTTPMethods.GET := by
  simp only [CorsMethodMatch, Bool.or_eq_true, Bool.and_eq_true, decide_eq_true_eq, and_true]
  constructor
  · rintro (e | hne)
    · rw [e]
      exact Ne.symm get_ne_options
    · exact hne
  · exact Or.inr

theorem isFirstTree_congr (p q : tree → Prop) (g : Garden) (t : tree)
    (hpq : ∀ u ∈ g, p u ↔ q u) (hp : IsFirstTree p g t) : IsFirstTree q g t := by
  obtain ⟨pre, post, e, ht, hpre⟩ := hp
  refine ⟨pre, post, e, ?_, ?_⟩
  · exact (hpq t (by rw [e]; simp)).mp ht
  · intro u hu hq
    exact hpre u hu ((hpq u (by rw [e]; simp [hu])).mpr hq)

theorem corsRouter_matcher (r : Router) :
    ((∃ t ∈ r.garden, t.cors = true) → (corsRouter r).methodMatch = CorsMethodMatch) ∧
    ((∀ t ∈ r.garden, t.cors = false) → (corsRouter r).methodMatch = r.methodMatch) := by
  constructor
  · intro hex
    have := (routerHasCors_iff r.garden).mpr hex
    simp [corsRouter, this, Router.setMethodMatch]
  · intro hall
    have : routerHasCors r.garden = false := by
      rw [Bool.eq_false_iff, Ne, routerHasCors_iff]
      rintro ⟨t, ht, hc⟩
      rw [hall t ht] at hc
      cases hc
    simp [corsRouter, this]

theorem optimusPrime_getRouter (cpus : Nat) (s : Station) (hs : s.Unoptimized) :
    (s.OptimusPrime cpus).IRouter.getRouter = corsRouter s.IRouter.getRouter := by
  obtain ⟨ir, o, b⟩ := s
  obtain ⟨hopt, ⟨_, r, hr⟩ | ⟨_, m, hm⟩⟩ := hs
  · simp only at hr hopt
    subst hr hopt
    simp only [optimusPrime_router]
    by_cases hh : routerHasHosts r.garden = true <;> simp [hh, IRouter.getRouter]
  · simp only at hm hopt
    subst hm hopt
    simp only [optimusPrime_memory]
    by_cases hh : routerHasHosts m.Router.garden = true <;> by_cases hcpu : cpus > 1 <;>
      by_cases hcache : m.cache = none <;> simp [hh, hcpu, hcache, IRouter.getRouter]

theorem optimusPrime_processRequest (E : Externals) (h : Heap) (cpus : Nat) (s : Station)
    (hs : s.Unoptimized) (ctx : Context) :
    (s.OptimusPrime cpus).IRouter.processRequest E h ctx =
      if routerHasHosts s.IRouter.getGarden then
        RouterDomain.processRequest E h ⟨corsRouter s.IRouter.getRouter⟩ ctx
      else Router.processRequest E h (corsRouter s.IRouter.getRouter) ctx := by
  obtain ⟨ir, o, b⟩ := s
  obtain ⟨hopt, ⟨_, r, hr⟩ | ⟨_, m, hm⟩⟩ := hs
  · simp only at hr hopt
    subst hr hopt
    simp only [optimusPrime_router, IRouter.getGarden, IRouter.getRouter, Router.getGarden]
    by_cases hh : routerHasHosts r.garden = true <;> simp [hh, IRouter.processRequest]
  · simp only at hm hopt
    subst hm hopt
    simp only [optimusPrime_memory, IRouter.getGarden, IRouter.getRouter, Router.getGarden]
    by_cases hh : routerHasHosts m.Router.garden = true <;> by_cases hcpu : cpus > 1 <;>
      by_cases hcache : m.cache = none <;> simp [hh, hcpu, hcache, IRouter.processRequest]

theorem processRequest_first (E : Externals) (h : Heap) (r : Router) (ctx : Context) (t : tree)
    (ht : IsFirstTree (fun u => r.methodMatch u.method ctx.Request.Method = true) r.garden t) :
    r.processRequest E h ctx = r.find E h t ctx.Request.URL.Path ctx := by
  have hf : r.garden.find? (fun u => decide (r.methodMatch u.method ctx.Request.Method = true))
      = some t :=
    (find_some_iff_isFirstTree
      (fun u => r.methodMatch u.method ctx.Request.Method = true) r.garden t).mpr ht
  simp only [Bool.decide_eq_true] at hf
  unfold Router.processRequest
  rw [processRequest_loop_eq, hf]

theorem router_options_dispatch (E : Externals) (h : Heap) (r : Router) (ctx : Context)
    (t : tree) (hmm : r.methodMatch = CorsMethodMatch)
    (hopt : ctx.Request.Method = HTTPMethods.OPTIONS)
    (ht : IsFirstTree (fun u => u.method ≠ HTTPMethods.GET) r.garden t) :
    r.processRequest E h ctx = r.find E h t ctx.Request.URL.Path ctx := by
  apply processRequest_first E h r ctx t
  apply isFirstTree_congr _ _ _ _ _ ht
  intro u _
  rw [hmm, hopt, cors_accepts_options_iff]

theorem domain_options_dispatch (E : Externals) (h : Heap) (rd : RouterDomain) (ctx : Context)
    (t : tree) (hmm : rd.Router.methodMatch = CorsMethodMatch)
    (hopt : ctx.Request.Method = HTTPMethods.OPTIONS)
    (ht : IsFirstTree (fun u => (u.hosts = false ∨ u.domain = ctx.Request.Host) ∧
      u.method ≠ HTTPMethods.GET) rd.Router.garden t) :
    ∃ key, rd.processRequest E h ctx = rd.Router.find E h t key ctx := by
  have hsel : IsFirstTree (fun u => rd.selects ctx u = true) rd.Router.garden t := by
    apply isFirstTree_congr _ _ _ _ _ ht
    intro u _
    simp only [RouterDomain.selects, Bool.and_eq_true, Bool.or_eq_true, Bool.not_eq_true',
      decide_eq_true_eq, hmm, hopt, cors_accepts_options_iff]
  obtain ⟨pre, post, e, hts, hpre⟩ := hsel
  refine ⟨domainKeyAfter ctx.Request.Host ctx.Request.URL.Path (pre ++ [t]), ?_⟩
  unfold RouterDomain.processRequest
  rw [e]
  exact domain_loop_first E h rd ctx pre t post _
    (fun u hu => Bool.not_eq_true _ ▸ hpre u hu) hts

theorem dispatchedTo_of_find (E : Externals) (h : Heap) (s : Station) (ctx : Context)
    (t : tree) (key : GoString)
    (he : s.IRouter.processRequest E h ctx = s.IRouter.getRouter.find E h t key ctx) :
    DispatchedTo E h s ctx t := by
  refine ⟨key, he, ?_⟩
  rw [he]
  exact find_issued_lookups E h _ t key ctx

/-- C17 (as stated, refuted): the station created with the default options, with the garden
of a `POST` route with cross-origin support for the host `a.com` followed by a `POST` route
without host, gets `CorsMethodMatch` and the domain router; the request `OPTIONS /y` with
the host `b.com` is then dispatched to the second tree, not to the first tree whose method
is not `GET`, which is the tree of the host `a.com`. -/
theorem optimusPrime_options_skips_tree_of_other_host :
    plantAll ⟨0, []⟩ emptyGarden
        [⟨str "POST", str "a.com", str "/x", [1], true⟩, ⟨str "POST", [], str "/y", [2], false⟩] =
      (hostAndPlainHeap, hostAndPlainGarden) ∧
    ((stationWith false hostAndPlainGarden).OptimusPrime 1).matcher = CorsMethodMatch ∧
    ((stationWith false hostAndPlainGarden).OptimusPrime 1).IRouter.getType = .Domain ∧
    IsFirstTree (fun u => u.method ≠ HTTPMethods.GET) hostAndPlainGarden
      ⟨str "POST", some 0, str "a.com", true, true⟩ ∧
    lookups (issued (mkContext (mkRequest (str "OPTIONS") (str "b.com") (str "/y")))
      (((stationWith false hostAndPlainGarden).OptimusPrime 1).IRouter.processRequest
        literalExternals hostAndPlainHeap
        (mkContext (mkRequest (str "OPTIONS") (str "b.com") (str "/y")))).2) =
      [(some 1, str "/y", [])] ∧
    ¬ DispatchedTo literalExternals hostAndPlainHeap
      ((stationWith false hostAndPlainGarden).OptimusPrime 1)
      (mkContext (mkRequest (str "OPTIONS") (str "b.com") (str "/y")))
      ⟨str "POST", some 0, str "a.com", true, true⟩ := by
  have hl : lookups (issued (mkContext (mkRequest (str "OPTIONS") (str "b.com") (str "/y")))
      (((stationWith false hostAndPlainGarden).OptimusPrime 1).IRouter.processRequest
        literalExternals hostAndPlainHeap
        (mkContext (mkRequest (str "OPTIONS") (str "b.com") (str "/y")))).2) =
      [(some 1, str "/y", [])] := by decide
  refine ⟨by decide, rfl, rfl, ⟨[], [⟨str "POST", some 1, [], false, false⟩], rfl, by decide,
    fun _ hu => by cases hu⟩, hl, ?_⟩
  rintro ⟨key, _, hk⟩
  rw [hl] at hk
  simp at hk

/-- C17 (amended): on an unoptimized station whose method match is `MethodMatch`, as
`newStation` creates it, the method match after `OptimusPrime` is `CorsMethodMatch` when
some tree of the garden has `cors` true and `MethodMatch` when none has; with a cors tree
present an `OPTIONS` request is dispatched to the first tree, in garden order, that is not
host-scoped or has the host of the request as its domain and whose method is not `GET`,
which is the first tree whose method is not `GET` when no tree of the garden is
host-scoped. -/
theorem optimusPrime_installs_cors_matcher (cpus : Nat) (s : Station) (hs : s.Unoptimized)
    (hmm : s.matcher = MethodMatch) :
    ((∃ t ∈ s.IRouter.getGarden, t.cors = true) →
      (s.OptimusPrime cpus).matcher = CorsMethodMatch) ∧
    ((∀ t ∈ s.IRouter.getGarden, t.cors = false) →
      (s.OptimusPrime cpus).matcher = MethodMatch) ∧
    ((∃ t ∈ s.IRouter.getGarden, t.cors = true) →
      ∀ (E : Externals) (h : Heap) (ctx : Context) (t : tree),
        ctx.Request.Method = HTTPMethods.OPTIONS →
        IsFirstTree (fun u => (u.hosts = false ∨ u.domain = ctx.Request.Host) ∧
          u.method ≠ HTTPMethods.GET) s.IRouter.getGarden t →
        DispatchedTo E h (s.OptimusPrime cpus) ctx t) ∧
    ((∃ t ∈ s.IRouter.getGarden, t.cors = true) →
      (∀ u ∈ s.IRouter.getGarden, u.hosts = false) →
      ∀ (E : Externals) (h : Heap) (ctx : Context) (t : tree),
        ctx.Request.Method = HTTPMethods.OPTIONS →
        IsFirstTree (fun u => u.method ≠ HTTPMethods.GET) s.IRouter.getGarden t →
        DispatchedTo E h (s.OptimusPrime cpus) ctx t) := by
  have hrouter := optimusPrime_getRouter cpus s hs
  have hcm := corsRouter_matcher s.IRouter.getRouter
  have hdisp : (∃ t ∈ s.IRouter.getGarden, t.cors = true) →
      ∀ (E : Externals) (h : Heap) (ctx : Context) (t : tree),
        ctx.Request.Method = HTTPMethods.OPTIONS →
        IsFirstTree (fun u => (u.hosts = false ∨ u.domain = ctx.Request.Host) ∧
          u.method ≠ HTTPMethods.GET) s.IRouter.getGarden t →
        DispatchedTo E h (s.OptimusPrime cpus) ctx t := by
    intro hex E h ctx t hopt ht
    have hcors : (corsRouter s.IRouter.getRouter).methodMatch = CorsMethodMatch := hcm.1 hex
    have hg : (corsRouter s.IRouter.getRouter).garden = s.IRouter.getGarden :=
      corsRouter_garden _
    by_cases hh : routerHasHosts s.IRouter.getGarden = true
    · obtain ⟨key, hkey⟩ := domain_options_dispatch E h ⟨corsRouter s.IRouter.getRouter⟩ ctx t
        hcors hopt (by rw [hg]; exact ht)
      apply dispatchedTo_of_find E h _ ctx t key
      rw [optimusPrime_processRequest E h cpus s hs ctx, if_pos hh, hrouter]
      exact hkey
    · have hnone : ∀ u ∈ s.IRouter.getGarden, u.hosts = false := by
        intro u hu
        by_contra hx
        exact hh ((routerHasHosts_iff _).mpr ⟨u, hu, by simpa using hx⟩)
      apply dispatchedTo_of_find E h _ ctx t ctx.Request.URL.Path
      rw [optimusPrime_processRequest E h cpus s hs ctx, if_neg hh, hrouter]
      apply router_options_dispatch E h _ ctx t hcors hopt
      rw [hg]
      apply isFirstTree_congr _ _ _ _ _ ht
      intro u hu
      simp [hnone u hu]
  refine ⟨?_, ?_, hdisp, ?_⟩
  · intro hex
    unfold Station.matcher
    rw [hrouter]
    exact hcm.1 hex
  · intro hall
    unfold Station.matcher
    rw [hrouter, hcm.2 hall]
    exact hmm
  · intro hex hnone E h ctx t hopt ht
    apply hdisp hex E h ctx t hopt
    apply isFirstTree_congr _ _ _ _ _ ht
    intro u hu
    simp [hnone u hu]

/-- Witness of C17 (amended): the station created with the default options and the garden
of a `POST` route with cross-origin support gets `CorsMethodMatch`. -/
theorem optimusPrime_installs_cors_matcher_witness :
    (stationWith false [⟨str "POST", some 0, [], false, true⟩]).Unoptimized ∧
    (stationWith false [⟨str "POST", some 0, [], false, true⟩]).matcher = MethodMatch ∧
    ((stationWith false [⟨str "POST", some 0, [], false, true⟩]).OptimusPrime 1).matcher =
      CorsMethodMatch :=
  ⟨stationWith_unoptimized _ _, rfl,
   (optimusPrime_installs_cors_matcher 1
      (stationWith false [⟨str "POST", some 0, [], false, true⟩])
      (stationWith_unoptimized _ _) rfl).1
      ⟨⟨str "POST", some 0, [], false, true⟩, List.mem_singleton.mpr rfl, rfl⟩⟩

/-! ## The flag `optimized` -/

theorem optimusPrime_optimized (cpus : Nat) (s : Station) :
    (s.OptimusPrime cpus).optimized = true := by
  unfold Station.OptimusPrime
  by_cases ho : s.optimized = true
  · simp [ho]
  · have ho2 : s.optimized = false := by simpa using ho
    simp [ho2, Station.forceOptimusPrime]

theorem optimusPrime_of_optimized (cpus : Nat) (s : Station) (ho : s.optimized = true) :
    s.OptimusPrime cpus = s := by
  simp [Station.OptimusPrime, ho]

theorem optimusPrime_of_not_optimized (cpus : Nat) (s : Station) (ho : s.optimized = false) :
    s.OptimusPrime cpus = s.forceOptimusPrime cpus := by
  simp [Station.OptimusPrime, ho]

/-- The `PreListen` methods leave the flag `optimized` and the options of the station. -/
theorem doPreListen_loop_flag (K : PluginHooks) (ps : List IPlugin) (s : Station) :
    (PluginContainer.DoPreListen.loop K ps s).optimized = s.optimized ∧
    (PluginContainer.DoPreListen.loop K ps s).options = s.options := by
  induction ps generalizing s with
  | nil => exact ⟨rfl, rfl⟩
  | cons x rest ih =>
    unfold PluginContainer.DoPreListen.loop
    split_ifs
    · exact ih _
    · exact ih _

/-- When every `PreListen` method called leaves the router it finds, the station after
`DoPreListen` is the station before. -/
theorem doPreListen_loop_idle (K : PluginHooks) (ps : List IPlugin) (s : Station)
    (hk : ∀ x ∈ ps, x.preListen = true → ∀ station, K.PreListen x station = station.IRouter) :
    PluginContainer.DoPreListen.loop K ps s = s := by
  induction ps generalizing s with
  | nil => rfl
  | cons x rest ih =>
    have hrest := fun y hy => hk y (List.mem_cons_of_mem _ hy)
    unfold PluginContainer.DoPreListen.loop
    split_ifs with hx
    · rw [hk x (List.mem_cons_self _ _) hx s]
      exact ih s hrest
    · exact ih s hrest

theorem call_optimized (K : PluginHooks) (s : Station) (c : StationCall) :
    (s.call K c).optimized = true := by
  cases c with
  | OptimusPrime cpus => exact optimusPrime_optimized cpus s
  | Serve cpus pc =>
    exact (doPreListen_loop_flag K pc.activatedPlugins (s.OptimusPrime cpus)).1.trans
      (optimusPrime_optimized cpus s)

theorem calls_optimized (K : PluginHooks) (cs : List StationCall) (s : Station)
    (ho : s.optimized = true) : (s.calls K cs).optimized = true := by
  induction cs generalizing s with
  | nil => exact ho
  | cons c cs ih => exact ih (s.call K c) (call_optimized K s c)

/-- C21: calling `OptimusPrime` a second time, whatever the number of logical CPUs then,
returns the station the first call returned: the router, with its variant, garden, method
match and cache, and the flag `optimized` are the same. -/
theorem optimusPrime_twice (c1 c2 : Nat) (s : Station) :
    (s.OptimusPrime c1).OptimusPrime c2 = s.OptimusPrime c1 ∧
    ((s.OptimusPrime c1).OptimusPrime c2).IRouter.variant = (s.OptimusPrime c1).IRouter.variant ∧
    ((s.OptimusPrime c1).OptimusPrime c2).IRouter.getGarden =
      (s.OptimusPrime c1).IRouter.getGarden ∧
    ((s.OptimusPrime c1).OptimusPrime c2).matcher = (s.OptimusPrime c1).matcher ∧
    ((s.OptimusPrime c1).OptimusPrime c2).IRouter.cache = (s.OptimusPrime c1).IRouter.cache ∧
    ((s.OptimusPrime c1).OptimusPrime c2).optimized = true ∧
    (s.OptimusPrime c1).optimized = true := by
  have he := optimusPrime_of_optimized c2 (s.OptimusPrime c1) (optimusPrime_optimized c1 s)
  rw [he]
  exact ⟨rfl, rfl, rfl, rfl, rfl, optimusPrime_optimized c1 s, optimusPrime_optimized c1 s⟩

/-- C23: `HasOptimized` is false on every station `newStation` returns, true after an
`OptimusPrime` call on any station, and once it is true it stays true under every sequence
of `OptimusPrime` and `Serve` calls, whatever the `PreListen` methods of the plugins do
with the router. -/
theorem hasOptimized_one_way :
    (∀ (h : Heap) (options : StationOptions), (newStation h options).2.HasOptimized = false) ∧
    (∀ (s : Station) (cpus : Nat), (s.OptimusPrime cpus).HasOptimized = true) ∧
    (∀ (K : PluginHooks) (s : Station) (cs : List StationCall), s.HasOptimized = true →
      (s.calls K cs).HasOptimized = true) ∧
    (∀ (K : PluginHooks) (s : Station) (cpus : Nat) (cs : List StationCall),
      ((s.OptimusPrime cpus).calls K cs).HasOptimized = true) := by
  refine ⟨?_, ?_, ?_, ?_⟩
  · intro h options
    exact (newStation_unoptimized h options).1.1
  · intro s cpus
    exact optimusPrime_optimized cpus s
  · intro K s cs ho
    exact calls_optimized K cs s ho
  · intro K s cpus cs
    exact calls_optimized K cs _ (optimusPrime_optimized cpus s)

/-- Witness of C23: after `OptimusPrime`, a `Serve` in which the `PreListen` method of a
plugin assigns a new router, and a further `OptimusPrime`, the station created with the
default options still has the flag. -/
theorem hasOptimized_one_way_witness :
    ((stationWith false []).OptimusPrime 1).HasOptimized = true ∧
    (((stationWith false []).OptimusPrime 1).calls replacingHooks
      [.Serve 2 ⟨[swapPlugin]⟩, .OptimusPrime 4]).HasOptimized = true :=
  ⟨hasOptimized_one_way.2.1 _ _,
   hasOptimized_one_way.2.2.1 _ _ _ (hasOptimized_one_way.2.1 _ _)⟩

/-- C24 (as stated, refuted): on the station with a host-scoped tree, not yet specialized,
whose plugin `swap` assigns a new router in its `PreListen` method, the specialization pass
produces the domain router, and `Serve` returns the router the plugin assigned, of type
`Normal`: the flag `optimized` is true and the handler is not the router the pass
produced. -/
theorem serve_returns_router_of_preListen :
    (stationWith false [⟨str "GET", some 0, str "a.com", true, false⟩]).optimized = false ∧
    ((stationWith false [⟨str "GET", some 0, str "a.com", true, false⟩]).forceOptimusPrime
      1).IRouter.getType = .Domain ∧
    ((stationWith false [⟨str "GET", some 0, str "a.com", true, false⟩]).Serve replacingHooks 1
      ⟨[swapPlugin]⟩).station.HasOptimized = true ∧
    ((stationWith false [⟨str "GET", some 0, str "a.com", true, false⟩]).Serve replacingHooks 1
      ⟨[swapPlugin]⟩).handler.getType = .Normal ∧
    ((stationWith false [⟨str "GET", some 0, str "a.com", true, false⟩]).Serve replacingHooks 1
      ⟨[swapPlugin]⟩).handler.getGarden = [] ∧
    ((stationWith false [⟨str "GET", some 0, str "a.com", true, false⟩]).Serve replacingHooks 1
      ⟨[swapPlugin]⟩).handler ≠
      ((stationWith false [⟨str "GET", some 0, str "a.com", true, false⟩]).forceOptimusPrime
        1).IRouter := by
  refine ⟨rfl, rfl, rfl, rfl, rfl, ?_⟩
  intro he
  have ht := congrArg IRouter.getType he
  exact absurd ht (by decide)

/-- C24 (amended): on a station that has not been specialized `Serve` runs the
specialization pass before the `PreListen` methods of the plugins and before it reads the
handler: the station afterwards is the one `forceOptimusPrime` returns with the router as
the `PreListen` methods left it, its flag `optimized` is true and its options are
unchanged, and the handler returned is the router of that station; when every `PreListen`
method called leaves the router it finds, in particular when no plugin has the method, the
station is the one the pass returned and the handler is the router the pass produced. -/
theorem serve_specializes_first (K : PluginHooks) (cpus : Nat) (s : Station)
    (pluginContainer : PluginContainer) (hs : s.optimized = false) :
    (s.Serve K cpus pluginContainer).station =
      pluginContainer.DoPreListen K (s.forceOptimusPrime cpus) ∧
    (s.Serve K cpus pluginContainer).station.HasOptimized = true ∧
    (s.Serve K cpus pluginContainer).station.options = (s.forceOptimusPrime cpus).options ∧
    (s.Serve K cpus pluginContainer).handler =
      (s.Serve K cpus pluginContainer).station.IRouter ∧
    ((∀ x ∈ pluginContainer.activatedPlugins, x.preListen = true →
        ∀ station, K.PreListen x station = station.IRouter) →
      (s.Serve K cpus pluginContainer).station = s.forceOptimusPrime cpus ∧
      (s.Serve K cpus pluginContainer).handler = (s.forceOptimusPrime cpus).IRouter) ∧
    ((∀ x ∈ pluginContainer.activatedPlugins, x.preListen = false) →
      (s.Serve K cpus pluginContainer).station = s.forceOptimusPrime cpus ∧
      (s.Serve K cpus pluginContainer).handler = (s.forceOptimusPrime cpus).IRouter) := by
  have hflag := doPreListen_loop_flag K pluginContainer.activatedPlugins
    (s.forceOptimusPrime cpus)
  have hidle : (∀ x ∈ pluginContainer.activatedPlugins, x.preListen = true →
      ∀ station, K.PreListen x station = station.IRouter) →
      (s.Serve K cpus pluginContainer).station = s.forceOptimusPrime cpus ∧
      (s.Serve K cpus pluginContainer).handler = (s.forceOptimusPrime cpus).IRouter := by
    intro hk
    have he := doPreListen_loop_idle K pluginContainer.activatedPlugins
      (s.forceOptimusPrime cpus) hk
    unfold Station.Serve PluginContainer.DoPreListen
    rw [optimusPrime_of_not_optimized cpus s hs, he]
    exact ⟨rfl, rfl⟩
  refine ⟨?_, ?_, ?_, rfl, hidle, ?_⟩
  · unfold Station.Serve
    rw [optimusPrime_of_not_optimized cpus s hs]
  · unfold Station.Serve PluginContainer.DoPreListen Station.HasOptimized
    rw [optimusPrime_of_not_optimized cpus s hs]
    exact hflag.1
  · unfold Station.Serve PluginContainer.DoPreListen
    rw [optimusPrime_of_not_optimized cpus s hs]
    exact hflag.2
  · intro hnone
    apply hidle
    intro x hx hp
    rw [hnone x hx] at hp
    cases hp

/-- Witness of C24 (amended): on the station with a host-scoped tree and no plugin `Serve`
hands out the domain router, while the router of the registration was of type `Normal`. -/
theorem serve_specializes_first_witness :
    (stationWith false [⟨str "GET", some 0, str "a.com", true, false⟩]).optimized = false ∧
    (stationWith false [⟨str "GET", some 0, str "a.com", true, false⟩]).IRouter.getType =
      .Normal ∧
    ((stationWith false [⟨str "GET", some 0, str "a.com", true, false⟩]).Serve replacingHooks 1
      ⟨[]⟩).handler.getType = .Domain :=
  ⟨rfl, rfl,
   (congrArg IRouter.getType ((serve_specializes_first replacingHooks 1
      (stationWith false [⟨str "GET", some 0, str "a.com", true, false⟩]) ⟨[]⟩ rfl).2.2.2.2.2
      (fun _ hx => absurd hx (List.not_mem_nil _))).2).trans rfl⟩

/-! ## The domain router and the plain router -/

theorem domain_loop_eq_router_loop (E : Externals) (h : Heap) (rd : RouterDomain)
    (ctx : Context) (g : Garden) (reqPath : GoString) (hg : ∀ t ∈ g, t.hosts = false) :
    RouterDomain.processRequest.loop E h rd ctx reqPath g =
      Router.processRequest.loop E h rd.Router reqPath ctx.Request.Method ctx g := by
  induction g with
  | nil => rfl
  | cons t ts ih =>
    have ht := hg t (List.mem_cons_self _ _)
    have hts := fun u hu => hg u (List.mem_cons_of_mem _ hu)
    simp only [RouterDomain.processRequest.loop, Router.processRequest.loop, ht,
      Bool.false_eq_true, if_false, ih hts]

/-- C29: on a garden without host-scoped tree `RouterDomain.processRequest` and
`Router.processRequest` of the wrapped router return the same outcome and the same context,
with the same calls, for every request and every method match; both are `find` on the first
tree the method match accepts, with the path of the request URL as the key. -/
theorem domain_router_equals_router_without_hosts (E : Externals) (h : Heap)
    (rd : RouterDomain) (ctx : Context)
    (hg : ∀ t ∈ rd.Router.garden, t.hosts = false) :
    rd.processRequest E h ctx = rd.Router.processRequest E h ctx ∧
    (∀ t, IsFirstTree (fun u => rd.Router.methodMatch u.method ctx.Request.Method = true)
        rd.Router.garden t →
      rd.processRequest E h ctx = rd.Router.find E h t ctx.Request.URL.Path ctx ∧
      rd.Router.processRequest E h ctx = rd.Router.find E h t ctx.Request.URL.Path ctx) ∧
    lookups (issued ctx (rd.processRequest E h ctx).2) =
      lookups (issued ctx (rd.Router.processRequest E h ctx).2) := by
  have he : rd.processRequest E h ctx = rd.Router.processRequest E h ctx :=
    domain_loop_eq_router_loop E h rd ctx _ _ hg
  refine ⟨he, ?_, by rw [he]⟩
  intro t ht
  have := processRequest_first E h rd.Router ctx t ht
  exact ⟨he.trans this, this⟩

/-- Witness of C29: the request `GET /x` on a garden with one `GET` tree without host. -/
theorem domain_router_equals_router_without_hosts_witness :
    (∀ t ∈ [(⟨str "GET", some 0, [], false, false⟩ : tree)], t.hosts = false) ∧
    RouterDomain.processRequest literalExternals ⟨1, [⟨0, str "/x", [7]⟩]⟩
        ⟨⟨defaultOptions, [⟨str "GET", some 0, [], false, false⟩], MethodMatch⟩⟩
        (mkContext (mkRequest (str "GET") (str "a.com") (str "/x"))) =
      Router.processRequest literalExternals ⟨1, [⟨0, str "/x", [7]⟩]⟩
        ⟨defaultOptions, [⟨str "GET", some 0, [], false, false⟩], MethodMatch⟩
        (mkContext (mkRequest (str "GET") (str "a.com") (str "/x"))) :=
  have hg : ∀ t ∈ [(⟨str "GET", some 0, [], false, false⟩ : tree)], t.hosts = false := by
    intro t ht
    rw [List.mem_singleton.mp ht]
  ⟨hg, (domain_router_equals_router_without_hosts literalExternals ⟨1, [⟨0, str "/x", [7]⟩]⟩
    ⟨⟨defaultOptions, [⟨str "GET", some 0, [], false, false⟩], MethodMatch⟩⟩
    (mkContext (mkRequest (str "GET") (str "a.com") (str "/x"))) hg).1⟩

/-- C28: after planting `GET /x` for the host `a.com` and `POST /y` without host, the
request `POST /y` with the host `a.com` is dispatched to the `POST` tree, which is not
host-scoped, with the lookup key `a.com/y`: the host is in front of the path, while `Plant`
stored the route under `/y`; the lookup finds nothing and the request is answered with
`NotFound`, whereas the lookup under `/y` serves it. -/
theorem domain_lookup_key_keeps_host_for_plain_tree :
    plantAll ⟨0, []⟩ emptyGarden
        [⟨str "GET", str "a.com", str "/x", [1], false⟩,
         ⟨str "POST", [], str "/y", [2], false⟩] =
      (⟨2, [⟨0, str "a.com/x", [1]⟩, ⟨1, str "/y", [2]⟩]⟩,
        [⟨str "GET", some 0, str "a.com", true, false⟩,
         ⟨str "POST", some 1, [], false, false⟩]) ∧
    RouterDomain.processRequest literalExternals
        ⟨2, [⟨0, str "a.com/x", [1]⟩, ⟨1, str "/y", [2]⟩]⟩
        ⟨⟨defaultOptions,
          [⟨str "GET", some 0, str "a.com", true, false⟩,
           ⟨str "POST", some 1, [], false, false⟩], MethodMatch⟩⟩
        (mkContext (mkRequest (str "POST") (str "a.com") (str "/y"))) =
      (false,
        ⟨mkRequest (str "POST") (str "a.com") (str "/y"), [], none,
          [.GetBranch (some 1) (str "a.com/y") [], .NotFound]⟩) ∧
    Router.find literalExternals
        ⟨2, [⟨0, str "a.com/x", [1]⟩, ⟨1, str "/y", [2]⟩]⟩
        ⟨defaultOptions,
          [⟨str "GET", some 0, str "a.com", true, false⟩,
           ⟨str "POST", some 1, [], false, false⟩], MethodMatch⟩
        ⟨str "POST", some 1, [], false, false⟩ (str "/y")
        (mkContext (mkRequest (str "POST") (str "a.com") (str "/y"))) =
      (true,
        ⟨mkRequest (str "POST") (str "a.com") (str "/y"), [], some [2],
          [.GetBranch (some 1) (str "/y") [], .Do [] (some [2]), .ForceHeader]⟩) := by
  refine ⟨by decide, by decide, by decide⟩

/-! ## The corrected path -/

theorem slash_eq : Slash = [SlashByte] := by decide

theorem str_slash_length : (str "/").length = 1 := by decide

/-- C30: the corrected path `Router.find` computes is never empty; it equals the path of
the request exactly when that path is `/`; and for a path longer than one byte it is the
path without its trailing `/` or the path with a `/` added at the end.  This is the path
`find` puts into the request URL when it redirects. -/
theorem correctedPath_never_empty_and_differs :
    (∀ p : GoString, correctedPath p ≠ []) ∧
    (∀ p : GoString, p ≠ str "/" → correctedPath p ≠ p) ∧
    (∀ p : GoString, correctedPath p = p ↔ p = str "/") ∧
    (∀ p : GoString, 1 < p.length →
      (correctedPath p ++ str "/" = p ∧ p.getLast? = some 47) ∨
      (correctedPath p = p ++ str "/" ∧ p.getLast? ≠ some 47)) ∧
    (∀ (E : Externals) (h : Heap) (r : Router) (t : tree) (key : GoString) (ctx : Context),
      (E.GetBranch (h.deref t.rootBranch) key ctx.Params).middleware = none →
      redirectCondition E h r t key ctx →
      (r.find E h t key ctx).2.Request.URL.Path = correctedPath ctx.Request.URL.Path) := by
  have hlong : ∀ p : GoString, 1 < p.length →
      (correctedPath p ++ str "/" = p ∧ p.getLast? = some 47) ∨
      (correctedPath p = p ++ str "/" ∧ p.getLast? ≠ some 47) := by
    intro p hp
    by_cases hl : p.getLast? = some SlashByte
    · left
      refine ⟨?_, hl⟩
      rw [correctedPath_slash p hp hl]
      have hne : p ≠ [] := by
        intro e
        rw [e] at hp
        simp at hp
      have hlast : p.getLast hne = SlashByte := by
        rw [List.getLast?_eq_getLast _ hne] at hl
        exact Option.some.inj hl
      have := List.dropLast_append_getLast hne
      rw [hlast] at this
      exact this
    · right
      exact ⟨correctedPath_no_slash p hp hl, hl⟩
  have hfix : ∀ p : GoString, correctedPath p = p ↔ p = str "/" := by
    intro p
    constructor
    · intro he
      by_cases hp : p.length ≤ 1
      · rw [correctedPath_short p hp] at he
        exact he.symm
      · exfalso
        have hp2 : 1 < p.length := by omega
        rcases hlong p hp2 with ⟨h1, _⟩ | ⟨h1, _⟩
        · rw [he] at h1
          have := congrArg List.length h1
          rw [List.length_append, str_slash_length] at this
          omega
        · rw [he] at h1
          have := congrArg List.length h1
          rw [List.length_append, str_slash_length] at this
          omega
    · intro he
      rw [he]
      decide
  refine ⟨?_, ?_, hfix, hlong, ?_⟩
  · intro p he
    by_cases hp : p.length ≤ 1
    · rw [correctedPath_short p hp] at he
      exact absurd he (by decide)
    · have hp2 : 1 < p.length := by omega
      rcases hlong p hp2 with ⟨h1, _⟩ | ⟨h1, _⟩
      · rw [he] at h1
        have := congrArg List.length h1
        rw [List.length_append, str_slash_length, List.length_nil] at this
        omega
      · rw [he] at h1
        have := congrArg List.length h1
        rw [List.length_append, str_slash_length, List.length_nil] at this
        omega
  · intro p hne he
    exact hne ((hfix p).mp he)
  · intro E h r t key ctx hm hc
    rw [find_of_redirect E h r t key ctx hm hc]
    split_ifs <;> rfl

/-- Witness of C30: the corrected path of `/home` is not `/home`. -/
theorem correctedPath_never_empty_and_differs_witness :
    str "/home" ≠ str "/" ∧ correctedPath (str "/home") ≠ str "/home" :=
  ⟨by decide, correctedPath_never_empty_and_differs.2.1 (str "/home") (by decide)⟩

/-! ## Routes added after the specialization pass -/

theorem mapRouter_getRouter (f : Router → Router) (r : IRouter) :
    (r.mapRouter f).getRouter = f r.getRouter := by
  cases r with
  | router r => rfl
  | memory m => rfl
  | sync x =>
    obtain ⟨im⟩ := x
    cases im <;> rfl
  | domain d => rfl
  | memoryDomain m => rfl

/-- Every variant dispatches with the `Router` it embeds: a domain-aware variant by
`RouterDomain.processRequest`, the others by `Router.processRequest`. -/
theorem processRequest_by_variant (E : Externals) (h : Heap) (r : IRouter) (ctx : Context) :
    r.processRequest E h ctx =
      if r.domainAware = true then RouterDomain.processRequest E h ⟨r.getRouter⟩ ctx
      else r.getRouter.processRequest E h ctx := by
  cases r with
  | router r => rfl
  | memory m => rfl
  | sync x =>
    obtain ⟨im⟩ := x
    cases im <;> rfl
  | domain d => rfl
  | memoryDomain m => rfl

theorem mapRouter_variant (f : Router → Router) (r : IRouter) :
    (r.mapRouter f).variant = r.variant ∧ (r.mapRouter f).cache = r.cache ∧
    (r.mapRouter f).getType = r.getType := by
  cases r with
  | router r => exact ⟨rfl, rfl, rfl⟩
  | memory m => exact ⟨rfl, rfl, rfl⟩
  | sync x =>
    obtain ⟨im⟩ := x
    cases im <;> exact ⟨rfl, rfl, rfl⟩
  | domain d => exact ⟨rfl, rfl, rfl⟩
  | memoryDomain m => exact ⟨rfl, rfl, rfl⟩

/-- C22 (as stated, refuted): on the station created with the default options and an empty
garden, the request `GET /x` is answered with `NotFound` after `OptimusPrime`; once the
route `GET /x` is added (planted and stored with `setGarden`) the same request is served by
the chain of the route. -/
theorem route_added_after_optimusPrime_is_served :
    (((stationWith false []).OptimusPrime 1).IRouter.processRequest literalExternals ⟨0, []⟩
        (mkContext (mkRequest (str "GET") [] (str "/x")))) =
      (false, ⟨mkRequest (str "GET") [] (str "/x"), [], none, [.NotFound]⟩) ∧
    ((((stationWith false []).OptimusPrime 1).addRoute ⟨0, []⟩
        ⟨str "GET", [], str "/x", [7], false⟩).2.IRouter.processRequest literalExternals
        (((stationWith false []).OptimusPrime 1).addRoute ⟨0, []⟩
          ⟨str "GET", [], str "/x", [7], false⟩).1
        (mkContext (mkRequest (str "GET") [] (str "/x")))) =
      (true, ⟨mkRequest (str "GET") [] (str "/x"), [], some [7],
        [.GetBranch (some 0) (str "/x") [], .Do [] (some [7]), .ForceHeader]⟩) ∧
    ((((stationWith false []).OptimusPrime 1).addRoute ⟨0, []⟩
        ⟨str "GET", [], str "/x", [7], false⟩).2.IRouter.processRequest literalExternals
        (((stationWith false []).OptimusPrime 1).addRoute ⟨0, []⟩
          ⟨str "GET", [], str "/x", [7], false⟩).1
        (mkContext (mkRequest (str "GET") [] (str "/x")))) ≠
      (((stationWith false []).OptimusPrime 1).IRouter.processRequest literalExternals ⟨0, []⟩
        (mkContext (mkRequest (str "GET") [] (str "/x")))) := by
  refine ⟨by decide, by decide, by decide⟩

/-- C22 (amended): a route added to a station after `OptimusPrime` (planted into the garden
and stored with `setGarden`) does not re-run the specialization: the dispatcher variant, the
type of the router, the method match, the cache and the flag `optimized` stay as they
were, and a further `OptimusPrime` changes nothing; the embedded `Router` differs only in
its garden, which is the garden `Plant` returned and has a tree for the method and domain
of the route, and every request is dispatched after the addition by the unchanged
dispatcher, `RouterDomain.processRequest` for a domain-aware variant and
`Router.processRequest` otherwise, on that garden with the unchanged method match. -/
theorem route_added_after_optimusPrime_keeps_specialization (h : Heap) (s : Station)
    (r : Route) (cpus : Nat) (ho : s.optimized = true) :
    (s.addRoute h r).2.IRouter.variant = s.IRouter.variant ∧
    (s.addRoute h r).2.IRouter.getType = s.IRouter.getType ∧
    (s.addRoute h r).2.matcher = s.matcher ∧
    (s.addRoute h r).2.IRouter.cache = s.IRouter.cache ∧
    (s.addRoute h r).2.optimized = true ∧
    (s.addRoute h r).2.OptimusPrime cpus = (s.addRoute h r).2 ∧
    (s.addRoute h r).2.IRouter.getGarden = (Garden.Plant h s.IRouter.getGarden r).2 ∧
    r.tag ∈ (s.addRoute h r).2.IRouter.getGarden.tags ∧
    (s.addRoute h r).2.IRouter.getRouter =
      s.IRouter.getRouter.setGarden (Garden.Plant h s.IRouter.getGarden r).2 ∧
    (∀ (E : Externals) (h1 : Heap) (ctx : Context),
      (s.addRoute h r).2.IRouter.processRequest E h1 ctx =
        if s.IRouter.domainAware = true then
          RouterDomain.processRequest E h1
            ⟨s.IRouter.getRouter.setGarden (Garden.Plant h s.IRouter.getGarden r).2⟩ ctx
        else
          Router.processRequest E h1
            (s.IRouter.getRouter.setGarden (Garden.Plant h s.IRouter.getGarden r).2) ctx) := by
  have hv := mapRouter_variant
    (fun x => x.setGarden (Garden.Plant h s.IRouter.getGarden r).2) s.IRouter
  have hr := mapRouter_getRouter
    (fun x => x.setGarden (Garden.Plant h s.IRouter.getGarden r).2) s.IRouter
  have hopt : (s.addRoute h r).2.optimized = true := ho
  have hg : (s.addRoute h r).2.IRouter.getGarden = (Garden.Plant h s.IRouter.getGarden r).2 := by
    show (IRouter.mapRouter (fun x => x.setGarden (Garden.Plant h s.IRouter.getGarden r).2)
      s.IRouter).getRouter.getGarden = _
    rw [hr]
    rfl
  refine ⟨hv.1, hv.2.2, ?_, hv.2.1, hopt, optimusPrime_of_optimized cpus _ hopt, hg, ?_, hr,
    ?_⟩
  · show (IRouter.mapRouter (fun x => x.setGarden (Garden.Plant h s.IRouter.getGarden r).2)
      s.IRouter).getRouter.methodMatch = _
    rw [hr]
    rfl
  · rw [hg]
    exact Plant_tag_mem h _ r
  · intro E h1 ctx
    have hd : (IRouter.mapRouter
        (fun x => x.setGarden (Garden.Plant h s.IRouter.getGarden r).2) s.IRouter).domainAware =
        s.IRouter.domainAware := congrArg Prod.fst hv.1
    show (IRouter.mapRouter (fun x => x.setGarden (Garden.Plant h s.IRouter.getGarden r).2)
      s.IRouter).processRequest E h1 ctx = _
    rw [processRequest_by_variant, hd, hr]

/-- Witness of C22 (amended): the route `GET /x` for the host `a.com` added after
`OptimusPrime` to the station created with the default options and an empty garden is
dispatched by `Router.processRequest`, which looks up the path without the host: the
request `GET /x` to `a.com` is answered with `NotFound`. -/
theorem route_added_after_optimusPrime_keeps_specialization_witness :
    ((stationWith false []).OptimusPrime 1).optimized = true ∧
    (((stationWith false []).OptimusPrime 1).addRoute ⟨0, []⟩
      ⟨str "GET", str "a.com", str "/x", [7], false⟩).2.IRouter.getType = .Normal ∧
    (((stationWith false []).OptimusPrime 1).addRoute ⟨0, []⟩
        ⟨str "GET", str "a.com", str "/x", [7], false⟩).2.IRouter.processRequest
        literalExternals
        (((stationWith false []).OptimusPrime 1).addRoute ⟨0, []⟩
          ⟨str "GET", str "a.com", str "/x", [7], false⟩).1
        (mkContext (mkRequest (str "GET") (str "a.com") (str "/x"))) =
      (false, ⟨mkRequest (str "GET") (str "a.com") (str "/x"), [], none,
        [.GetBranch (some 0) (str "/x") [], .NotFound]⟩) :=
  ⟨rfl,
   (route_added_after_optimusPrime_keeps_specialization ⟨0, []⟩
      ((stationWith false []).OptimusPrime 1)
      ⟨str "GET", str "a.com", str "/x", [7], false⟩ 1 rfl).2.1.trans rfl,
   ((route_added_after_optimusPrime_keeps_specialization ⟨0, []⟩
      ((stationWith false []).OptimusPrime 1)
      ⟨str "GET", str "a.com", str "/x", [7], false⟩ 1 rfl).2.2.2.2.2.2.2.2.2
      literalExternals _ _).trans (by decide)⟩

/-! ## The plugin container -/

/-- C25 (as stated, refuted): the plugin `A`, whose `Activate` registers the plugin `B` and
then returns an error, makes `Plugin` return an error on the empty container, yet the list
of activated plugins is no longer empty: it holds `B`. -/
theorem plugin_error_after_nested_registration_changes_list :
    PluginContainer.Plugin ⟨[]⟩ failingAfterRegistering =
      ⟨true, ⟨[⟨str "B", str "registered by A", false, .done false⟩]⟩,
        [failingAfterRegistering, ⟨str "B", str "registered by A", false, .done false⟩]⟩ ∧
    (PluginContainer.Plugin ⟨[]⟩ failingAfterRegistering).err = true ∧
    (PluginContainer.Plugin ⟨[]⟩ failingAfterRegistering).container ≠ ⟨[]⟩ := by
  refine ⟨by decide, by decide, by decide⟩

/-- C25 (amended): when a plugin with the same name is activated, `Plugin` returns an error,
leaves the container as it is and does not call `Activate`; otherwise it calls `Activate`
once, first of all; when `Activate` returns an error `Plugin` returns an error and does not
add the plugin, so the container is as `Activate` left it, unchanged when `Activate` made
no call on the container; when `Activate` returns nil, `Plugin` returns nil and the plugin
is appended as the last element of the list as `Activate` left it. -/
theorem plugin_outcomes (p : PluginContainer) (plugin : IPlugin) :
    (p.GetByName plugin.name ≠ none → p.Plugin plugin = ⟨true, p, []⟩) ∧
    (p.GetByName plugin.name = none → (plugin.Activate p).err = true →
      p.Plugin plugin =
        ⟨true, (plugin.Activate p).container, plugin :: (plugin.Activate p).activated⟩) ∧
    (p.GetByName plugin.name = none → (plugin.Activate p).err = false →
      p.Plugin plugin =
        ⟨false, ⟨(plugin.Activate p).container.activatedPlugins ++ [plugin]⟩,
          plugin :: (plugin.Activate p).activated⟩) ∧
    (∀ (name description : GoString) (preListen err : Bool),
      IPlugin.Activate ⟨name, description, preListen, .done err⟩ p = ⟨err, p, []⟩) ∧
    (∀ (name description : GoString) (preListen : Bool),
      p.GetByName name = none →
      p.Plugin ⟨name, description, preListen, .done true⟩ =
        ⟨true, p, [⟨name, description, preListen, .done true⟩]⟩) := by
  refine ⟨?_, ?_, ?_, ?_, ?_⟩
  · intro hdup
    simp [PluginContainer.Plugin, PluginContainer.pluginStep, hdup]
  · intro hnone herr
    simp [PluginContainer.Plugin, PluginContainer.pluginStep, hnone, herr]
  · intro hnone hok
    simp [PluginContainer.Plugin, PluginContainer.pluginStep, hnone, hok]
  · intro name description preListen err
    rfl
  · intro name description preListen hnone
    simp [PluginContainer.Plugin, PluginContainer.pluginStep, hnone, IPlugin.Activate,
      Activation.run]

/-- Witness of C25 (amended): registering `innerA` twice: the first call appends it, the
second returns an error and leaves the container as it is. -/
theorem plugin_outcomes_witness :
    PluginContainer.GetByName ⟨[innerA]⟩ innerA.name ≠ none ∧
    PluginContainer.Plugin ⟨[innerA]⟩ innerA = ⟨true, ⟨[innerA]⟩, []⟩ ∧
    PluginContainer.Plugin ⟨[]⟩ innerA = ⟨false, ⟨[innerA]⟩, [innerA]⟩ :=
  ⟨by decide, (plugin_outcomes ⟨[innerA]⟩ innerA).1 (by decide),
   ((plugin_outcomes ⟨[]⟩ innerA).2.2.1 (by decide) (by decide)).trans (by decide)⟩

/-- C26: registering on the empty container the plugin `outerA`, named `A`, whose
`Activate` registers `innerA`, a plugin of the same name, returns nil and leaves two
activated plugins named `A`. -/
theorem plugin_registered_from_activate_duplicates_name :
    PluginContainer.Plugin ⟨[]⟩ outerA = ⟨false, ⟨[innerA, outerA]⟩, [outerA, innerA]⟩ ∧
    (PluginContainer.calls ⟨[]⟩ [.Plugin outerA]).activatedPlugins.map IPlugin.name =
      [str "A", str "A"] ∧
    ¬ ((PluginContainer.calls ⟨[]⟩ [.Plugin outerA]).activatedPlugins.map IPlugin.name).Nodup := by
  refine ⟨by decide, by decide, by decide⟩

/-- C27: on the container with the two plugins named `A` that registering `outerA` leaves,
`RemovePlugin("A")` removes the last of them only: `innerA` stays activated and
`GetByName("A")` returns it. -/
theorem removePlugin_leaves_plugin_of_same_name :
    PluginContainer.calls ⟨[]⟩ [.Plugin outerA] = ⟨[innerA, outerA]⟩ ∧
    PluginContainer.RemovePlugin ⟨[innerA, outerA]⟩ (str "A") = ⟨[innerA]⟩ ∧
    PluginContainer.GetByName (PluginContainer.RemovePlugin ⟨[innerA, outerA]⟩ (str "A"))
      (str "A") = some innerA := by
  refine ⟨by decide, by decide, by decide⟩

end Iris
